import Mathlib

/-!
# RLC bearer manager: srslte::rlc (lib/src/upper/rlc.cc)

A shallow embedding of the bearer manager.  The manager owns two
std::map tables (rlc_array for unicast LCIDs, rlc_array_mrb for
multicast LCIDs) whose values are pointers to heap-allocated entities.

Modelling conventions.

* Integers (uint32_t LCIDs, N_bytes, addresses) are natural numbers; the
  manager performs no arithmetic on them, only comparisons.
* An entity pointer is an address (a natural number); the heap maps an
  address to the entity object living there.  The allocator hands out
  the address `next` and increments it.
* Every call the manager makes on a collaborator (an entity, the buffer
  pool, the reader/writer lock) is appended to `trace`, in program
  order.  Calls to the logger and to rrc->get_rb_name only produce
  diagnostics and are not recorded.
* Code that can raise or that dereferences an iterator (std::map::at,
  it->second) returns an Option: `none` stands for the exception or for
  the undefined dereference of end().
* Constants and declarations that live in headers outside this
  translation unit are collected in `Env`.
-/

namespace srslte

/-- Mode tag of an entity or of a configuration.  The switch of
add_bearer names three enumerators; every other value of the enumeration
goes to its default branch and is represented by `invalid`. -/
inductive rlc_mode_t where
  | RLC_MODE_TM
  | RLC_MODE_UM
  | RLC_MODE_AM
  | invalid (raw : Nat)
  deriving DecidableEq, Repr

/-- Acknowledged-mode parameters, named as in rlc.cc:408-413.  A value
`none` of poll_pdu or poll_byte stands for infinity; times are in
milliseconds. -/
structure srslte_rlc_am_config_t where
  t_poll_retx : Nat
  poll_pdu : Option Nat
  poll_byte : Option Nat
  max_retx_thres : Nat
  t_reordering : Nat
  t_status_prohibit : Nat
  deriving DecidableEq, Repr

/-- Unacknowledged-mode parameters; the manager never inspects them. -/
structure srslte_rlc_um_config_t where
  t_reordering : Nat
  is_mrb : Bool
  deriving DecidableEq, Repr

/-- Configuration handed to add_bearer: a mode tag and the parameters of
the two configurable modes. -/
structure srslte_rlc_config_t where
  rlc_mode : rlc_mode_t
  am : srslte_rlc_am_config_t
  um : srslte_rlc_um_config_t
  deriving DecidableEq, Repr

/-- Modelled from the spec: the default constructor srslte_rlc_config_t()
is declared in srslte/upper/rlc_interface.h, which is not part of this
translation unit.  The spec says the default control-channel bearer is
Transparent Mode and that Transparent Mode carries no tunable parameters
(rlc.cc:78 and rlc.cc:401 say the same in comments). -/
def srslte_rlc_config_t.default_ctor : srslte_rlc_config_t :=
  { rlc_mode := rlc_mode_t.RLC_MODE_TM
    am := { t_poll_retx := 0, poll_pdu := some 0, poll_byte := some 0,
            max_retx_thres := 0, t_reordering := 0, t_status_prohibit := 0 }
    um := { t_reordering := 0, is_mrb := false } }

/-- Packet buffer: the length field read by write_sdu and the payload. -/
structure byte_buffer_t where
  N_bytes : Nat
  msg : List Nat
  deriving DecidableEq, Repr

/-- Wall-clock sample as returned by gettimeofday. -/
structure timeval where
  tv_sec : Int
  tv_usec : Int
  deriving DecidableEq, Repr

/-- Value of a double expression of get_metrics: an exact rational, or one
of the non-finite results IEEE 754 gives to a division by zero.  Rounding
is not modelled. -/
inductive double_t where
  | finite (q : ℚ)
  | pos_inf
  | neg_inf
  | nan
  deriving DecidableEq

/-- Division of doubles: a zero divisor gives NaN for a zero dividend and
an infinity otherwise; there is no trap. -/
def double_t.div (x y : ℚ) : double_t :=
  if y = 0 then (if x = 0 then double_t.nan else if 0 < x then double_t.pos_inf
    else double_t.neg_inf)
  else double_t.finite (x / y)

/-- The expression `(n*8/static_cast<double>(1e6))/secs` of rlc.cc:114-127;
the width of the byte counter is declared with the entity classes and is
not modelled. -/
def tput_mbps (num_bytes : Nat) (secs : ℚ) : double_t :=
  double_t.div (((num_bytes : ℚ) * 8) / 1000000) secs

/-- Modelled from the spec: get_time_interval is defined in another
translation unit.  The spec says the snapshot computes the elapsed time
from previous-sample (entry 1) to current-sample (entry 2); the result is
stored in entry 0. -/
def get_time_interval (t1 t2 : timeval) : timeval :=
  { tv_sec := t2.tv_sec - t1.tv_sec, tv_usec := t2.tv_usec - t1.tv_usec }

/-- The expression `(double)tv_sec + tv_usec*1e-6` of rlc.cc:111. -/
def timeval.secs (t : timeval) : ℚ :=
  (t.tv_sec : ℚ) + (t.tv_usec : ℚ) / 1000000

/-- The two arrays of rlc_metrics_t that get_metrics writes, indexed by
LCID; their length is declared in a header and is not modelled. -/
structure rlc_metrics_t where
  dl_tput_mbps : Nat → double_t
  ul_tput_mbps : Nat → double_t

/-- A snapshot whose entries are all zero, as a caller may pass to
get_metrics. -/
def rlc_metrics_t.zero : rlc_metrics_t :=
  { dl_tput_mbps := fun _ => double_t.finite 0, ul_tput_mbps := fun _ => double_t.finite 0 }

/-- The fields of the asn1 value rlc_cfg_c of type am that
add_bearer(uint32_t) fills in (rlc.cc:405-413); each enumerator is
written as the quantity it names (ms45 is 45, t4 is 4, p_infinity and
kbinfinity are `none`). -/
structure rlc_cfg_am where
  ul_t_poll_retx : Nat
  ul_poll_pdu : Option Nat
  ul_poll_byte : Option Nat
  ul_max_retx_thres : Nat
  dl_t_reordering : Nat
  dl_t_status_prohibit : Nat
  deriving DecidableEq, Repr

/-- Modelled from the spec: the converting constructor
srslte_rlc_config_t(rlc_cfg_c*) is declared in a header.  The spec says
the overload without config derives an Acknowledged Mode configuration
with the given timer and threshold values. -/
def srslte_rlc_config_t.of_rlc_cfg_am (c : rlc_cfg_am) : srslte_rlc_config_t :=
  { rlc_mode := rlc_mode_t.RLC_MODE_AM
    am := { t_poll_retx := c.ul_t_poll_retx, poll_pdu := c.ul_poll_pdu,
            poll_byte := c.ul_poll_byte, max_retx_thres := c.ul_max_retx_thres,
            t_reordering := c.dl_t_reordering, t_status_prohibit := c.dl_t_status_prohibit }
    um := { t_reordering := 0, is_mrb := false } }

/-- Calls made by the manager on its collaborators. -/
inductive Event where
  | rdlock
  | wrlock
  | unlock
  | new (e : Nat) (mode : rlc_mode_t)
  | init (e : Nat) (lcid : Nat)
  | configure (e : Nat) (cnfg : srslte_rlc_config_t)
  | stop (e : Nat)
  | delete (e : Nat)
  | reset_metrics (e : Nat)
  | write_sdu (e : Nat) (sdu : byte_buffer_t) (blocking : Bool)
  | deallocate (sdu : byte_buffer_t)
  | reestablish (e : Nat)
  | empty_queue (e : Nat)
  | get_mode (e : Nat)
  | has_data (e : Nat)
  | get_buffer_state (e : Nat)
  | read_pdu (e : Nat) (nof_bytes : Nat)
  | write_pdu (e : Nat) (payload : List Nat) (nof_bytes : Nat)
  | pool_allocate (buf : Option byte_buffer_t)
  | pdcp_write_pdu_bcch_bch (buf : byte_buffer_t)
  | pdcp_write_pdu_bcch_dlsch (buf : byte_buffer_t)
  | pdcp_write_pdu_pcch (buf : byte_buffer_t)
  deriving DecidableEq, Repr

/-- What the manager can observe of an entity object: its class (the
value get_mode returns), the LCID given to init, and the configuration
given to configure. -/
structure rlc_common where
  mode : rlc_mode_t
  lcid : Option Nat
  cfg : Option srslte_rlc_config_t
  deriving DecidableEq, Repr

/-- Declarations this translation unit takes from headers and from its
collaborators: the three size constants, the number of bytes the storage
of a byte_buffer_t holds from its msg pointer on, the multicast profile
returned by srslte_rlc_config_t::mch_config(), the boolean an entity of a
given class returns from configure, the values an entity returns from
has_data, get_buffer_state, read_pdu, get_num_rx_bytes and
get_num_tx_bytes, and the result of the macro pool_allocate (`none` for
NULL).  The answers of the collaborators may depend on everything that
happened before, so they take the calls made so far as an argument. -/
structure Env where
  SRSLTE_N_RADIO_BEARERS : Nat
  SRSLTE_N_MCH_LCIDS : Nat
  RLC_MAX_SDU_SIZE : Nat
  msg_capacity : Nat
  mch_config : srslte_rlc_config_t
  configure : rlc_mode_t → srslte_rlc_config_t → Bool
  entity_has_data : List Event → Nat → Bool := fun _ _ => false
  entity_get_buffer_state : List Event → Nat → Nat := fun _ _ => 0
  entity_read_pdu : List Event → Nat → Nat → Nat := fun _ _ _ => 0
  entity_num_rx_bytes : List Event → Nat → Nat := fun _ _ => 0
  entity_num_tx_bytes : List Event → Nat → Nat := fun _ _ => 0
  pool_allocate : List Event → Option byte_buffer_t := fun _ => some ⟨0, []⟩

/-- The type rlc_map_t: a std::map from LCID to entity pointer, kept as
the list of its pairs in iteration order. -/
abbrev rlc_map_t := List (Nat × Nat)

/-- Lookup std::map::find; `none` is end(). -/
def rlc_map_t.find : rlc_map_t → Nat → Option Nat
  | [], _ => none
  | (k', v) :: m, k => if k' = k then some v else rlc_map_t.find m k

/-- Placement of a new pair in key order. -/
def rlc_map_t.place : rlc_map_t → Nat → Nat → rlc_map_t
  | [], k, v => [(k, v)]
  | (k', v') :: m, k, v =>
    if k < k' then (k, v) :: (k', v') :: m else (k', v') :: rlc_map_t.place m k v

/-- Insertion std::map::insert: when the key is already there the map is
left alone and the second component is false. -/
def rlc_map_t.insert (m : rlc_map_t) (k v : Nat) : rlc_map_t × Bool :=
  match rlc_map_t.find m k with
  | some _ => (m, false)
  | none => (rlc_map_t.place m k v, true)

/-- Removal std::map::erase of the element with key k. -/
def rlc_map_t.erase : rlc_map_t → Nat → rlc_map_t
  | [], _ => []
  | (k', v) :: m, k => if k' = k then rlc_map_t.erase m k else (k', v) :: rlc_map_t.erase m k

/-- The manager object. -/
structure rlc where
  rlc_array : rlc_map_t
  rlc_array_mrb : rlc_map_t
  default_lcid : Nat
  metrics_time0 : timeval
  metrics_time1 : timeval
  metrics_time2 : timeval
  heap : Nat → Option rlc_common
  next : Nat
  trace : List Event

namespace rlc

/-- Record one collaborator call. -/
def emit (s : rlc) (ev : Event) : rlc :=
  { s with trace := s.trace ++ [ev] }

/-- The constructor rlc::rlc(): empty tables, zeroed timestamps. -/
def ctor : rlc :=
  { rlc_array := []
    rlc_array_mrb := []
    default_lcid := 0
    metrics_time0 := ⟨0, 0⟩
    metrics_time1 := ⟨0, 0⟩
    metrics_time2 := ⟨0, 0⟩
    heap := fun _ => none
    next := 0
    trace := [] }

/-- Allocation `new rlc_tm()`, `new rlc_am()` or `new rlc_um()`: a fresh
object of the given class at the next address. -/
def new_entity (s : rlc) (mode : rlc_mode_t) : rlc × Nat :=
  ({ s with
      heap := Function.update s.heap s.next (some { mode := mode, lcid := none, cfg := none })
      next := s.next + 1
      trace := s.trace ++ [Event.new s.next mode] }, s.next)

/-- The call rlc_entity->init(rlc_log, lcid, pdcp, rrc, mac_timers). -/
def entity_init (s : rlc) (e lcid : Nat) : rlc :=
  { s with
      heap := Function.update s.heap e ((s.heap e).map fun o => { o with lcid := some lcid })
      trace := s.trace ++ [Event.init e lcid] }

/-- The call rlc_entity->configure(cnfg) and its boolean result. -/
def entity_configure (E : Env) (s : rlc) (e : Nat) (cnfg : srslte_rlc_config_t) : rlc × Bool :=
  ({ s with
      heap := Function.update s.heap e ((s.heap e).map fun o => { o with cfg := some cnfg })
      trace := s.trace ++ [Event.configure e cnfg] },
   match s.heap e with
   | some o => E.configure o.mode cnfg
   | none => false)

/-- The call it->second->stop(). -/
def entity_stop (s : rlc) (e : Nat) : rlc :=
  s.emit (Event.stop e)

/-- The statement delete(rlc_entity). -/
def entity_delete (s : rlc) (e : Nat) : rlc :=
  s.emit (Event.delete e)

/-- Helper rlc::valid_lcid (rlc.cc:583-595). -/
def valid_lcid (E : Env) (s : rlc) (lcid : Nat) : Bool :=
  if lcid ≥ E.SRSLTE_N_RADIO_BEARERS then false
  else if rlc_map_t.find s.rlc_array lcid = none then false
  else true

/-- Helper rlc::valid_lcid_mrb (rlc.cc:597-609). -/
def valid_lcid_mrb (E : Env) (s : rlc) (lcid : Nat) : Bool :=
  if lcid ≥ E.SRSLTE_N_MCH_LCIDS then false
  else if rlc_map_t.find s.rlc_array_mrb lcid = none then false
  else true

/-- Query rlc::has_bearer (rlc.cc:570-576). -/
def has_bearer (E : Env) (s : rlc) (lcid : Nat) : rlc × Bool :=
  let s1 := s.emit Event.rdlock
  let ret := valid_lcid E s1 lcid
  (s1.emit Event.unlock, ret)

/-- The switch on cnfg.rlc_mode in add_bearer (rlc.cc:426-440); `none` is
the default branch, which constructs nothing. -/
def switch_new (s : rlc) : rlc_mode_t → Option (rlc × Nat)
  | rlc_mode_t.RLC_MODE_TM => some (s.new_entity rlc_mode_t.RLC_MODE_TM)
  | rlc_mode_t.RLC_MODE_AM => some (s.new_entity rlc_mode_t.RLC_MODE_AM)
  | rlc_mode_t.RLC_MODE_UM => some (s.new_entity rlc_mode_t.RLC_MODE_UM)
  | rlc_mode_t.invalid _ => none

/-- Operation rlc::add_bearer(uint32_t, srslte_rlc_config_t)
(rlc.cc:419-469). -/
def add_bearer (E : Env) (s : rlc) (lcid : Nat) (cnfg : srslte_rlc_config_t) : rlc :=
  let s1 := s.emit Event.wrlock
  if valid_lcid E s1 lcid = false then
    match switch_new s1 cnfg.rlc_mode with
    | none => s1.emit Event.unlock
    | some (s2, e) =>
      let s3 := s2.entity_init e lcid
      let r := if cnfg.rlc_mode ≠ rlc_mode_t.RLC_MODE_TM then entity_configure E s3 e cnfg
               else (s3, true)
      if r.2 = false then (r.1.entity_delete e).emit Event.unlock
      else
        let ins := rlc_map_t.insert r.1.rlc_array lcid e
        if ins.2 = false then (r.1.entity_delete e).emit Event.unlock
        else ({ r.1 with rlc_array := ins.1 }).emit Event.unlock
  else
    s1.emit Event.unlock

/-- Operation rlc::add_bearer_mrb (rlc.cc:472-502). -/
def add_bearer_mrb (E : Env) (s : rlc) (lcid : Nat) : rlc :=
  let s1 := s.emit Event.wrlock
  if valid_lcid_mrb E s1 lcid = false then
    let n := s1.new_entity rlc_mode_t.RLC_MODE_UM
    let s3 := n.1.entity_init n.2 lcid
    let r := entity_configure E s3 n.2 E.mch_config
    if r.2 = false then (r.1.entity_delete n.2).emit Event.unlock
    else
      let ins := rlc_map_t.insert r.1.rlc_array_mrb lcid n.2
      if ins.2 = false then (r.1.entity_delete n.2).emit Event.unlock
      else ({ r.1 with rlc_array_mrb := ins.1 }).emit Event.unlock
  else
    s1.emit Event.unlock

/-- Operation rlc::del_bearer (rlc.cc:505-520). -/
def del_bearer (E : Env) (s : rlc) (lcid : Nat) : Option rlc :=
  let s1 := s.emit Event.wrlock
  if valid_lcid E s1 lcid then
    match rlc_map_t.find s1.rlc_array lcid with
    | none => none
    | some e =>
      let s2 := (s1.entity_stop e).entity_delete e
      some (({ s2 with rlc_array := rlc_map_t.erase s2.rlc_array lcid }).emit Event.unlock)
  else
    some (s1.emit Event.unlock)

/-- Operation rlc::del_bearer_mrb (rlc.cc:523-538). -/
def del_bearer_mrb (E : Env) (s : rlc) (lcid : Nat) : Option rlc :=
  let s1 := s.emit Event.wrlock
  if valid_lcid_mrb E s1 lcid then
    match rlc_map_t.find s1.rlc_array_mrb lcid with
    | none => none
    | some e =>
      let s2 := (s1.entity_stop e).entity_delete e
      some (({ s2 with rlc_array_mrb := rlc_map_t.erase s2.rlc_array_mrb lcid }).emit Event.unlock)
  else
    some (s1.emit Event.unlock)

/-- Operation rlc::change_lcid (rlc.cc:541-567).  The test after the
erase only selects a log line. -/
def change_lcid (E : Env) (s : rlc) (old_lcid new_lcid : Nat) : Option rlc :=
  let s1 := s.emit Event.wrlock
  if valid_lcid E s1 old_lcid && !valid_lcid E s1 new_lcid then
    match rlc_map_t.find s1.rlc_array old_lcid with
    | none => none
    | some rlc_entity =>
      let ins := rlc_map_t.insert s1.rlc_array new_lcid rlc_entity
      if ins.2 = false then some (s1.emit Event.unlock)
      else some (({ s1 with rlc_array := rlc_map_t.erase ins.1 old_lcid }).emit Event.unlock)
  else
    some (s1.emit Event.unlock)

/-- One pass of a loop `for (it = m.begin(); it != m.end(); ++it)` whose
body calls reset_metrics on it->second. -/
def reset_metrics_loop (m : rlc_map_t) (s : rlc) : rlc :=
  m.foldl (fun acc p => acc.emit (Event.reset_metrics p.2)) s

/-- Operation rlc::reset_metrics (rlc.cc:82-91). -/
def reset_metrics (s : rlc) : rlc :=
  reset_metrics_loop s.rlc_array_mrb (reset_metrics_loop s.rlc_array s)

/-- Operation rlc::init (rlc.cc:61-80); `now` is the value gettimeofday
stores in metrics_time[1]. -/
def init (E : Env) (s : rlc) (lcid_ : Nat) (now : timeval) : rlc :=
  let s1 := { s with default_lcid := lcid_ }
  let s2 := { s1 with metrics_time1 := now }
  let s3 := s2.reset_metrics
  add_bearer E s3 s3.default_lcid srslte_rlc_config_t.default_ctor

/-- One pass of a loop of reset whose body stops and deletes
it->second. -/
def stop_delete_loop (m : rlc_map_t) (s : rlc) : rlc :=
  m.foldl (fun acc p => (acc.entity_stop p.2).entity_delete p.2) s

/-- Operation rlc::reset (rlc.cc:166-186). -/
def reset (E : Env) (s : rlc) : rlc :=
  let s1 := s.emit Event.wrlock
  let s2 := stop_delete_loop s1.rlc_array s1
  let s3 := { s2 with rlc_array := [] }
  let s4 := stop_delete_loop s3.rlc_array_mrb s3
  let s5 := { s4 with rlc_array_mrb := [] }
  let s6 := s5.emit Event.unlock
  add_bearer E s6 s6.default_lcid srslte_rlc_config_t.default_ctor

/-- Operation rlc::write_sdu (rlc.cc:202-219). -/
def write_sdu (E : Env) (s : rlc) (lcid : Nat) (sdu : byte_buffer_t) (blocking : Bool) :
    Option rlc :=
  if sdu.N_bytes > E.RLC_MAX_SDU_SIZE then
    some (s.emit (Event.deallocate sdu))
  else
    let s1 := s.emit Event.rdlock
    if valid_lcid E s1 lcid then
      match rlc_map_t.find s1.rlc_array lcid with
      | none => none
      | some e => some ((s1.emit (Event.write_sdu e sdu blocking)).emit Event.unlock)
    else
      some ((s1.emit (Event.deallocate sdu)).emit Event.unlock)

/-- Operation rlc::write_sdu_mch (rlc.cc:221-231). -/
def write_sdu_mch (E : Env) (s : rlc) (lcid : Nat) (sdu : byte_buffer_t) : Option rlc :=
  let s1 := s.emit Event.rdlock
  if valid_lcid_mrb E s1 lcid then
    match rlc_map_t.find s1.rlc_array_mrb lcid with
    | none => none
    | some e => some ((s1.emit (Event.write_sdu e sdu false)).emit Event.unlock)
  else
    some ((s1.emit (Event.deallocate sdu)).emit Event.unlock)

/-- One pass of a loop whose body calls stop on it->second. -/
def stop_loop (m : rlc_map_t) (s : rlc) : rlc :=
  m.foldl (fun acc p => acc.entity_stop p.2) s

/-- Operation rlc::stop (rlc.cc:93-103). -/
def stop (s : rlc) : rlc :=
  let s1 := s.emit Event.rdlock
  let s2 := stop_loop s1.rlc_array s1
  let s3 := stop_loop s2.rlc_array_mrb s2
  s3.emit Event.unlock

/-- The unicast loop of get_metrics (rlc.cc:113-120): both arrays are
written at index it->first.  The counters are read with the calls made so
far; the reads themselves are not recorded. -/
def metrics_loop (E : Env) (tr : List Event) (secs : ℚ) (m : rlc_map_t)
    (acc : rlc_metrics_t) : rlc_metrics_t :=
  m.foldl (fun a p =>
    { dl_tput_mbps := Function.update a.dl_tput_mbps p.1
        (tput_mbps (E.entity_num_rx_bytes tr p.2) secs)
      ul_tput_mbps := Function.update a.ul_tput_mbps p.1
        (tput_mbps (E.entity_num_tx_bytes tr p.2) secs) }) acc

/-- The multicast loop of get_metrics (rlc.cc:123-128): dl_tput_mbps is
written at index it->first. -/
def metrics_loop_mrb (E : Env) (tr : List Event) (secs : ℚ) (m : rlc_map_t)
    (acc : rlc_metrics_t) : rlc_metrics_t :=
  m.foldl (fun a p =>
    { a with
      dl_tput_mbps := Function.update a.dl_tput_mbps p.1
        (tput_mbps (E.entity_num_rx_bytes tr p.2) secs) }) acc

/-- Operation rlc::get_metrics (rlc.cc:105-134); `now` is the value
gettimeofday stores in metrics_time[2]. -/
def get_metrics (E : Env) (s : rlc) (m : rlc_metrics_t) (now : timeval) :
    rlc × rlc_metrics_t :=
  let s1 := s.emit Event.rdlock
  let s2 := { s1 with metrics_time2 := now }
  let s3 := { s2 with metrics_time0 := get_time_interval s2.metrics_time1 s2.metrics_time2 }
  let secs := s3.metrics_time0.secs
  let m1 := metrics_loop E s3.trace secs s3.rlc_array m
  let m2 := metrics_loop_mrb E s3.trace secs s3.rlc_array_mrb m1
  let s4 := { s3 with metrics_time1 := s3.metrics_time2 }
  let s5 := s4.reset_metrics
  (s5.emit Event.unlock, m2)

/-- One pass of a loop whose body calls reestablish on it->second. -/
def reestablish_loop (m : rlc_map_t) (s : rlc) : rlc :=
  m.foldl (fun acc p => acc.emit (Event.reestablish p.2)) s

/-- Operation rlc::reestablish() (rlc.cc:137-150). -/
def reestablish (s : rlc) : rlc :=
  let s1 := s.emit Event.rdlock
  let s2 := reestablish_loop s1.rlc_array s1
  let s3 := reestablish_loop s2.rlc_array_mrb s2
  s3.emit Event.unlock

/-- Operation rlc::reestablish(uint32_t) (rlc.cc:153-162). -/
def reestablish_lcid (E : Env) (s : rlc) (lcid : Nat) : Option rlc :=
  let s1 := s.emit Event.rdlock
  if valid_lcid E s1 lcid then
    match rlc_map_t.find s1.rlc_array lcid with
    | none => none
    | some e => some ((s1.emit (Event.reestablish e)).emit Event.unlock)
  else
    some (s1.emit Event.unlock)

/-- One pass of the loop of empty_queue. -/
def empty_queue_loop (m : rlc_map_t) (s : rlc) : rlc :=
  m.foldl (fun acc p => acc.emit (Event.empty_queue p.2)) s

/-- Operation rlc::empty_queue (rlc.cc:188-196). -/
def empty_queue (s : rlc) : rlc :=
  let s1 := s.emit Event.rdlock
  let s2 := empty_queue_loop s1.rlc_array s1
  s2.emit Event.unlock

/-- Operation rlc::rb_is_um (rlc.cc:234-247); get_mode returns the class
of the object at the address, and a pointer to no object cannot be
dereferenced. -/
def rb_is_um (E : Env) (s : rlc) (lcid : Nat) : Option (rlc × Bool) :=
  let s1 := s.emit Event.rdlock
  if valid_lcid E s1 lcid then
    match rlc_map_t.find s1.rlc_array lcid with
    | none => none
    | some e =>
      match s1.heap e with
      | none => none
      | some o =>
        some ((s1.emit (Event.get_mode e)).emit Event.unlock,
          decide (o.mode = rlc_mode_t.RLC_MODE_UM))
  else
    some (s1.emit Event.unlock, false)

/-- Operation rlc::has_data (rlc.cc:252-263). -/
def has_data (E : Env) (s : rlc) (lcid : Nat) : Option (rlc × Bool) :=
  let s1 := s.emit Event.rdlock
  if valid_lcid E s1 lcid then
    match rlc_map_t.find s1.rlc_array lcid with
    | none => none
    | some e =>
      some ((s1.emit (Event.has_data e)).emit Event.unlock, E.entity_has_data s1.trace e)
  else
    some (s1.emit Event.unlock, false)

/-- Operation rlc::get_buffer_state (rlc.cc:265-276). -/
def get_buffer_state (E : Env) (s : rlc) (lcid : Nat) : Option (rlc × Nat) :=
  let s1 := s.emit Event.rdlock
  if valid_lcid E s1 lcid then
    match rlc_map_t.find s1.rlc_array lcid with
    | none => none
    | some e =>
      some ((s1.emit (Event.get_buffer_state e)).emit Event.unlock,
        E.entity_get_buffer_state s1.trace e)
  else
    some (s1.emit Event.unlock, 0)

/-- Operation rlc::get_total_mch_buffer_state (rlc.cc:278-290). -/
def get_total_mch_buffer_state (E : Env) (s : rlc) (lcid : Nat) : Option (rlc × Nat) :=
  let s1 := s.emit Event.rdlock
  if valid_lcid_mrb E s1 lcid then
    match rlc_map_t.find s1.rlc_array_mrb lcid with
    | none => none
    | some e =>
      some ((s1.emit (Event.get_buffer_state e)).emit Event.unlock,
        E.entity_get_buffer_state s1.trace e)
  else
    some (s1.emit Event.unlock, 0)

/-- Operation rlc::read_pdu (rlc.cc:292-305); the bytes the entity writes
to the caller's payload buffer are not modelled, only the count. -/
def read_pdu (E : Env) (s : rlc) (lcid : Nat) (nof_bytes : Nat) : Option (rlc × Nat) :=
  let s1 := s.emit Event.rdlock
  if valid_lcid E s1 lcid then
    match rlc_map_t.find s1.rlc_array lcid with
    | none => none
    | some e =>
      some ((s1.emit (Event.read_pdu e nof_bytes)).emit Event.unlock,
        E.entity_read_pdu s1.trace e nof_bytes)
  else
    some (s1.emit Event.unlock, 0)

/-- Operation rlc::read_pdu_mch (rlc.cc:307-320). -/
def read_pdu_mch (E : Env) (s : rlc) (lcid : Nat) (nof_bytes : Nat) : Option (rlc × Nat) :=
  let s1 := s.emit Event.rdlock
  if valid_lcid_mrb E s1 lcid then
    match rlc_map_t.find s1.rlc_array_mrb lcid with
    | none => none
    | some e =>
      some ((s1.emit (Event.read_pdu e nof_bytes)).emit Event.unlock,
        E.entity_read_pdu s1.trace e nof_bytes)
  else
    some (s1.emit Event.unlock, 0)

/-- Operation rlc::write_pdu (rlc.cc:322-331). -/
def write_pdu (E : Env) (s : rlc) (lcid : Nat) (payload : List Nat) (nof_bytes : Nat) :
    Option rlc :=
  let s1 := s.emit Event.rdlock
  if valid_lcid E s1 lcid then
    match rlc_map_t.find s1.rlc_array lcid with
    | none => none
    | some e => some ((s1.emit (Event.write_pdu e payload nof_bytes)).emit Event.unlock)
  else
    some (s1.emit Event.unlock)

/-- Operation rlc::write_pdu_mch (rlc.cc:378-385). -/
def write_pdu_mch (E : Env) (s : rlc) (lcid : Nat) (payload : List Nat) (nof_bytes : Nat) :
    Option rlc :=
  let s1 := s.emit Event.rdlock
  if valid_lcid_mrb E s1 lcid then
    match rlc_map_t.find s1.rlc_array_mrb lcid with
    | none => none
    | some e => some ((s1.emit (Event.write_pdu e payload nof_bytes)).emit Event.unlock)
  else
    some (s1.emit Event.unlock)

/-- The statements `memcpy(buf->msg, payload, nof_bytes)` and
`buf->N_bytes = nof_bytes` of the three pass-through functions.  The
payload is the list of bytes readable at the pointer: copying more bytes
than there are is undefined (`none`).  The functions do not compare
nof_bytes with the size of the buffer: copying more bytes than the buffer
holds from msg on writes past its storage, which is undefined as well
(`none`).  set_timestamp only stores a debug time stamp. -/
def fill_buffer (E : Env) (buf : byte_buffer_t) (payload : List Nat) (nof_bytes : Nat) :
    Option byte_buffer_t :=
  if nof_bytes ≤ payload.length ∧ nof_bytes ≤ E.msg_capacity then
    some { msg := payload.take nof_bytes ++ buf.msg.drop nof_bytes, N_bytes := nof_bytes }
  else none

/-- Common body of the three pass-through functions (rlc.cc:334-376),
which differ in the pdcp method they call. -/
def pass_through (E : Env) (s : rlc) (deliver : byte_buffer_t → Event) (payload : List Nat)
    (nof_bytes : Nat) : Option rlc :=
  let alloc := E.pool_allocate s.trace
  let s1 := s.emit (Event.pool_allocate alloc)
  match alloc with
  | some buf =>
    match fill_buffer E buf payload nof_bytes with
    | none => none
    | some buf1 => some (s1.emit (deliver buf1))
  | none => some s1

/-- Operation rlc::write_pdu_bcch_bch (rlc.cc:334-346). -/
def write_pdu_bcch_bch (E : Env) (s : rlc) (payload : List Nat) (nof_bytes : Nat) :
    Option rlc :=
  pass_through E s Event.pdcp_write_pdu_bcch_bch payload nof_bytes

/-- Operation rlc::write_pdu_bcch_dlsch (rlc.cc:349-361). -/
def write_pdu_bcch_dlsch (E : Env) (s : rlc) (payload : List Nat) (nof_bytes : Nat) :
    Option rlc :=
  pass_through E s Event.pdcp_write_pdu_bcch_dlsch payload nof_bytes

/-- Operation rlc::write_pdu_pcch (rlc.cc:364-376). -/
def write_pdu_pcch (E : Env) (s : rlc) (payload : List Nat) (nof_bytes : Nat) : Option rlc :=
  pass_through E s Event.pdcp_write_pdu_pcch payload nof_bytes

/-- Operation rlc::add_bearer(uint32_t) (rlc.cc:392-416). -/
def add_bearer_lcid (E : Env) (s : rlc) (lcid : Nat) : rlc :=
  if lcid > 2 then s
  else if lcid = 0 then add_bearer E s lcid srslte_rlc_config_t.default_ctor
  else
    add_bearer E s lcid (srslte_rlc_config_t.of_rlc_cfg_am
      { ul_t_poll_retx := 45, ul_poll_pdu := none, ul_poll_byte := none,
        ul_max_retx_thres := 4, dl_t_reordering := 35, dl_t_status_prohibit := 0 })

end rlc

/-- Calls of the control facade. -/
inductive ControlOp where
  | add_bearer (lcid : Nat) (cnfg : srslte_rlc_config_t)
  | add_bearer_mrb (lcid : Nat)
  | del_bearer (lcid : Nat)
  | del_bearer_mrb (lcid : Nat)
  | change_lcid (old_lcid new_lcid : Nat)
  | reset
  deriving DecidableEq, Repr

/-- Effect of one control-facade call. -/
def ControlOp.apply (E : Env) (s : rlc) : ControlOp → Option rlc
  | ControlOp.add_bearer lcid cnfg => some (rlc.add_bearer E s lcid cnfg)
  | ControlOp.add_bearer_mrb lcid => some (rlc.add_bearer_mrb E s lcid)
  | ControlOp.del_bearer lcid => rlc.del_bearer E s lcid
  | ControlOp.del_bearer_mrb lcid => rlc.del_bearer_mrb E s lcid
  | ControlOp.change_lcid o n => rlc.change_lcid E s o n
  | ControlOp.reset => some (rlc.reset E s)

/-- Effect of a sequence of control-facade calls, left to right. -/
def ControlOp.run (E : Env) : rlc → List ControlOp → Option rlc
  | s, [] => some s
  | s, op :: ops =>
    match ControlOp.apply E s op with
    | none => none
    | some s1 => ControlOp.run E s1 ops

/-- Calls on the manager: the control facade and every other public
operation of rlc.cc.  For get_metrics only the effect on the manager is
followed here, so the snapshot passed in is immaterial. -/
inductive ManagerOp where
  | control (op : ControlOp)
  | write_sdu (lcid : Nat) (sdu : byte_buffer_t) (blocking : Bool)
  | write_sdu_mch (lcid : Nat) (sdu : byte_buffer_t)
  | has_bearer (lcid : Nat)
  | add_bearer_lcid (lcid : Nat)
  | stop
  | get_metrics (now : timeval)
  | reestablish
  | reestablish_lcid (lcid : Nat)
  | empty_queue
  | rb_is_um (lcid : Nat)
  | has_data (lcid : Nat)
  | get_buffer_state (lcid : Nat)
  | get_total_mch_buffer_state (lcid : Nat)
  | read_pdu (lcid : Nat) (nof_bytes : Nat)
  | read_pdu_mch (lcid : Nat) (nof_bytes : Nat)
  | write_pdu (lcid : Nat) (payload : List Nat) (nof_bytes : Nat)
  | write_pdu_mch (lcid : Nat) (payload : List Nat) (nof_bytes : Nat)
  | write_pdu_bcch_bch (payload : List Nat) (nof_bytes : Nat)
  | write_pdu_bcch_dlsch (payload : List Nat) (nof_bytes : Nat)
  | write_pdu_pcch (payload : List Nat) (nof_bytes : Nat)
  deriving DecidableEq, Repr

/-- Effect of one call on the manager. -/
def ManagerOp.apply (E : Env) (s : rlc) : ManagerOp → Option rlc
  | ManagerOp.control op => ControlOp.apply E s op
  | ManagerOp.write_sdu lcid sdu blocking => rlc.write_sdu E s lcid sdu blocking
  | ManagerOp.write_sdu_mch lcid sdu => rlc.write_sdu_mch E s lcid sdu
  | ManagerOp.has_bearer lcid => some (rlc.has_bearer E s lcid).1
  | ManagerOp.add_bearer_lcid lcid => some (rlc.add_bearer_lcid E s lcid)
  | ManagerOp.stop => some s.stop
  | ManagerOp.get_metrics now => some (rlc.get_metrics E s rlc_metrics_t.zero now).1
  | ManagerOp.reestablish => some s.reestablish
  | ManagerOp.reestablish_lcid lcid => rlc.reestablish_lcid E s lcid
  | ManagerOp.empty_queue => some s.empty_queue
  | ManagerOp.rb_is_um lcid => (rlc.rb_is_um E s lcid).map Prod.fst
  | ManagerOp.has_data lcid => (rlc.has_data E s lcid).map Prod.fst
  | ManagerOp.get_buffer_state lcid => (rlc.get_buffer_state E s lcid).map Prod.fst
  | ManagerOp.get_total_mch_buffer_state lcid =>
    (rlc.get_total_mch_buffer_state E s lcid).map Prod.fst
  | ManagerOp.read_pdu lcid n => (rlc.read_pdu E s lcid n).map Prod.fst
  | ManagerOp.read_pdu_mch lcid n => (rlc.read_pdu_mch E s lcid n).map Prod.fst
  | ManagerOp.write_pdu lcid payload n => rlc.write_pdu E s lcid payload n
  | ManagerOp.write_pdu_mch lcid payload n => rlc.write_pdu_mch E s lcid payload n
  | ManagerOp.write_pdu_bcch_bch payload n => rlc.write_pdu_bcch_bch E s payload n
  | ManagerOp.write_pdu_bcch_dlsch payload n => rlc.write_pdu_bcch_dlsch E s payload n
  | ManagerOp.write_pdu_pcch payload n => rlc.write_pdu_pcch E s payload n

/-- Effect of a sequence of calls on the manager, left to right. -/
def ManagerOp.run (E : Env) : rlc → List ManagerOp → Option rlc
  | s, [] => some s
  | s, op :: ops =>
    match ManagerOp.apply E s op with
    | none => none
    | some s1 => ManagerOp.run E s1 ops

/-- States the manager reaches from the constructor by init followed by
any sequence of calls. -/
def Reachable (E : Env) (lcid_ : Nat) (s : rlc) : Prop :=
  ∃ (now : timeval) (ops : List ManagerOp),
    ManagerOp.run E (rlc.init E rlc.ctor lcid_ now) ops = some s

/-- New events of a call: the part of the trace after the first n
entries. -/
def events_since (n : Nat) (s : rlc) : List Event :=
  s.trace.drop n

/-- Addresses constructed in a run of events, in order. -/
def constructed : List Event → List Nat
  | [] => []
  | Event.new e _ :: evs => e :: constructed evs
  | _ :: evs => constructed evs

/-- Addresses destroyed in a run of events, in order. -/
def destroyed : List Event → List Nat
  | [] => []
  | Event.delete e :: evs => e :: destroyed evs
  | _ :: evs => destroyed evs

/-- Addresses stopped in a run of events, in order. -/
def stopped : List Event → List Nat
  | [] => []
  | Event.stop e :: evs => e :: stopped evs
  | _ :: evs => stopped evs

/-- Buffers handed to an entity by write_sdu in a run of events, with
the receiving entity and the blocking flag. -/
def delivered : List Event → List (Nat × byte_buffer_t × Bool)
  | [] => []
  | Event.write_sdu e sdu b :: evs => (e, sdu, b) :: delivered evs
  | _ :: evs => delivered evs

/-- Buffers returned to the pool in a run of events. -/
def deallocated : List Event → List byte_buffer_t
  | [] => []
  | Event.deallocate sdu :: evs => sdu :: deallocated evs
  | _ :: evs => deallocated evs

/-- Sample values for the header constants. -/
def sampleEnv : Env :=
  { SRSLTE_N_RADIO_BEARERS := 11
    SRSLTE_N_MCH_LCIDS := 32
    RLC_MAX_SDU_SIZE := 2047
    msg_capacity := 11736
    mch_config := { srslte_rlc_config_t.default_ctor with
                      rlc_mode := rlc_mode_t.RLC_MODE_UM
                      um := { t_reordering := 45, is_mrb := true } }
    configure := fun _ _ => true }

/-- Sample values in which every configure call is refused. -/
def strictEnv : Env :=
  { sampleEnv with configure := fun _ _ => false }

/-- The manager right after init with default LCID 0. -/
def s_init : rlc :=
  rlc.init sampleEnv rlc.ctor 0 ⟨0, 0⟩

/-- Events of one loop of reset over a table: stop then delete, entry by
entry. -/
def stop_delete_events : rlc_map_t → List Event
  | [] => []
  | p :: m => Event.stop p.2 :: Event.delete p.2 :: stop_delete_events m

/-- Contents of a table as seen through the heap: each LCID with the
entity object its pointer refers to. -/
def table_view (s : rlc) (m : rlc_map_t) : List (Nat × Option rlc_common) :=
  m.map (fun p => (p.1, s.heap p.2))

/-- The Acknowledged Mode defaults built by add_bearer(uint32_t)
(rlc.cc:405-414). -/
def sample_am_config : srslte_rlc_config_t :=
  { rlc_mode := rlc_mode_t.RLC_MODE_AM
    am := { t_poll_retx := 45, poll_pdu := none, poll_byte := none,
            max_retx_thres := 4, t_reordering := 35, t_status_prohibit := 0 }
    um := { t_reordering := 0, is_mrb := false } }

/-- A configuration whose mode tag is none of the three enumerators. -/
def sample_bad_config : srslte_rlc_config_t :=
  { srslte_rlc_config_t.default_ctor with rlc_mode := rlc_mode_t.invalid 3 }

/-- After init: an Acknowledged bearer at LCID 1 and a multicast bearer at
LCID 1. -/
def s_busy : rlc :=
  rlc.add_bearer_mrb sampleEnv (rlc.add_bearer sampleEnv s_init 1 sample_am_config) 1

/-- After init: add_bearer called with the first LCID beyond the range. -/
def s_beyond : rlc :=
  rlc.add_bearer sampleEnv s_init 11 srslte_rlc_config_t.default_ctor

/-- A packet one byte longer than RLC_MAX_SDU_SIZE of sampleEnv. -/
def sdu_over : byte_buffer_t :=
  { N_bytes := 2048, msg := [] }

/-- A packet of exactly RLC_MAX_SDU_SIZE bytes of sampleEnv. -/
def sdu_max : byte_buffer_t :=
  { N_bytes := 2047, msg := [] }

/-- Every pointer stored in a table was handed out by the allocator
before: it lies below `next`. -/
def ptr_bounded (s : rlc) : Prop :=
  ∀ p ∈ s.rlc_array ++ s.rlc_array_mrb, p.2 < s.next

/-- Addresses on which an entity method is invoked in a run of events, in
order (construction is not a method call). -/
def called : List Event → List Nat
  | [] => []
  | Event.init e _ :: evs => e :: called evs
  | Event.configure e _ :: evs => e :: called evs
  | Event.stop e :: evs => e :: called evs
  | Event.delete e :: evs => e :: called evs
  | Event.reset_metrics e :: evs => e :: called evs
  | Event.write_sdu e _ _ :: evs => e :: called evs
  | Event.reestablish e :: evs => e :: called evs
  | Event.empty_queue e :: evs => e :: called evs
  | Event.get_mode e :: evs => e :: called evs
  | Event.has_data e :: evs => e :: called evs
  | Event.get_buffer_state e :: evs => e :: called evs
  | Event.read_pdu e _ :: evs => e :: called evs
  | Event.write_pdu e _ _ :: evs => e :: called evs
  | _ :: evs => called evs

/-- Addresses on which reestablish is invoked in a run of events. -/
def reestablished : List Event → List Nat
  | [] => []
  | Event.reestablish e :: evs => e :: reestablished evs
  | _ :: evs => reestablished evs

/-- Buffers handed to the upper layer in a run of events. -/
def pdcp_delivered : List Event → List byte_buffer_t
  | [] => []
  | Event.pdcp_write_pdu_bcch_bch b :: evs => b :: pdcp_delivered evs
  | Event.pdcp_write_pdu_bcch_dlsch b :: evs => b :: pdcp_delivered evs
  | Event.pdcp_write_pdu_pcch b :: evs => b :: pdcp_delivered evs
  | _ :: evs => pdcp_delivered evs

/-- The pointers stored in the two tables, unicast first, in table
order. -/
def stored (s : rlc) : List Nat :=
  (s.rlc_array ++ s.rlc_array_mrb).map Prod.snd

/-- No key occurs twice in a table. -/
def keys_unique (m : rlc_map_t) : Prop :=
  (m.map Prod.fst).Nodup

/-- Ownership invariant: keys are unique in each table, the allocator
never handed out an address twice and all addresses lie below `next`, and
the stored pointers together with the deleted addresses are, up to
order, exactly the constructed addresses. -/
def ownership (s : rlc) : Prop :=
  keys_unique s.rlc_array ∧ keys_unique s.rlc_array_mrb ∧
  (constructed s.trace).Nodup ∧ (∀ e ∈ constructed s.trace, e < s.next) ∧
  List.Perm (stored s ++ destroyed s.trace) (constructed s.trace)

/-- What one call does to the tables, the allocator and the entities,
given the events it adds. -/
inductive StepKind (s : rlc) (evs : List Event) (s' : rlc) : Prop where
  | quiet (harr : s'.rlc_array = s.rlc_array) (hmrb : s'.rlc_array_mrb = s.rlc_array_mrb)
      (hnext : s'.next = s.next) (hc : constructed evs = []) (hd : destroyed evs = [])
      (hcall : ∀ e ∈ called evs, e ∈ stored s)
  | discard (harr : s'.rlc_array = s.rlc_array) (hmrb : s'.rlc_array_mrb = s.rlc_array_mrb)
      (hnext : s'.next = s.next + 1) (hc : constructed evs = [s.next])
      (hd : destroyed evs = [s.next]) (hcall : ∀ e ∈ called evs, e = s.next)
  | store (k : Nat) (hfree : rlc_map_t.find s.rlc_array k = none)
      (harr : s'.rlc_array = rlc_map_t.place s.rlc_array k s.next)
      (hmrb : s'.rlc_array_mrb = s.rlc_array_mrb)
      (hnext : s'.next = s.next + 1) (hc : constructed evs = [s.next])
      (hd : destroyed evs = []) (hcall : ∀ e ∈ called evs, e = s.next)
  | store_mrb (k : Nat) (hfree : rlc_map_t.find s.rlc_array_mrb k = none)
      (harr : s'.rlc_array = s.rlc_array)
      (hmrb : s'.rlc_array_mrb = rlc_map_t.place s.rlc_array_mrb k s.next)
      (hnext : s'.next = s.next + 1) (hc : constructed evs = [s.next])
      (hd : destroyed evs = []) (hcall : ∀ e ∈ called evs, e = s.next)
  | remove (k e : Nat) (hfind : rlc_map_t.find s.rlc_array k = some e)
      (harr : s'.rlc_array = rlc_map_t.erase s.rlc_array k)
      (hmrb : s'.rlc_array_mrb = s.rlc_array_mrb)
      (hnext : s'.next = s.next) (hc : constructed evs = [])
      (hd : destroyed evs = [e]) (hcall : ∀ x ∈ called evs, x = e)
  | remove_mrb (k e : Nat) (hfind : rlc_map_t.find s.rlc_array_mrb k = some e)
      (harr : s'.rlc_array = s.rlc_array)
      (hmrb : s'.rlc_array_mrb = rlc_map_t.erase s.rlc_array_mrb k)
      (hnext : s'.next = s.next) (hc : constructed evs = [])
      (hd : destroyed evs = [e]) (hcall : ∀ x ∈ called evs, x = e)
  | rename (o n e : Nat) (hfind : rlc_map_t.find s.rlc_array o = some e)
      (hfree : rlc_map_t.find s.rlc_array n = none)
      (harr : s'.rlc_array = rlc_map_t.erase (rlc_map_t.place s.rlc_array n e) o)
      (hmrb : s'.rlc_array_mrb = s.rlc_array_mrb)
      (hnext : s'.next = s.next) (hc : constructed evs = [])
      (hd : destroyed evs = []) (hcall : called evs = [])
  | clear (harr : s'.rlc_array = [(s.default_lcid, s.next)]) (hmrb : s'.rlc_array_mrb = [])
      (hnext : s'.next = s.next + 1) (hc : constructed evs = [s.next])
      (hd : destroyed evs = stored s)
      (hcall : ∀ e ∈ called evs, e ∈ stored s ∨ e = s.next)

/-- A manager whose unicast table holds LCID 1 at an address where no
object lives. -/
def s_dangling : rlc :=
  { rlc.ctor with rlc_array := [(1, 7)] }

/-- Sample values with entities that answer every query with non-zero
values, and a pool that is exhausted. -/
def busyEnv : Env :=
  { sampleEnv with
    entity_has_data := fun _ _ => true
    entity_get_buffer_state := fun _ _ => 100
    entity_read_pdu := fun _ _ n => n
    pool_allocate := fun _ => none }

/-- Sample values with fixed counters: the entity at address 0 has
received nothing, the entity at address 1 has received 1000 bytes, every
other entity 500 bytes, and every entity has sent 700 bytes. -/
def fixedEnv : Env :=
  { sampleEnv with
    entity_num_rx_bytes := fun _ e => if e = 0 then 0 else if e = 1 then 1000 else 500
    entity_num_tx_bytes := fun _ _ => 700 }

/-- The state s_busy after del_bearer(1). -/
def s_deleted : rlc :=
  match rlc.del_bearer sampleEnv s_busy 1 with
  | some s => s
  | none => s_busy

/-- State of the reader/writer lock as held by the calling thread. -/
inductive LockState where
  | unlocked
  | read
  | write
  deriving DecidableEq, Repr

/-- Effect of one call on the lock: pthread_rwlock_rdlock and
pthread_rwlock_wrlock are allowed only when the caller holds nothing,
pthread_rwlock_unlock only when it holds the lock; `none` is a violation.
Every other call leaves the lock alone. -/
def lock_event (l : LockState) : Event → Option LockState
  | Event.rdlock => if l = LockState.unlocked then some LockState.read else none
  | Event.wrlock => if l = LockState.unlocked then some LockState.write else none
  | Event.unlock => if l = LockState.unlocked then none else some LockState.unlocked
  | _ => some l

/-- The lock followed through a run of calls. -/
def lock_run : LockState → List Event → Option LockState
  | l, [] => some l
  | l, ev :: evs =>
    match lock_event l ev with
    | none => none
    | some l1 => lock_run l1 evs

/-- One statement seen as the manager before and after it.  The calls made
before stay recorded.  A statement that leaves the membership of both
tables alone moves the lock by the calls it makes; a statement that
changes the membership of a table is allowed only while the lock is held
in write mode, and it makes no call. -/
def monitor_step (l : LockState) (a b : rlc) : Option LockState :=
  if b.trace.take a.trace.length ≠ a.trace then none
  else if a.rlc_array = b.rlc_array ∧ a.rlc_array_mrb = b.rlc_array_mrb then
    lock_run l (b.trace.drop a.trace.length)
  else if l = LockState.write ∧ b.trace = a.trace then some l
  else none

/-- The lock followed through the states a function passes, statement by
statement, from the state a. -/
def monitor : LockState → rlc → List rlc → Option LockState
  | l, _, [] => some l
  | l, a, b :: rest =>
    match monitor_step l a b with
    | none => none
    | some l1 => monitor l1 b rest

/-- Last state of a path that starts in a. -/
def last_state : rlc → List rlc → rlc
  | a, [] => a
  | _, b :: rest => last_state b rest

namespace rlc

/-- States passed by rlc::add_bearer(uint32_t, srslte_rlc_config_t)
(rlc.cc:419-469), one per statement: wrlock, new, init, configure, then
either delete or the insertion, and unlock. -/
def add_bearer_path (E : Env) (s : rlc) (lcid : Nat) (cnfg : srslte_rlc_config_t) :
    List rlc :=
  let s1 := s.emit Event.wrlock
  if valid_lcid E s1 lcid = false then
    match switch_new s1 cnfg.rlc_mode with
    | none => [s1, s1.emit Event.unlock]
    | some (s2, e) =>
      let s3 := s2.entity_init e lcid
      let r := if cnfg.rlc_mode ≠ rlc_mode_t.RLC_MODE_TM then entity_configure E s3 e cnfg
               else (s3, true)
      if r.2 = false then
        [s1, s2, s3, r.1, r.1.entity_delete e, (r.1.entity_delete e).emit Event.unlock]
      else
        let ins := rlc_map_t.insert r.1.rlc_array lcid e
        if ins.2 = false then
          [s1, s2, s3, r.1, r.1.entity_delete e, (r.1.entity_delete e).emit Event.unlock]
        else
          [s1, s2, s3, r.1, { r.1 with rlc_array := ins.1 },
           ({ r.1 with rlc_array := ins.1 }).emit Event.unlock]
  else
    [s1, s1.emit Event.unlock]

/-- States passed by rlc::add_bearer_mrb (rlc.cc:472-502). -/
def add_bearer_mrb_path (E : Env) (s : rlc) (lcid : Nat) : List rlc :=
  let s1 := s.emit Event.wrlock
  if valid_lcid_mrb E s1 lcid = false then
    let n := s1.new_entity rlc_mode_t.RLC_MODE_UM
    let s3 := n.1.entity_init n.2 lcid
    let r := entity_configure E s3 n.2 E.mch_config
    if r.2 = false then
      [s1, n.1, s3, r.1, r.1.entity_delete n.2, (r.1.entity_delete n.2).emit Event.unlock]
    else
      let ins := rlc_map_t.insert r.1.rlc_array_mrb lcid n.2
      if ins.2 = false then
        [s1, n.1, s3, r.1, r.1.entity_delete n.2, (r.1.entity_delete n.2).emit Event.unlock]
      else
        [s1, n.1, s3, r.1, { r.1 with rlc_array_mrb := ins.1 },
         ({ r.1 with rlc_array_mrb := ins.1 }).emit Event.unlock]
  else
    [s1, s1.emit Event.unlock]

/-- States passed by rlc::del_bearer (rlc.cc:505-520): wrlock, stop,
delete, erase, unlock.  No path is given where the function has no
result. -/
def del_bearer_path (E : Env) (s : rlc) (lcid : Nat) : List rlc :=
  let s1 := s.emit Event.wrlock
  if valid_lcid E s1 lcid then
    match rlc_map_t.find s1.rlc_array lcid with
    | none => []
    | some e =>
      let s2 := (s1.entity_stop e).entity_delete e
      [s1, s1.entity_stop e, s2, { s2 with rlc_array := rlc_map_t.erase s2.rlc_array lcid },
       ({ s2 with rlc_array := rlc_map_t.erase s2.rlc_array lcid }).emit Event.unlock]
  else
    [s1, s1.emit Event.unlock]

/-- States passed by rlc::del_bearer_mrb (rlc.cc:523-538). -/
def del_bearer_mrb_path (E : Env) (s : rlc) (lcid : Nat) : List rlc :=
  let s1 := s.emit Event.wrlock
  if valid_lcid_mrb E s1 lcid then
    match rlc_map_t.find s1.rlc_array_mrb lcid with
    | none => []
    | some e =>
      let s2 := (s1.entity_stop e).entity_delete e
      [s1, s1.entity_stop e, s2,
       { s2 with rlc_array_mrb := rlc_map_t.erase s2.rlc_array_mrb lcid },
       ({ s2 with rlc_array_mrb := rlc_map_t.erase s2.rlc_array_mrb lcid }).emit Event.unlock]
  else
    [s1, s1.emit Event.unlock]

/-- States passed by rlc::change_lcid (rlc.cc:541-567): wrlock, the
insertion under the new key, the erase of the old position, unlock. -/
def change_lcid_path (E : Env) (s : rlc) (old_lcid new_lcid : Nat) : List rlc :=
  let s1 := s.emit Event.wrlock
  if valid_lcid E s1 old_lcid && !valid_lcid E s1 new_lcid then
    match rlc_map_t.find s1.rlc_array old_lcid with
    | none => []
    | some rlc_entity =>
      let ins := rlc_map_t.insert s1.rlc_array new_lcid rlc_entity
      if ins.2 = false then [s1, s1.emit Event.unlock]
      else
        [s1, { s1 with rlc_array := ins.1 },
         { s1 with rlc_array := rlc_map_t.erase ins.1 old_lcid },
         ({ s1 with rlc_array := rlc_map_t.erase ins.1 old_lcid }).emit Event.unlock]
  else
    [s1, s1.emit Event.unlock]

/-- States passed by rlc::reset (rlc.cc:166-186): wrlock, the first loop,
clear, the second loop, clear, unlock, and then the states of
add_bearer. -/
def reset_path (E : Env) (s : rlc) : List rlc :=
  let s1 := s.emit Event.wrlock
  let s2 := stop_delete_loop s1.rlc_array s1
  let s3 := { s2 with rlc_array := [] }
  let s4 := stop_delete_loop s3.rlc_array_mrb s3
  let s5 := { s4 with rlc_array_mrb := [] }
  let s6 := s5.emit Event.unlock
  [s1, s2, s3, s4, s5, s6] ++
    add_bearer_path E s6 s6.default_lcid srslte_rlc_config_t.default_ctor

/-- States passed by rlc::init (rlc.cc:61-80): the two assignments,
reset_metrics, and then the states of add_bearer. -/
def init_path (E : Env) (s : rlc) (lcid_ : Nat) (now : timeval) : List rlc :=
  let s1 := { s with default_lcid := lcid_ }
  let s2 := { s1 with metrics_time1 := now }
  let s3 := s2.reset_metrics
  [s1, s2, s3] ++ add_bearer_path E s3 s3.default_lcid srslte_rlc_config_t.default_ctor

/-- States passed by rlc::add_bearer(uint32_t) (rlc.cc:392-416): none
when it returns at once, else those of add_bearer. -/
def add_bearer_lcid_path (E : Env) (s : rlc) (lcid : Nat) : List rlc :=
  if lcid > 2 then []
  else if lcid = 0 then add_bearer_path E s lcid srslte_rlc_config_t.default_ctor
  else
    add_bearer_path E s lcid (srslte_rlc_config_t.of_rlc_cfg_am
      { ul_t_poll_retx := 45, ul_poll_pdu := none, ul_poll_byte := none,
        ul_max_retx_thres := 4, dl_t_reordering := 35, dl_t_status_prohibit := 0 })

/-- One pass of a loop of the destructor whose body deletes
it->second. -/
def delete_loop (m : rlc_map_t) (s : rlc) : rlc :=
  m.foldl (fun acc p => acc.entity_delete p.2) s

/-- States passed by the destructor rlc::~rlc (rlc.cc:43-59): wrlock, the
first loop, clear, the second loop, clear, unlock.
pthread_rwlock_destroy is not followed. -/
def dtor_path (s : rlc) : List rlc :=
  let s1 := s.emit Event.wrlock
  let s2 := delete_loop s1.rlc_array s1
  let s3 := { s2 with rlc_array := [] }
  let s4 := delete_loop s3.rlc_array_mrb s3
  let s5 := { s4 with rlc_array_mrb := [] }
  [s1, s2, s3, s4, s5, s5.emit Event.unlock]

end rlc

/-- States passed by a control-facade call. -/
def ControlOp.path (E : Env) (s : rlc) : ControlOp → List rlc
  | ControlOp.add_bearer lcid cnfg => rlc.add_bearer_path E s lcid cnfg
  | ControlOp.add_bearer_mrb lcid => rlc.add_bearer_mrb_path E s lcid
  | ControlOp.del_bearer lcid => rlc.del_bearer_path E s lcid
  | ControlOp.del_bearer_mrb lcid => rlc.del_bearer_mrb_path E s lcid
  | ControlOp.change_lcid o n => rlc.change_lcid_path E s o n
  | ControlOp.reset => rlc.reset_path E s

/-- A call taken as one step: the state it returns, if it returns. -/
def single_path : Option rlc → List rlc
  | some s1 => [s1]
  | none => []

/-- States passed by a call on the manager.  The functions that write a
table are followed statement by statement; every other function is taken
as one step from the state before the call to the state after it. -/
def ManagerOp.path (E : Env) (s : rlc) : ManagerOp → List rlc
  | ManagerOp.control op => ControlOp.path E s op
  | ManagerOp.add_bearer_lcid lcid => rlc.add_bearer_lcid_path E s lcid
  | op => single_path (ManagerOp.apply E s op)

/-! ## The bearer table -/

theorem find_place_self (m : rlc_map_t) (k v : Nat) (h : rlc_map_t.find m k = none) :
    rlc_map_t.find (rlc_map_t.place m k v) k = some v := by
  induction m with
  | nil => simp [rlc_map_t.place, rlc_map_t.find]
  | cons p m ih =>
    obtain ⟨k', v'⟩ := p
    simp only [rlc_map_t.find] at h
    by_cases hk : k' = k
    · simp [hk] at h
    · simp only [hk, if_false] at h
      by_cases hlt : k < k'
      · simp [rlc_map_t.place, rlc_map_t.find, hlt]
      · simp [rlc_map_t.place, rlc_map_t.find, hlt, hk, ih h]

theorem find_place_other (m : rlc_map_t) (k v k' : Nat) (h : k' ≠ k) :
    rlc_map_t.find (rlc_map_t.place m k v) k' = rlc_map_t.find m k' := by
  induction m with
  | nil => simp [rlc_map_t.place, rlc_map_t.find, Ne.symm h]
  | cons p m ih =>
    obtain ⟨k1, v1⟩ := p
    by_cases hlt : k < k1
    · simp [rlc_map_t.place, rlc_map_t.find, hlt, Ne.symm h]
    · simp [rlc_map_t.place, rlc_map_t.find, hlt, ih]

theorem find_erase_self (m : rlc_map_t) (k : Nat) :
    rlc_map_t.find (rlc_map_t.erase m k) k = none := by
  induction m with
  | nil => simp [rlc_map_t.erase, rlc_map_t.find]
  | cons p m ih =>
    obtain ⟨k1, v1⟩ := p
    by_cases hk : k1 = k
    · simp [rlc_map_t.erase, hk, ih]
    · simp [rlc_map_t.erase, hk, rlc_map_t.find, ih]

theorem find_erase_other (m : rlc_map_t) (k k' : Nat) (h : k' ≠ k) :
    rlc_map_t.find (rlc_map_t.erase m k) k' = rlc_map_t.find m k' := by
  induction m with
  | nil => simp [rlc_map_t.erase, rlc_map_t.find]
  | cons p m ih =>
    obtain ⟨k1, v1⟩ := p
    by_cases hk : k1 = k
    · have hk1 : ¬ k1 = k' := fun h1 => h (h1.symm.trans hk)
      simp [rlc_map_t.erase, hk, rlc_map_t.find, ih, Ne.symm h]
    · simp [rlc_map_t.erase, hk, rlc_map_t.find, ih]

theorem insert_absent (m : rlc_map_t) (k v : Nat) (h : rlc_map_t.find m k = none) :
    rlc_map_t.insert m k v = (rlc_map_t.place m k v, true) := by
  simp [rlc_map_t.insert, h]

theorem insert_present (m : rlc_map_t) (k v : Nat) (h : (rlc_map_t.find m k).isSome = true) :
    rlc_map_t.insert m k v = (m, false) := by
  obtain ⟨w, hw⟩ := Option.isSome_iff_exists.mp h
  simp [rlc_map_t.insert, hw]

/-! ## add_bearer -/

/-- State reached by add_bearer on its successful path. -/
theorem add_bearer_ok_state (E : Env) (s : rlc) (lcid : Nat) (cnfg : srslte_rlc_config_t)
    (hv : rlc.valid_lcid E (s.emit Event.wrlock) lcid = false)
    (habsent : rlc_map_t.find s.rlc_array lcid = none)
    (hmode : cnfg.rlc_mode = rlc_mode_t.RLC_MODE_TM ∨ cnfg.rlc_mode = rlc_mode_t.RLC_MODE_UM ∨
      cnfg.rlc_mode = rlc_mode_t.RLC_MODE_AM)
    (hcfg : cnfg.rlc_mode ≠ rlc_mode_t.RLC_MODE_TM → E.configure cnfg.rlc_mode cnfg = true) :
    rlc.add_bearer E s lcid cnfg =
      { s with
        rlc_array := rlc_map_t.place s.rlc_array lcid s.next
        heap := Function.update s.heap s.next
          (some { mode := cnfg.rlc_mode, lcid := some lcid,
                  cfg := if cnfg.rlc_mode = rlc_mode_t.RLC_MODE_TM then none else some cnfg })
        next := s.next + 1
        trace := s.trace ++ [Event.wrlock, Event.new s.next cnfg.rlc_mode, Event.init s.next lcid] ++
          (if cnfg.rlc_mode = rlc_mode_t.RLC_MODE_TM then [] else [Event.configure s.next cnfg]) ++
          [Event.unlock] } := by
  have hins : ∀ e, rlc_map_t.insert s.rlc_array lcid e =
      (rlc_map_t.place s.rlc_array lcid e, true) := fun e => insert_absent _ _ _ habsent
  unfold rlc.add_bearer
  simp only [hv, if_true]
  rcases hmode with h | h | h
  · simp [h, rlc.switch_new, rlc.new_entity, rlc.entity_init, rlc.emit, hins]
  · have hc := hcfg (by simp [h])
    rw [h] at hc
    simp [h, rlc.switch_new, rlc.new_entity, rlc.entity_init, rlc.emit, rlc.entity_configure,
      hc, hins]
  · have hc := hcfg (by simp [h])
    rw [h] at hc
    simp [h, rlc.switch_new, rlc.new_entity, rlc.entity_init, rlc.emit, rlc.entity_configure,
      hc, hins]

/-- C1: adding a bearer at an in-range LCID that is absent from the unicast
table, with a Transparent, Unacknowledged or Acknowledged configuration
whose application succeeds, makes has_bearer true, stores at that LCID the
entity constructed by this call (class equal to the requested mode,
initialised with the LCID, configured unless Transparent, for which
configure is not called), keeps every other unicast entry, the multicast
table and every other entity object. -/
theorem add_bearer_success (E : Env) (s : rlc) (lcid : Nat) (cnfg : srslte_rlc_config_t)
    (hrange : lcid < E.SRSLTE_N_RADIO_BEARERS)
    (habsent : rlc_map_t.find s.rlc_array lcid = none)
    (hmode : cnfg.rlc_mode = rlc_mode_t.RLC_MODE_TM ∨ cnfg.rlc_mode = rlc_mode_t.RLC_MODE_UM ∨
      cnfg.rlc_mode = rlc_mode_t.RLC_MODE_AM)
    (hcfg : cnfg.rlc_mode ≠ rlc_mode_t.RLC_MODE_TM → E.configure cnfg.rlc_mode cnfg = true) :
    (rlc.has_bearer E (rlc.add_bearer E s lcid cnfg) lcid).2 = true ∧
    rlc_map_t.find (rlc.add_bearer E s lcid cnfg).rlc_array lcid = some s.next ∧
    (rlc.add_bearer E s lcid cnfg).heap s.next =
      some { mode := cnfg.rlc_mode, lcid := some lcid,
             cfg := if cnfg.rlc_mode = rlc_mode_t.RLC_MODE_TM then none else some cnfg } ∧
    (rlc.add_bearer E s lcid cnfg).trace =
      s.trace ++ [Event.wrlock, Event.new s.next cnfg.rlc_mode, Event.init s.next lcid] ++
        (if cnfg.rlc_mode = rlc_mode_t.RLC_MODE_TM then [] else [Event.configure s.next cnfg]) ++
        [Event.unlock] ∧
    (∀ k, k ≠ lcid →
      rlc_map_t.find (rlc.add_bearer E s lcid cnfg).rlc_array k = rlc_map_t.find s.rlc_array k) ∧
    (rlc.add_bearer E s lcid cnfg).rlc_array_mrb = s.rlc_array_mrb ∧
    (∀ p, p ≠ s.next → (rlc.add_bearer E s lcid cnfg).heap p = s.heap p) := by
  have hv : rlc.valid_lcid E (s.emit Event.wrlock) lcid = false := by
    simp [rlc.valid_lcid, rlc.emit, habsent]
  rw [add_bearer_ok_state E s lcid cnfg hv habsent hmode hcfg]
  refine ⟨?_, ?_, ?_, ?_, ?_, ?_, ?_⟩
  · simp [rlc.has_bearer, rlc.valid_lcid, rlc.emit, find_place_self _ _ _ habsent,
      Nat.not_le.mpr hrange]
  · exact find_place_self _ _ _ habsent
  · simp
  · rfl
  · intro k hk; exact find_place_other _ _ _ _ hk
  · rfl
  · intro p hp; simp [Function.update, hp]

theorem events_since_append (s : rlc) (s' : rlc) (evs : List Event)
    (h : s'.trace = s.trace ++ evs) : events_since s.trace.length s' = evs := by
  simp [events_since, h]

theorem add_bearer_failure_shape (E : Env) (s : rlc) (lcid : Nat) (cnfg : srslte_rlc_config_t)
    (hfail : (rlc_map_t.find s.rlc_array lcid).isSome = true ∨
      (∃ raw, cnfg.rlc_mode = rlc_mode_t.invalid raw) ∨
      (cnfg.rlc_mode ≠ rlc_mode_t.RLC_MODE_TM ∧ E.configure cnfg.rlc_mode cnfg = false)) :
    rlc.add_bearer E s lcid cnfg = { s with trace := s.trace ++ [Event.wrlock, Event.unlock] } ∨
    ∃ (o : rlc_common) (mid : List Event),
      constructed mid = [] ∧ destroyed mid = [] ∧ stopped mid = [] ∧
      rlc.add_bearer E s lcid cnfg =
        { s with
          heap := Function.update s.heap s.next (some o)
          next := s.next + 1
          trace := s.trace ++ [Event.wrlock, Event.new s.next cnfg.rlc_mode] ++ mid ++
            [Event.delete s.next, Event.unlock] } := by
  unfold rlc.add_bearer
  by_cases hv : rlc.valid_lcid E (s.emit Event.wrlock) lcid = false
  · simp only [hv, if_true]
    cases hm : cnfg.rlc_mode with
    | invalid raw => left; simp [rlc.switch_new, rlc.emit]
    | RLC_MODE_TM =>
      right
      have hp : (rlc_map_t.find s.rlc_array lcid).isSome = true := by
        rcases hfail with h | ⟨raw, h⟩ | ⟨h, _⟩
        · exact h
        · simp [hm] at h
        · exact absurd hm h
      refine ⟨{ mode := rlc_mode_t.RLC_MODE_TM, lcid := some lcid, cfg := none },
        [Event.init s.next lcid], rfl, rfl, rfl, ?_⟩
      simp [rlc.switch_new, rlc.new_entity, rlc.entity_init, rlc.emit, rlc.entity_delete,
        insert_present _ _ _ hp]
    | RLC_MODE_UM =>
      right
      cases hc : E.configure rlc_mode_t.RLC_MODE_UM cnfg with
      | false =>
        refine ⟨{ mode := rlc_mode_t.RLC_MODE_UM, lcid := some lcid, cfg := some cnfg },
          [Event.init s.next lcid, Event.configure s.next cnfg], rfl, rfl, rfl, ?_⟩
        simp [rlc.switch_new, rlc.new_entity, rlc.entity_init, rlc.emit, rlc.entity_delete,
          rlc.entity_configure, hc]
      | true =>
        have hp : (rlc_map_t.find s.rlc_array lcid).isSome = true := by
          rcases hfail with h | ⟨raw, h⟩ | ⟨_, h⟩
          · exact h
          · simp [hm] at h
          · rw [hm, hc] at h; cases h
        refine ⟨{ mode := rlc_mode_t.RLC_MODE_UM, lcid := some lcid, cfg := some cnfg },
          [Event.init s.next lcid, Event.configure s.next cnfg], rfl, rfl, rfl, ?_⟩
        simp [rlc.switch_new, rlc.new_entity, rlc.entity_init, rlc.emit, rlc.entity_delete,
          rlc.entity_configure, hc, insert_present _ _ _ hp]
    | RLC_MODE_AM =>
      right
      cases hc : E.configure rlc_mode_t.RLC_MODE_AM cnfg with
      | false =>
        refine ⟨{ mode := rlc_mode_t.RLC_MODE_AM, lcid := some lcid, cfg := some cnfg },
          [Event.init s.next lcid, Event.configure s.next cnfg], rfl, rfl, rfl, ?_⟩
        simp [rlc.switch_new, rlc.new_entity, rlc.entity_init, rlc.emit, rlc.entity_delete,
          rlc.entity_configure, hc]
      | true =>
        have hp : (rlc_map_t.find s.rlc_array lcid).isSome = true := by
          rcases hfail with h | ⟨raw, h⟩ | ⟨_, h⟩
          · exact h
          · simp [hm] at h
          · rw [hm, hc] at h; cases h
        refine ⟨{ mode := rlc_mode_t.RLC_MODE_AM, lcid := some lcid, cfg := some cnfg },
          [Event.init s.next lcid, Event.configure s.next cnfg], rfl, rfl, rfl, ?_⟩
        simp [rlc.switch_new, rlc.new_entity, rlc.entity_init, rlc.emit, rlc.entity_delete,
          rlc.entity_configure, hc, insert_present _ _ _ hp]
  · left
    rw [if_neg hv]
    simp [rlc.emit]

theorem constructed_append (a b : List Event) :
    constructed (a ++ b) = constructed a ++ constructed b := by
  induction a with
  | nil => rfl
  | cons e a ih => cases e <;> simp [constructed, ih]

theorem destroyed_append (a b : List Event) :
    destroyed (a ++ b) = destroyed a ++ destroyed b := by
  induction a with
  | nil => rfl
  | cons e a ih => cases e <;> simp [destroyed, ih]

theorem stopped_append (a b : List Event) :
    stopped (a ++ b) = stopped a ++ stopped b := by
  induction a with
  | nil => rfl
  | cons e a ih => cases e <;> simp [stopped, ih]

/-- Witness of C1: an Acknowledged bearer added at LCID 1 right after
init. -/
theorem add_bearer_success_witness :
    1 < sampleEnv.SRSLTE_N_RADIO_BEARERS ∧
    rlc_map_t.find s_init.rlc_array 1 = none ∧
    (rlc.has_bearer sampleEnv (rlc.add_bearer sampleEnv s_init 1 sample_am_config) 1).2 = true ∧
    rlc_map_t.find (rlc.add_bearer sampleEnv s_init 1 sample_am_config).rlc_array 1 =
      some s_init.next :=
  ⟨by decide, by decide,
   (add_bearer_success sampleEnv s_init 1 sample_am_config (by decide) (by decide)
      (Or.inr (Or.inr rfl)) (fun _ => rfl)).1,
   (add_bearer_success sampleEnv s_init 1 sample_am_config (by decide) (by decide)
      (Or.inr (Or.inr rfl)) (fun _ => rfl)).2.1⟩

/-- C2: add_bearer is atomic on failure.  When the LCID is already in the
unicast table, or the configuration names an unrecognised mode, or the
entity refuses the configuration, both tables are exactly as before,
every entity object that existed before the call is untouched, no entity
is stopped, and the entities constructed by the call (none, or the one at
the address the allocator handed out) are exactly the entities it
destroyed. -/
theorem add_bearer_failure_atomic (E : Env) (s : rlc) (lcid : Nat) (cnfg : srslte_rlc_config_t)
    (hfail : (rlc_map_t.find s.rlc_array lcid).isSome = true ∨
      (∃ raw, cnfg.rlc_mode = rlc_mode_t.invalid raw) ∨
      (cnfg.rlc_mode ≠ rlc_mode_t.RLC_MODE_TM ∧ E.configure cnfg.rlc_mode cnfg = false)) :
    (rlc.add_bearer E s lcid cnfg).rlc_array = s.rlc_array ∧
    (rlc.add_bearer E s lcid cnfg).rlc_array_mrb = s.rlc_array_mrb ∧
    (∀ p, p ≠ s.next → (rlc.add_bearer E s lcid cnfg).heap p = s.heap p) ∧
    ∃ evs, (rlc.add_bearer E s lcid cnfg).trace = s.trace ++ evs ∧
      destroyed evs = constructed evs ∧
      (constructed evs = [] ∨ constructed evs = [s.next]) ∧
      stopped evs = [] := by
  rcases add_bearer_failure_shape E s lcid cnfg hfail with h | ⟨o, mid, h1, h2, h3, h⟩
  · rw [h]
    refine ⟨rfl, rfl, fun _ _ => rfl, [Event.wrlock, Event.unlock], rfl, rfl, Or.inl rfl, rfl⟩
  · rw [h]
    refine ⟨rfl, rfl, ?_, [Event.wrlock, Event.new s.next cnfg.rlc_mode] ++ mid ++
      [Event.delete s.next, Event.unlock], ?_, ?_, ?_, ?_⟩
    · intro p hp; simp [Function.update, hp]
    · simp
    · simp [destroyed_append, constructed_append, h1, h2, destroyed, constructed]
    · right; simp [constructed_append, h1, constructed]
    · simp [stopped_append, h3, stopped]

/-- Witness of C2: a second add at LCID 0, which init already created. -/
theorem add_bearer_failure_atomic_witness :
    (rlc_map_t.find s_init.rlc_array 0).isSome = true ∧
    (rlc.add_bearer sampleEnv s_init 0 sample_am_config).rlc_array = s_init.rlc_array ∧
    (rlc.add_bearer sampleEnv s_init 0 sample_am_config).rlc_array_mrb = s_init.rlc_array_mrb :=
  ⟨by decide,
   (add_bearer_failure_atomic sampleEnv s_init 0 sample_am_config (Or.inl (by decide))).1,
   (add_bearer_failure_atomic sampleEnv s_init 0 sample_am_config (Or.inl (by decide))).2.1⟩

/-! ## change_lcid -/

/-- C3 as stated fails: after init the unicast table holds LCID 0 and not
LCID 11 (the first value outside the range of sampleEnv); change_lcid(0, 11)
moves the entity to key 11, and has_bearer(11) is false afterwards. -/
theorem change_lcid_beyond_range_counterexample :
    (rlc_map_t.find s_init.rlc_array 0).isSome = true ∧
    rlc_map_t.find s_init.rlc_array 11 = none ∧
    ∃ s', rlc.change_lcid sampleEnv s_init 0 11 = some s' ∧
      s'.rlc_array = [(11, 0)] ∧
      (rlc.has_bearer sampleEnv s' 11).2 = false := by
  refine ⟨by decide, by decide, _, rfl, by decide, by decide⟩

/-- State reached by change_lcid when the old LCID is valid and the new
one is in range and free. -/
theorem change_lcid_ok_state (E : Env) (s : rlc) (old_lcid new_lcid e : Nat)
    (hold_range : old_lcid < E.SRSLTE_N_RADIO_BEARERS)
    (hold : rlc_map_t.find s.rlc_array old_lcid = some e)
    (hnew : rlc_map_t.find s.rlc_array new_lcid = none) :
    rlc.change_lcid E s old_lcid new_lcid =
      some { s with
        rlc_array := rlc_map_t.erase (rlc_map_t.place s.rlc_array new_lcid e) old_lcid
        trace := s.trace ++ [Event.wrlock, Event.unlock] } := by
  simp [rlc.change_lcid, rlc.valid_lcid, rlc.emit, hold, hnew, Nat.not_le.mpr hold_range,
    insert_absent _ _ _ hnew]

/-- C3 (amended): when old and new both lie in [0, N_BEARERS), old is in the
unicast table and new is not, change_lcid returns, has_bearer(old) is
false and has_bearer(new) is true afterwards, the pointer stored at new is
the pointer that was stored at old, no entity object is modified and no
entity call is made (the only new events are the lock and the unlock),
every other unicast entry and the multicast table are unchanged. -/
theorem change_lcid_success (E : Env) (s : rlc) (old_lcid new_lcid e : Nat)
    (hold_range : old_lcid < E.SRSLTE_N_RADIO_BEARERS)
    (hold : rlc_map_t.find s.rlc_array old_lcid = some e)
    (hnew_range : new_lcid < E.SRSLTE_N_RADIO_BEARERS)
    (hnew : rlc_map_t.find s.rlc_array new_lcid = none) :
    ∃ s', rlc.change_lcid E s old_lcid new_lcid = some s' ∧
      (rlc.has_bearer E s' old_lcid).2 = false ∧
      (rlc.has_bearer E s' new_lcid).2 = true ∧
      rlc_map_t.find s'.rlc_array new_lcid = some e ∧
      s'.heap = s.heap ∧
      s'.next = s.next ∧
      s'.trace = s.trace ++ [Event.wrlock, Event.unlock] ∧
      (∀ k, k ≠ old_lcid → k ≠ new_lcid →
        rlc_map_t.find s'.rlc_array k = rlc_map_t.find s.rlc_array k) ∧
      s'.rlc_array_mrb = s.rlc_array_mrb := by
  have hne : new_lcid ≠ old_lcid := by
    intro h; rw [h, hold] at hnew; cases hnew
  refine ⟨_, change_lcid_ok_state E s old_lcid new_lcid e hold_range hold hnew, ?_, ?_, ?_,
    rfl, rfl, rfl, ?_, rfl⟩
  · simp [rlc.has_bearer, rlc.valid_lcid, rlc.emit, find_erase_self]
  · simp [rlc.has_bearer, rlc.valid_lcid, rlc.emit, find_erase_other _ _ _ hne,
      find_place_self _ _ _ hnew, Nat.not_le.mpr hnew_range]
  · simp [find_erase_other _ _ _ hne, find_place_self _ _ _ hnew]
  · intro k hk1 hk2
    simp [find_erase_other _ _ _ hk1, find_place_other _ _ _ _ hk2]

/-- Witness of C3 (amended): LCID 0 renamed to LCID 5 right after init. -/
theorem change_lcid_success_witness :
    (0 < sampleEnv.SRSLTE_N_RADIO_BEARERS ∧ rlc_map_t.find s_init.rlc_array 0 = some 0 ∧
      5 < sampleEnv.SRSLTE_N_RADIO_BEARERS ∧ rlc_map_t.find s_init.rlc_array 5 = none) ∧
    ∃ s', rlc.change_lcid sampleEnv s_init 0 5 = some s' ∧
      (rlc.has_bearer sampleEnv s' 0).2 = false ∧
      (rlc.has_bearer sampleEnv s' 5).2 = true ∧
      rlc_map_t.find s'.rlc_array 5 = some 0 := by
  refine ⟨⟨by decide, by decide, by decide, by decide⟩, ?_⟩
  obtain ⟨s', h1, h2, h3, h4, _⟩ :=
    change_lcid_success sampleEnv s_init 0 5 0 (by decide) (by decide) (by decide) (by decide)
  exact ⟨s', h1, h2, h3, h4⟩

/-- C4: change_lcid changes nothing when it fails.  When old is not in the
unicast table, or new is already in it (old = new included), the call
returns with both tables, the heap and the allocator as before; the only
new events are the lock and the unlock, so no entity is stopped or
destroyed. -/
theorem change_lcid_failure_unchanged (E : Env) (s : rlc) (old_lcid new_lcid : Nat)
    (hfail : rlc_map_t.find s.rlc_array old_lcid = none ∨
      (rlc_map_t.find s.rlc_array new_lcid).isSome = true) :
    rlc.change_lcid E s old_lcid new_lcid =
      some { s with trace := s.trace ++ [Event.wrlock, Event.unlock] } := by
  rcases hfail with h | h
  · simp [rlc.change_lcid, rlc.valid_lcid, rlc.emit, h]
  · cases ho : rlc_map_t.find s.rlc_array old_lcid with
    | none => simp [rlc.change_lcid, rlc.valid_lcid, rlc.emit, ho]
    | some e =>
      obtain ⟨w, hw⟩ := Option.isSome_iff_exists.mp h
      by_cases hc : (rlc.valid_lcid E (s.emit Event.wrlock) old_lcid &&
          !rlc.valid_lcid E (s.emit Event.wrlock) new_lcid) = true
      · unfold rlc.change_lcid
        simp only [hc, if_true]
        simp [rlc.emit, ho, insert_present _ _ _ h]
      · unfold rlc.change_lcid
        simp only [hc]
        simp [rlc.emit]

/-- Witness of C4: renaming LCID 0 onto itself, and renaming the absent
LCID 4, right after init. -/
theorem change_lcid_failure_unchanged_witness :
    (rlc_map_t.find s_init.rlc_array 0).isSome = true ∧
    rlc.change_lcid sampleEnv s_init 0 0 =
      some { s_init with trace := s_init.trace ++ [Event.wrlock, Event.unlock] } ∧
    rlc_map_t.find s_init.rlc_array 4 = none ∧
    rlc.change_lcid sampleEnv s_init 4 5 =
      some { s_init with trace := s_init.trace ++ [Event.wrlock, Event.unlock] } :=
  ⟨by decide, change_lcid_failure_unchanged sampleEnv s_init 0 0 (Or.inr (by decide)),
   by decide, change_lcid_failure_unchanged sampleEnv s_init 4 5 (Or.inl (by decide))⟩

/-! ## del_bearer and del_bearer_mrb -/

/-- State reached by del_bearer on a valid LCID. -/
theorem del_bearer_valid_state (E : Env) (s : rlc) (lcid : Nat)
    (hv : rlc.valid_lcid E s lcid = true) :
    ∃ e, rlc_map_t.find s.rlc_array lcid = some e ∧
      rlc.del_bearer E s lcid =
        some { s with
          rlc_array := rlc_map_t.erase s.rlc_array lcid
          trace := s.trace ++ [Event.wrlock, Event.stop e, Event.delete e, Event.unlock] } := by
  have hv1 : rlc.valid_lcid E (s.emit Event.wrlock) lcid = true := hv
  cases hf : rlc_map_t.find s.rlc_array lcid with
  | none => simp [rlc.valid_lcid, hf] at hv
  | some e =>
    refine ⟨e, rfl, ?_⟩
    unfold rlc.del_bearer
    simp only [hv1, if_true]
    simp [rlc.emit, hf, rlc.entity_stop, rlc.entity_delete]

/-- State reached by del_bearer on an LCID that is not valid. -/
theorem del_bearer_unknown_state (E : Env) (s : rlc) (lcid : Nat)
    (hv : rlc.valid_lcid E s lcid = false) :
    rlc.del_bearer E s lcid =
      some { s with trace := s.trace ++ [Event.wrlock, Event.unlock] } := by
  have hv1 : rlc.valid_lcid E (s.emit Event.wrlock) lcid = false := hv
  unfold rlc.del_bearer
  simp only [hv1]
  simp [rlc.emit]

/-- State reached by del_bearer_mrb on a valid multicast LCID. -/
theorem del_bearer_mrb_valid_state (E : Env) (s : rlc) (lcid : Nat)
    (hv : rlc.valid_lcid_mrb E s lcid = true) :
    ∃ e, rlc_map_t.find s.rlc_array_mrb lcid = some e ∧
      rlc.del_bearer_mrb E s lcid =
        some { s with
          rlc_array_mrb := rlc_map_t.erase s.rlc_array_mrb lcid
          trace := s.trace ++ [Event.wrlock, Event.stop e, Event.delete e, Event.unlock] } := by
  have hv1 : rlc.valid_lcid_mrb E (s.emit Event.wrlock) lcid = true := hv
  cases hf : rlc_map_t.find s.rlc_array_mrb lcid with
  | none => simp [rlc.valid_lcid_mrb, hf] at hv
  | some e =>
    refine ⟨e, rfl, ?_⟩
    unfold rlc.del_bearer_mrb
    simp only [hv1, if_true]
    simp [rlc.emit, hf, rlc.entity_stop, rlc.entity_delete]

/-- State reached by del_bearer_mrb on a multicast LCID that is not
valid. -/
theorem del_bearer_mrb_unknown_state (E : Env) (s : rlc) (lcid : Nat)
    (hv : rlc.valid_lcid_mrb E s lcid = false) :
    rlc.del_bearer_mrb E s lcid =
      some { s with trace := s.trace ++ [Event.wrlock, Event.unlock] } := by
  have hv1 : rlc.valid_lcid_mrb E (s.emit Event.wrlock) lcid = false := hv
  unfold rlc.del_bearer_mrb
  simp only [hv1]
  simp [rlc.emit]

/-- C5: del_bearer on a present bearer (has_bearer true) returns, stops the
entity stored at the LCID and then deletes it, removes the slot so that
has_bearer is false afterwards, and keeps every other unicast entry, the
multicast table and the heap; on an absent bearer (has_bearer false) it
returns with both tables and the heap as before and makes no entity call.
del_bearer_mrb does the same with the two tables exchanged, presence being
decided by valid_lcid_mrb. -/
theorem del_bearer_spec (E : Env) (s : rlc) (lcid : Nat) :
    ((rlc.has_bearer E s lcid).2 = true →
      ∃ e s', rlc_map_t.find s.rlc_array lcid = some e ∧
        rlc.del_bearer E s lcid = some s' ∧
        s'.trace = s.trace ++ [Event.wrlock, Event.stop e, Event.delete e, Event.unlock] ∧
        (rlc.has_bearer E s' lcid).2 = false ∧
        rlc_map_t.find s'.rlc_array lcid = none ∧
        (∀ k, k ≠ lcid → rlc_map_t.find s'.rlc_array k = rlc_map_t.find s.rlc_array k) ∧
        s'.rlc_array_mrb = s.rlc_array_mrb ∧ s'.heap = s.heap) ∧
    ((rlc.has_bearer E s lcid).2 = false →
      rlc.del_bearer E s lcid =
        some { s with trace := s.trace ++ [Event.wrlock, Event.unlock] }) ∧
    (rlc.valid_lcid_mrb E s lcid = true →
      ∃ e s', rlc_map_t.find s.rlc_array_mrb lcid = some e ∧
        rlc.del_bearer_mrb E s lcid = some s' ∧
        s'.trace = s.trace ++ [Event.wrlock, Event.stop e, Event.delete e, Event.unlock] ∧
        rlc.valid_lcid_mrb E s' lcid = false ∧
        rlc_map_t.find s'.rlc_array_mrb lcid = none ∧
        (∀ k, k ≠ lcid →
          rlc_map_t.find s'.rlc_array_mrb k = rlc_map_t.find s.rlc_array_mrb k) ∧
        s'.rlc_array = s.rlc_array ∧ s'.heap = s.heap) ∧
    (rlc.valid_lcid_mrb E s lcid = false →
      rlc.del_bearer_mrb E s lcid =
        some { s with trace := s.trace ++ [Event.wrlock, Event.unlock] }) := by
  refine ⟨?_, ?_, ?_, ?_⟩
  · intro h
    obtain ⟨e, he, hd⟩ := del_bearer_valid_state E s lcid h
    refine ⟨e, _, he, hd, rfl, ?_, ?_, ?_, rfl, rfl⟩
    · simp [rlc.has_bearer, rlc.valid_lcid, rlc.emit, find_erase_self]
    · exact find_erase_self _ _
    · intro k hk; exact find_erase_other _ _ _ hk
  · intro h
    exact del_bearer_unknown_state E s lcid h
  · intro h
    obtain ⟨e, he, hd⟩ := del_bearer_mrb_valid_state E s lcid h
    refine ⟨e, _, he, hd, rfl, ?_, ?_, ?_, rfl, rfl⟩
    · simp [rlc.valid_lcid_mrb, find_erase_self]
    · exact find_erase_self _ _
    · intro k hk; exact find_erase_other _ _ _ hk
  · intro h
    exact del_bearer_mrb_unknown_state E s lcid h

/-- Witness of C5: in a state with unicast LCIDs 0 and 1 and multicast
LCID 1, deleting unicast LCID 1 and multicast LCID 1 removes them, and
deleting the absent unicast LCID 7 changes nothing. -/
theorem del_bearer_spec_witness :
    ((rlc.has_bearer sampleEnv s_busy 1).2 = true ∧
      ∃ e s', rlc_map_t.find s_busy.rlc_array 1 = some e ∧
        rlc.del_bearer sampleEnv s_busy 1 = some s' ∧
        (rlc.has_bearer sampleEnv s' 1).2 = false) ∧
    ((rlc.has_bearer sampleEnv s_busy 7).2 = false ∧
      rlc.del_bearer sampleEnv s_busy 7 =
        some { s_busy with trace := s_busy.trace ++ [Event.wrlock, Event.unlock] }) ∧
    (rlc.valid_lcid_mrb sampleEnv s_busy 1 = true ∧
      ∃ e s', rlc_map_t.find s_busy.rlc_array_mrb 1 = some e ∧
        rlc.del_bearer_mrb sampleEnv s_busy 1 = some s' ∧
        rlc.valid_lcid_mrb sampleEnv s' 1 = false) := by
  refine ⟨⟨by decide, ?_⟩, ⟨by decide, ?_⟩, ⟨by decide, ?_⟩⟩
  · obtain ⟨e, s', h1, h2, _, h4, _⟩ := (del_bearer_spec sampleEnv s_busy 1).1 (by decide)
    exact ⟨e, s', h1, h2, h4⟩
  · exact (del_bearer_spec sampleEnv s_busy 7).2.1 (by decide)
  · obtain ⟨e, s', h1, h2, _, h4, _⟩ := (del_bearer_spec sampleEnv s_busy 1).2.2.1 (by decide)
    exact ⟨e, s', h1, h2, h4⟩

/-! ## write_sdu and write_sdu_mch -/

theorem delivered_append (a b : List Event) :
    delivered (a ++ b) = delivered a ++ delivered b := by
  induction a with
  | nil => rfl
  | cons e a ih => cases e <;> simp [delivered, ih]

theorem deallocated_append (a b : List Event) :
    deallocated (a ++ b) = deallocated a ++ deallocated b := by
  induction a with
  | nil => rfl
  | cons e a ih => cases e <;> simp [deallocated, ih]

/-- State reached by write_sdu for a packet within the size limit and a
valid LCID. -/
theorem write_sdu_valid_state (E : Env) (s : rlc) (lcid : Nat) (sdu : byte_buffer_t)
    (blocking : Bool) (hsize : sdu.N_bytes ≤ E.RLC_MAX_SDU_SIZE)
    (hv : rlc.valid_lcid E s lcid = true) :
    ∃ e, rlc_map_t.find s.rlc_array lcid = some e ∧
      rlc.write_sdu E s lcid sdu blocking =
        some { s with trace := s.trace ++
          [Event.rdlock, Event.write_sdu e sdu blocking, Event.unlock] } := by
  have hv1 : rlc.valid_lcid E (s.emit Event.rdlock) lcid = true := hv
  cases hf : rlc_map_t.find s.rlc_array lcid with
  | none => simp [rlc.valid_lcid, hf] at hv
  | some e =>
    refine ⟨e, rfl, ?_⟩
    unfold rlc.write_sdu
    simp only [Nat.not_lt.mpr hsize, if_false, hv1, if_true]
    simp [rlc.emit, hf]

/-- State reached by write_sdu for a packet within the size limit and an
LCID that is not valid. -/
theorem write_sdu_unknown_state (E : Env) (s : rlc) (lcid : Nat) (sdu : byte_buffer_t)
    (blocking : Bool) (hsize : sdu.N_bytes ≤ E.RLC_MAX_SDU_SIZE)
    (hv : rlc.valid_lcid E s lcid = false) :
    rlc.write_sdu E s lcid sdu blocking =
      some { s with trace := s.trace ++
        [Event.rdlock, Event.deallocate sdu, Event.unlock] } := by
  have hv1 : rlc.valid_lcid E (s.emit Event.rdlock) lcid = false := hv
  unfold rlc.write_sdu
  simp only [Nat.not_lt.mpr hsize, if_false, hv1]
  simp [rlc.emit]

/-- State reached by write_sdu for a packet beyond the size limit. -/
theorem write_sdu_oversize_state (E : Env) (s : rlc) (lcid : Nat) (sdu : byte_buffer_t)
    (blocking : Bool) (hsize : sdu.N_bytes > E.RLC_MAX_SDU_SIZE) :
    rlc.write_sdu E s lcid sdu blocking =
      some { s with trace := s.trace ++ [Event.deallocate sdu] } := by
  unfold rlc.write_sdu
  simp [hsize, rlc.emit]

/-- State reached by write_sdu_mch for a valid multicast LCID, whatever the
packet size. -/
theorem write_sdu_mch_valid_state (E : Env) (s : rlc) (lcid : Nat) (sdu : byte_buffer_t)
    (hv : rlc.valid_lcid_mrb E s lcid = true) :
    ∃ e, rlc_map_t.find s.rlc_array_mrb lcid = some e ∧
      rlc.write_sdu_mch E s lcid sdu =
        some { s with trace := s.trace ++
          [Event.rdlock, Event.write_sdu e sdu false, Event.unlock] } := by
  have hv1 : rlc.valid_lcid_mrb E (s.emit Event.rdlock) lcid = true := hv
  cases hf : rlc_map_t.find s.rlc_array_mrb lcid with
  | none => simp [rlc.valid_lcid_mrb, hf] at hv
  | some e =>
    refine ⟨e, rfl, ?_⟩
    unfold rlc.write_sdu_mch
    simp only [hv1, if_true]
    simp [rlc.emit, hf]

/-- State reached by write_sdu_mch for a multicast LCID that is not
valid. -/
theorem write_sdu_mch_unknown_state (E : Env) (s : rlc) (lcid : Nat) (sdu : byte_buffer_t)
    (hv : rlc.valid_lcid_mrb E s lcid = false) :
    rlc.write_sdu_mch E s lcid sdu =
      some { s with trace := s.trace ++
        [Event.rdlock, Event.deallocate sdu, Event.unlock] } := by
  have hv1 : rlc.valid_lcid_mrb E (s.emit Event.rdlock) lcid = false := hv
  unfold rlc.write_sdu_mch
  simp only [hv1]
  simp [rlc.emit]

/-- Every outcome of write_sdu: it returns and only adds events. -/
theorem write_sdu_shape (E : Env) (s : rlc) (lcid : Nat) (sdu : byte_buffer_t)
    (blocking : Bool) :
    ∃ evs, rlc.write_sdu E s lcid sdu blocking = some { s with trace := s.trace ++ evs } := by
  by_cases hsize : sdu.N_bytes > E.RLC_MAX_SDU_SIZE
  · exact ⟨_, write_sdu_oversize_state E s lcid sdu blocking hsize⟩
  · have hle : sdu.N_bytes ≤ E.RLC_MAX_SDU_SIZE := Nat.not_lt.mp hsize
    cases hv : rlc.valid_lcid E s lcid with
    | true =>
      obtain ⟨e, _, hw⟩ := write_sdu_valid_state E s lcid sdu blocking hle hv
      exact ⟨_, hw⟩
    | false => exact ⟨_, write_sdu_unknown_state E s lcid sdu blocking hle hv⟩

/-- Every outcome of write_sdu_mch: it returns and only adds events. -/
theorem write_sdu_mch_shape (E : Env) (s : rlc) (lcid : Nat) (sdu : byte_buffer_t) :
    ∃ evs, rlc.write_sdu_mch E s lcid sdu = some { s with trace := s.trace ++ evs } := by
  cases hv : rlc.valid_lcid_mrb E s lcid with
  | true =>
    obtain ⟨e, _, hw⟩ := write_sdu_mch_valid_state E s lcid sdu hv
    exact ⟨_, hw⟩
  | false => exact ⟨_, write_sdu_mch_unknown_state E s lcid sdu hv⟩

/-- C8: admission boundary of write_sdu.  With a present unicast bearer
(has_bearer true), a packet of at most RLC_MAX_SDU_SIZE bytes is handed to
the entity stored at the LCID with the caller's blocking flag, and nothing
is deallocated.  Whatever the state and the LCID, a packet of more than
RLC_MAX_SDU_SIZE bytes is deallocated once and reaches no entity; the
result takes no lock and does not depend on the tables. -/
theorem write_sdu_admission (E : Env) (s : rlc) (lcid : Nat) (sdu : byte_buffer_t)
    (blocking : Bool) :
    (sdu.N_bytes ≤ E.RLC_MAX_SDU_SIZE → (rlc.has_bearer E s lcid).2 = true →
      ∃ e, rlc_map_t.find s.rlc_array lcid = some e ∧
        rlc.write_sdu E s lcid sdu blocking =
          some { s with trace := s.trace ++
            [Event.rdlock, Event.write_sdu e sdu blocking, Event.unlock] } ∧
        delivered [Event.rdlock, Event.write_sdu e sdu blocking, Event.unlock] =
          [(e, sdu, blocking)] ∧
        deallocated [Event.rdlock, Event.write_sdu e sdu blocking, Event.unlock] = []) ∧
    (sdu.N_bytes > E.RLC_MAX_SDU_SIZE →
      rlc.write_sdu E s lcid sdu blocking =
        some { s with trace := s.trace ++ [Event.deallocate sdu] } ∧
      delivered [Event.deallocate sdu] = [] ∧
      deallocated [Event.deallocate sdu] = [sdu]) := by
  refine ⟨?_, ?_⟩
  · intro hsize hb
    have hv : rlc.valid_lcid E s lcid = true := hb
    obtain ⟨e, he, hw⟩ := write_sdu_valid_state E s lcid sdu blocking hsize hv
    exact ⟨e, he, hw, rfl, rfl⟩
  · intro hsize
    exact ⟨write_sdu_oversize_state E s lcid sdu blocking hsize, rfl, rfl⟩

/-- Witness of C8: a packet of exactly the maximum size reaches the entity
of LCID 1; a packet one byte longer is deallocated, for the present LCID 1
and for the absent LCID 7 alike. -/
theorem write_sdu_admission_witness :
    (sdu_max.N_bytes ≤ sampleEnv.RLC_MAX_SDU_SIZE ∧ (rlc.has_bearer sampleEnv s_busy 1).2 = true ∧
      ∃ e, rlc_map_t.find s_busy.rlc_array 1 = some e ∧
        rlc.write_sdu sampleEnv s_busy 1 sdu_max true =
          some { s_busy with trace := s_busy.trace ++
            [Event.rdlock, Event.write_sdu e sdu_max true, Event.unlock] }) ∧
    (sdu_over.N_bytes > sampleEnv.RLC_MAX_SDU_SIZE ∧
      rlc.write_sdu sampleEnv s_busy 1 sdu_over true =
        some { s_busy with trace := s_busy.trace ++ [Event.deallocate sdu_over] } ∧
      rlc.write_sdu sampleEnv s_busy 7 sdu_over true =
        some { s_busy with trace := s_busy.trace ++ [Event.deallocate sdu_over] }) := by
  refine ⟨⟨by decide, by decide, ?_⟩, ⟨by decide, ?_, ?_⟩⟩
  · obtain ⟨e, h1, h2, _⟩ :=
      (write_sdu_admission sampleEnv s_busy 1 sdu_max true).1 (by decide) (by decide)
    exact ⟨e, h1, h2⟩
  · exact ((write_sdu_admission sampleEnv s_busy 1 sdu_over true).2 (by decide)).1
  · exact ((write_sdu_admission sampleEnv s_busy 7 sdu_over true).2 (by decide)).1

/-- C9: buffer ownership is linear in both submission paths.  For every
state, LCID and packet, write_sdu and write_sdu_mch return, leave both
tables, the heap and the allocator as they were, and the events they add
either hand the packet to exactly one entity and deallocate nothing, or
deallocate the packet exactly once and hand it to no entity; when the LCID
is not valid the packet is deallocated exactly once. -/
theorem write_sdu_linear (E : Env) (s : rlc) (lcid : Nat) (sdu : byte_buffer_t)
    (blocking : Bool) :
    (∃ evs, rlc.write_sdu E s lcid sdu blocking = some { s with trace := s.trace ++ evs } ∧
      ((∃ e, delivered evs = [(e, sdu, blocking)] ∧ deallocated evs = []) ∨
        (delivered evs = [] ∧ deallocated evs = [sdu])) ∧
      ((rlc.has_bearer E s lcid).2 = false → delivered evs = [] ∧ deallocated evs = [sdu])) ∧
    (∃ evs, rlc.write_sdu_mch E s lcid sdu = some { s with trace := s.trace ++ evs } ∧
      ((∃ e, delivered evs = [(e, sdu, false)] ∧ deallocated evs = []) ∨
        (delivered evs = [] ∧ deallocated evs = [sdu])) ∧
      (rlc.valid_lcid_mrb E s lcid = false → delivered evs = [] ∧ deallocated evs = [sdu])) := by
  refine ⟨?_, ?_⟩
  · by_cases hsize : sdu.N_bytes > E.RLC_MAX_SDU_SIZE
    · exact ⟨_, write_sdu_oversize_state E s lcid sdu blocking hsize, Or.inr ⟨rfl, rfl⟩,
        fun _ => ⟨rfl, rfl⟩⟩
    · have hle : sdu.N_bytes ≤ E.RLC_MAX_SDU_SIZE := Nat.not_lt.mp hsize
      cases hv : rlc.valid_lcid E s lcid with
      | true =>
        obtain ⟨e, _, hw⟩ := write_sdu_valid_state E s lcid sdu blocking hle hv
        refine ⟨_, hw, Or.inl ⟨e, rfl, rfl⟩, ?_⟩
        intro hb
        have hb1 : rlc.valid_lcid E s lcid = false := hb
        rw [hv] at hb1; cases hb1
      | false =>
        exact ⟨_, write_sdu_unknown_state E s lcid sdu blocking hle hv, Or.inr ⟨rfl, rfl⟩,
          fun _ => ⟨rfl, rfl⟩⟩
  · cases hv : rlc.valid_lcid_mrb E s lcid with
    | true =>
      obtain ⟨e, _, hw⟩ := write_sdu_mch_valid_state E s lcid sdu hv
      refine ⟨_, hw, Or.inl ⟨e, rfl, rfl⟩, ?_⟩
      intro hb; cases hb
    | false =>
      exact ⟨_, write_sdu_mch_unknown_state E s lcid sdu hv, Or.inr ⟨rfl, rfl⟩,
        fun _ => ⟨rfl, rfl⟩⟩

/-- Witness of C9: a packet for the unknown unicast LCID 7 and for the
unknown multicast LCID 7 is deallocated exactly once. -/
theorem write_sdu_linear_witness :
    (rlc.has_bearer sampleEnv s_busy 7).2 = false ∧
    rlc.valid_lcid_mrb sampleEnv s_busy 7 = false ∧
    (∃ evs, rlc.write_sdu sampleEnv s_busy 7 sdu_max true =
        some { s_busy with trace := s_busy.trace ++ evs } ∧
      delivered evs = [] ∧ deallocated evs = [sdu_max]) ∧
    (∃ evs, rlc.write_sdu_mch sampleEnv s_busy 7 sdu_max =
        some { s_busy with trace := s_busy.trace ++ evs } ∧
      delivered evs = [] ∧ deallocated evs = [sdu_max]) := by
  refine ⟨by decide, by decide, ?_, ?_⟩
  · obtain ⟨evs, h1, _, h3⟩ := (write_sdu_linear sampleEnv s_busy 7 sdu_max true).1
    exact ⟨evs, h1, h3 (by decide)⟩
  · obtain ⟨evs, h1, _, h3⟩ := (write_sdu_linear sampleEnv s_busy 7 sdu_max true).2
    exact ⟨evs, h1, h3 (by decide)⟩

/-- C10 fails on the code: write_sdu_mch has no size check.  In a state
whose multicast table holds LCID 1, a packet one byte longer than
RLC_MAX_SDU_SIZE is handed to the multicast entity and is not deallocated,
whereas write_sdu deallocates the same packet. -/
theorem write_sdu_mch_oversize_delivered :
    sdu_over.N_bytes > sampleEnv.RLC_MAX_SDU_SIZE ∧
    rlc_map_t.find s_busy.rlc_array_mrb 1 = some 2 ∧
    rlc.write_sdu_mch sampleEnv s_busy 1 sdu_over =
      some { s_busy with trace := s_busy.trace ++
        [Event.rdlock, Event.write_sdu 2 sdu_over false, Event.unlock] } ∧
    delivered [Event.rdlock, Event.write_sdu 2 sdu_over false, Event.unlock] =
      [(2, sdu_over, false)] ∧
    deallocated [Event.rdlock, Event.write_sdu 2 sdu_over false, Event.unlock] = [] ∧
    rlc.write_sdu sampleEnv s_busy 1 sdu_over false =
      some { s_busy with trace := s_busy.trace ++ [Event.deallocate sdu_over] } := by
  refine ⟨by decide, by decide, ?_, rfl, rfl, ?_⟩
  · obtain ⟨e, he, hw⟩ := write_sdu_mch_valid_state sampleEnv s_busy 1 sdu_over (by decide)
    have h2 : rlc_map_t.find s_busy.rlc_array_mrb 1 = some 2 := by decide
    rw [h2] at he
    cases he
    exact hw
  · exact write_sdu_oversize_state sampleEnv s_busy 1 sdu_over false (by decide)

/-! ## Shapes of the control operations -/

/-- Every outcome of add_bearer: nothing but the lock and unlock, or an
entity constructed and deleted again, or an entity constructed and stored
at a key that was free. -/
theorem add_bearer_shape (E : Env) (s : rlc) (lcid : Nat) (cnfg : srslte_rlc_config_t) :
    rlc.add_bearer E s lcid cnfg = { s with trace := s.trace ++ [Event.wrlock, Event.unlock] } ∨
    (∃ (o : rlc_common) (evs : List Event),
      rlc.add_bearer E s lcid cnfg =
        { s with
          heap := Function.update s.heap s.next (some o)
          next := s.next + 1
          trace := s.trace ++ evs }) ∨
    (∃ (o : rlc_common) (evs : List Event),
      rlc.add_bearer E s lcid cnfg =
        { s with
          rlc_array := rlc_map_t.place s.rlc_array lcid s.next
          heap := Function.update s.heap s.next (some o)
          next := s.next + 1
          trace := s.trace ++ evs }) := by
  by_cases hfail : (rlc_map_t.find s.rlc_array lcid).isSome = true ∨
      (∃ raw, cnfg.rlc_mode = rlc_mode_t.invalid raw) ∨
      (cnfg.rlc_mode ≠ rlc_mode_t.RLC_MODE_TM ∧ E.configure cnfg.rlc_mode cnfg = false)
  · rcases add_bearer_failure_shape E s lcid cnfg hfail with h | ⟨o, mid, _, _, _, h⟩
    · exact Or.inl h
    · refine Or.inr (Or.inl ⟨o, [Event.wrlock, Event.new s.next cnfg.rlc_mode] ++ mid ++
        [Event.delete s.next, Event.unlock], ?_⟩)
      rw [h]
      simp only [List.append_assoc]
  · have h1 : rlc_map_t.find s.rlc_array lcid = none := by
      cases hf : rlc_map_t.find s.rlc_array lcid with
      | none => rfl
      | some e => exact absurd (Or.inl (by simp [hf])) hfail
    have h2 : cnfg.rlc_mode = rlc_mode_t.RLC_MODE_TM ∨ cnfg.rlc_mode = rlc_mode_t.RLC_MODE_UM ∨
        cnfg.rlc_mode = rlc_mode_t.RLC_MODE_AM := by
      cases hm : cnfg.rlc_mode with
      | invalid raw => exact absurd (Or.inr (Or.inl ⟨raw, hm⟩)) hfail
      | RLC_MODE_TM => simp
      | RLC_MODE_UM => simp
      | RLC_MODE_AM => simp
    have h3 : cnfg.rlc_mode ≠ rlc_mode_t.RLC_MODE_TM → E.configure cnfg.rlc_mode cnfg = true := by
      intro hne
      cases hc : E.configure cnfg.rlc_mode cnfg with
      | true => rfl
      | false => exact absurd (Or.inr (Or.inr ⟨hne, hc⟩)) hfail
    have hv : rlc.valid_lcid E (s.emit Event.wrlock) lcid = false := by
      simp [rlc.valid_lcid, rlc.emit, h1]
    refine Or.inr (Or.inr ⟨rlc_common.mk cnfg.rlc_mode (some lcid)
      (if cnfg.rlc_mode = rlc_mode_t.RLC_MODE_TM then none else some cnfg),
      [Event.wrlock, Event.new s.next cnfg.rlc_mode,
      Event.init s.next lcid] ++ (if cnfg.rlc_mode = rlc_mode_t.RLC_MODE_TM then []
      else [Event.configure s.next cnfg]) ++ [Event.unlock], ?_⟩)
    rw [add_bearer_ok_state E s lcid cnfg hv h1 h2 h3]
    simp only [List.append_assoc]

/-- Every outcome of add_bearer_mrb, in the same three shapes. -/
theorem add_bearer_mrb_shape (E : Env) (s : rlc) (lcid : Nat) :
    rlc.add_bearer_mrb E s lcid = { s with trace := s.trace ++ [Event.wrlock, Event.unlock] } ∨
    (∃ (o : rlc_common) (evs : List Event),
      rlc.add_bearer_mrb E s lcid =
        { s with
          heap := Function.update s.heap s.next (some o)
          next := s.next + 1
          trace := s.trace ++ evs }) ∨
    (∃ (o : rlc_common) (evs : List Event),
      rlc.add_bearer_mrb E s lcid =
        { s with
          rlc_array_mrb := rlc_map_t.place s.rlc_array_mrb lcid s.next
          heap := Function.update s.heap s.next (some o)
          next := s.next + 1
          trace := s.trace ++ evs }) := by
  have ho : ∃ o : rlc_common,
      o = rlc_common.mk rlc_mode_t.RLC_MODE_UM (some lcid) (some E.mch_config) := ⟨_, rfl⟩
  obtain ⟨o, ho⟩ := ho
  unfold rlc.add_bearer_mrb
  by_cases hv : rlc.valid_lcid_mrb E (s.emit Event.wrlock) lcid = false
  · simp only [hv, if_true]
    cases hc : E.configure rlc_mode_t.RLC_MODE_UM E.mch_config with
    | false =>
      refine Or.inr (Or.inl ⟨o, [Event.wrlock, Event.new s.next rlc_mode_t.RLC_MODE_UM,
        Event.init s.next lcid, Event.configure s.next E.mch_config, Event.delete s.next,
        Event.unlock], ?_⟩)
      simp [rlc.new_entity, rlc.entity_init, rlc.emit, rlc.entity_delete,
        rlc.entity_configure, hc, ho]
    | true =>
      cases hf : rlc_map_t.find s.rlc_array_mrb lcid with
      | none =>
        refine Or.inr (Or.inr ⟨o, [Event.wrlock, Event.new s.next rlc_mode_t.RLC_MODE_UM,
          Event.init s.next lcid, Event.configure s.next E.mch_config, Event.unlock], ?_⟩)
        simp [rlc.new_entity, rlc.entity_init, rlc.emit, rlc.entity_delete,
          rlc.entity_configure, hc, insert_absent _ _ _ hf, ho]
      | some e0 =>
        refine Or.inr (Or.inl ⟨o, [Event.wrlock, Event.new s.next rlc_mode_t.RLC_MODE_UM,
          Event.init s.next lcid, Event.configure s.next E.mch_config, Event.delete s.next,
          Event.unlock], ?_⟩)
        have hp : (rlc_map_t.find s.rlc_array_mrb lcid).isSome = true := by simp [hf]
        simp [rlc.new_entity, rlc.entity_init, rlc.emit, rlc.entity_delete,
          rlc.entity_configure, hc, insert_present _ _ _ hp, ho]
  · left
    rw [if_neg hv]
    simp [rlc.emit]

/-- Every outcome of change_lcid: it returns, with the table unchanged or
with the entry of the old key moved to the new key. -/
theorem change_lcid_shape (E : Env) (s : rlc) (old_lcid new_lcid : Nat) :
    rlc.change_lcid E s old_lcid new_lcid =
      some { s with trace := s.trace ++ [Event.wrlock, Event.unlock] } ∨
    ∃ e, rlc_map_t.find s.rlc_array old_lcid = some e ∧
      rlc.change_lcid E s old_lcid new_lcid =
        some { s with
          rlc_array := rlc_map_t.erase (rlc_map_t.place s.rlc_array new_lcid e) old_lcid
          trace := s.trace ++ [Event.wrlock, Event.unlock] } := by
  cases ho : rlc_map_t.find s.rlc_array old_lcid with
  | none => left; simp [rlc.change_lcid, rlc.valid_lcid, rlc.emit, ho]
  | some e =>
    by_cases hc : (rlc.valid_lcid E (s.emit Event.wrlock) old_lcid &&
        !rlc.valid_lcid E (s.emit Event.wrlock) new_lcid) = true
    · cases hn : rlc_map_t.find s.rlc_array new_lcid with
      | none =>
        right
        refine ⟨e, rfl, ?_⟩
        unfold rlc.change_lcid
        simp only [hc, if_true]
        simp [rlc.emit, ho, insert_absent _ _ _ hn]
      | some e1 =>
        left
        have hp : (rlc_map_t.find s.rlc_array new_lcid).isSome = true := by simp [hn]
        unfold rlc.change_lcid
        simp only [hc, if_true]
        simp [rlc.emit, ho, insert_present _ _ _ hp]
    · left
      unfold rlc.change_lcid
      simp only [hc]
      simp [rlc.emit]

/-- Every outcome of del_bearer: it returns, with the table unchanged or
with the key erased. -/
theorem del_bearer_shape (E : Env) (s : rlc) (lcid : Nat) :
    ∃ evs, rlc.del_bearer E s lcid = some { s with trace := s.trace ++ evs } ∨
      rlc.del_bearer E s lcid =
        some { s with
          rlc_array := rlc_map_t.erase s.rlc_array lcid
          trace := s.trace ++ evs } := by
  cases hv : rlc.valid_lcid E s lcid with
  | true =>
    obtain ⟨e, _, h⟩ := del_bearer_valid_state E s lcid hv
    exact ⟨_, Or.inr h⟩
  | false => exact ⟨_, Or.inl (del_bearer_unknown_state E s lcid hv)⟩

/-- Every outcome of del_bearer_mrb. -/
theorem del_bearer_mrb_shape (E : Env) (s : rlc) (lcid : Nat) :
    ∃ evs, rlc.del_bearer_mrb E s lcid = some { s with trace := s.trace ++ evs } ∨
      rlc.del_bearer_mrb E s lcid =
        some { s with
          rlc_array_mrb := rlc_map_t.erase s.rlc_array_mrb lcid
          trace := s.trace ++ evs } := by
  cases hv : rlc.valid_lcid_mrb E s lcid with
  | true =>
    obtain ⟨e, _, h⟩ := del_bearer_mrb_valid_state E s lcid hv
    exact ⟨_, Or.inr h⟩
  | false => exact ⟨_, Or.inl (del_bearer_mrb_unknown_state E s lcid hv)⟩

/-! ## init and reset -/

theorem stop_delete_loop_state (m : rlc_map_t) (s : rlc) :
    rlc.stop_delete_loop m s = { s with trace := s.trace ++ stop_delete_events m } := by
  unfold rlc.stop_delete_loop
  induction m generalizing s with
  | nil => simp [stop_delete_events]
  | cons p m ih =>
    rw [List.foldl_cons, ih]
    simp [rlc.entity_stop, rlc.entity_delete, rlc.emit, stop_delete_events]

theorem stopped_stop_delete_events (m : rlc_map_t) :
    stopped (stop_delete_events m) = m.map Prod.snd := by
  induction m with
  | nil => rfl
  | cons p m ih => simp [stop_delete_events, stopped, ih]

theorem destroyed_stop_delete_events (m : rlc_map_t) :
    destroyed (stop_delete_events m) = m.map Prod.snd := by
  induction m with
  | nil => rfl
  | cons p m ih => simp [stop_delete_events, destroyed, ih]

theorem constructed_stop_delete_events (m : rlc_map_t) :
    constructed (stop_delete_events m) = [] := by
  induction m with
  | nil => rfl
  | cons p m ih => simp [stop_delete_events, constructed, ih]

/-- State reached by reset. -/
theorem reset_state (E : Env) (s : rlc) :
    rlc.reset E s =
      { s with
        rlc_array := [(s.default_lcid, s.next)]
        rlc_array_mrb := []
        heap := Function.update s.heap s.next
          (some { mode := rlc_mode_t.RLC_MODE_TM, lcid := some s.default_lcid, cfg := none })
        next := s.next + 1
        trace := s.trace ++ [Event.wrlock] ++ stop_delete_events s.rlc_array ++
          stop_delete_events s.rlc_array_mrb ++
          [Event.unlock, Event.wrlock, Event.new s.next rlc_mode_t.RLC_MODE_TM,
           Event.init s.next s.default_lcid, Event.unlock] } := by
  unfold rlc.reset
  simp only [stop_delete_loop_state]
  rw [add_bearer_ok_state E _ _ _ (by simp [rlc.valid_lcid, rlc.emit, rlc_map_t.find])
    (by simp [rlc.emit, rlc_map_t.find]) (Or.inl rfl) (fun h => absurd rfl h)]
  simp [rlc.emit, srslte_rlc_config_t.default_ctor, rlc_map_t.place]

/-- State reached by init on a freshly constructed manager. -/
theorem init_state (E : Env) (lcid_ : Nat) (now : timeval) :
    rlc.init E rlc.ctor lcid_ now =
      { rlc.ctor with
        rlc_array := [(lcid_, 0)]
        default_lcid := lcid_
        metrics_time1 := now
        heap := Function.update (fun _ => none) 0
          (some { mode := rlc_mode_t.RLC_MODE_TM, lcid := some lcid_, cfg := none })
        next := 1
        trace := [Event.wrlock, Event.new 0 rlc_mode_t.RLC_MODE_TM, Event.init 0 lcid_,
          Event.unlock] } := by
  unfold rlc.init
  rw [add_bearer_ok_state E _ _ _
    (by simp [rlc.valid_lcid, rlc.emit, rlc.reset_metrics, rlc.reset_metrics_loop, rlc.ctor,
      rlc_map_t.find])
    (by simp [rlc.reset_metrics, rlc.reset_metrics_loop, rlc.ctor, rlc_map_t.find])
    (Or.inl rfl) (fun h => absurd rfl h)]
  simp [rlc.reset_metrics, rlc.reset_metrics_loop, rlc.ctor, srslte_rlc_config_t.default_ctor,
    rlc_map_t.place]

/-! ## Reachable states -/

theorem mem_place (m : rlc_map_t) (k v : Nat) (p : Nat × Nat)
    (h : p ∈ rlc_map_t.place m k v) : p = (k, v) ∨ p ∈ m := by
  induction m with
  | nil => simpa [rlc_map_t.place] using h
  | cons q m ih =>
    obtain ⟨k1, v1⟩ := q
    by_cases hlt : k < k1
    · simpa [rlc_map_t.place, hlt] using h
    · simp only [rlc_map_t.place, hlt, if_false, List.mem_cons] at h
      rcases h with h | h
      · exact Or.inr (List.mem_cons.mpr (Or.inl h))
      · rcases ih h with h1 | h1
        · exact Or.inl h1
        · exact Or.inr (List.mem_cons.mpr (Or.inr h1))

theorem mem_erase (m : rlc_map_t) (k : Nat) (p : Nat × Nat)
    (h : p ∈ rlc_map_t.erase m k) : p ∈ m := by
  induction m with
  | nil => simp [rlc_map_t.erase] at h
  | cons q m ih =>
    obtain ⟨k1, v1⟩ := q
    by_cases hk : k1 = k
    · simp only [rlc_map_t.erase, hk, if_true] at h
      exact List.mem_cons.mpr (Or.inr (ih h))
    · simp only [rlc_map_t.erase, hk, if_false, List.mem_cons] at h
      rcases h with h | h
      · exact List.mem_cons.mpr (Or.inl h)
      · exact List.mem_cons.mpr (Or.inr (ih h))

theorem find_some_mem (m : rlc_map_t) (k v : Nat) (h : rlc_map_t.find m k = some v) :
    (k, v) ∈ m := by
  induction m with
  | nil => simp [rlc_map_t.find] at h
  | cons q m ih =>
    obtain ⟨k1, v1⟩ := q
    by_cases hk : k1 = k
    · simp only [rlc_map_t.find, hk, if_true, Option.some.injEq] at h
      simp [hk, h]
    · simp only [rlc_map_t.find, hk, if_false] at h
      exact List.mem_cons.mpr (Or.inr (ih h))

/-- A property that holds after init and is kept by every call holds in
every reachable state. -/
theorem reachable_induction (E : Env) (lcid_ : Nat) (P : rlc → Prop)
    (hinit : ∀ now, P (rlc.init E rlc.ctor lcid_ now))
    (hstep : ∀ s op s', P s → ManagerOp.apply E s op = some s' → P s')
    (s : rlc) (hr : Reachable E lcid_ s) : P s := by
  obtain ⟨now, ops, hrun⟩ := hr
  have key : ∀ (ops : List ManagerOp) (a b : rlc), P a → ManagerOp.run E a ops = some b → P b := by
    intro ops
    induction ops with
    | nil =>
      intro a b ha h
      simp only [ManagerOp.run, Option.some.injEq] at h
      exact h ▸ ha
    | cons op ops ih =>
      intro a b ha h
      simp only [ManagerOp.run] at h
      cases hop : ManagerOp.apply E a op with
      | none => simp [hop] at h
      | some a1 =>
        simp only [hop] at h
        exact ih a1 b (hstep a op a1 ha hop) h
  exact key ops _ s (hinit now) hrun

/-- The default LCID and the pointer bound after one control-facade
call. -/
theorem apply_keeps_invariant (E : Env) (lcid_ : Nat) (s : rlc) (op : ControlOp) (s' : rlc)
    (hs : s.default_lcid = lcid_ ∧ ptr_bounded s)
    (hop : ControlOp.apply E s op = some s') :
    s'.default_lcid = lcid_ ∧ ptr_bounded s' := by
  obtain ⟨hd, hb⟩ := hs
  have hb1 : ∀ p, p ∈ s.rlc_array → p.2 < s.next :=
    fun p hp => hb p (List.mem_append.mpr (Or.inl hp))
  have hb2 : ∀ p, p ∈ s.rlc_array_mrb → p.2 < s.next :=
    fun p hp => hb p (List.mem_append.mpr (Or.inr hp))
  cases op with
  | add_bearer lcid cnfg =>
    simp only [ControlOp.apply, Option.some.injEq] at hop
    subst hop
    rcases add_bearer_shape E s lcid cnfg with h | ⟨o, evs, h⟩ | ⟨o, evs, h⟩
    · rw [h]; exact ⟨hd, hb⟩
    · rw [h]
      refine ⟨hd, ?_⟩
      intro p hp
      exact Nat.lt_succ_of_lt (hb p hp)
    · rw [h]
      refine ⟨hd, ?_⟩
      intro p hp
      rcases List.mem_append.mp hp with hp | hp
      · rcases mem_place _ _ _ _ hp with h1 | h1
        · rw [h1]; exact Nat.lt_succ_self _
        · exact Nat.lt_succ_of_lt (hb1 p h1)
      · exact Nat.lt_succ_of_lt (hb2 p hp)
  | add_bearer_mrb lcid =>
    simp only [ControlOp.apply, Option.some.injEq] at hop
    subst hop
    rcases add_bearer_mrb_shape E s lcid with h | ⟨o, evs, h⟩ | ⟨o, evs, h⟩
    · rw [h]; exact ⟨hd, hb⟩
    · rw [h]
      refine ⟨hd, ?_⟩
      intro p hp
      exact Nat.lt_succ_of_lt (hb p hp)
    · rw [h]
      refine ⟨hd, ?_⟩
      intro p hp
      rcases List.mem_append.mp hp with hp | hp
      · exact Nat.lt_succ_of_lt (hb1 p hp)
      · rcases mem_place _ _ _ _ hp with h1 | h1
        · rw [h1]; exact Nat.lt_succ_self _
        · exact Nat.lt_succ_of_lt (hb2 p h1)
  | del_bearer lcid =>
    simp only [ControlOp.apply] at hop
    obtain ⟨evs, h | h⟩ := del_bearer_shape E s lcid
    · rw [h, Option.some.injEq] at hop
      subst hop
      exact ⟨hd, hb⟩
    · rw [h, Option.some.injEq] at hop
      subst hop
      refine ⟨hd, ?_⟩
      intro p hp
      rcases List.mem_append.mp hp with hp | hp
      · exact hb1 p (mem_erase _ _ _ hp)
      · exact hb2 p hp
  | del_bearer_mrb lcid =>
    simp only [ControlOp.apply] at hop
    obtain ⟨evs, h | h⟩ := del_bearer_mrb_shape E s lcid
    · rw [h, Option.some.injEq] at hop
      subst hop
      exact ⟨hd, hb⟩
    · rw [h, Option.some.injEq] at hop
      subst hop
      refine ⟨hd, ?_⟩
      intro p hp
      rcases List.mem_append.mp hp with hp | hp
      · exact hb1 p hp
      · exact hb2 p (mem_erase _ _ _ hp)
  | change_lcid o n =>
    simp only [ControlOp.apply] at hop
    rcases change_lcid_shape E s o n with h | ⟨e, he, h⟩
    · rw [h, Option.some.injEq] at hop
      subst hop
      exact ⟨hd, hb⟩
    · rw [h, Option.some.injEq] at hop
      subst hop
      refine ⟨hd, ?_⟩
      intro p hp
      rcases List.mem_append.mp hp with hp | hp
      · rcases mem_place _ _ _ _ (mem_erase _ _ _ hp) with h1 | h1
        · rw [h1]; exact hb1 (o, e) (find_some_mem _ _ _ he)
        · exact hb1 p h1
      · exact hb2 p hp
  | reset =>
    simp only [ControlOp.apply, Option.some.injEq] at hop
    subst hop
    rw [reset_state]
    refine ⟨hd, ?_⟩
    intro p hp
    simp only [List.append_nil, List.mem_singleton] at hp
    rw [hp]
    exact Nat.lt_succ_self _

/-! ## Loops that call one method on every entity -/

theorem emit_loop_state (f : Nat → Event) (m : rlc_map_t) (s : rlc) :
    m.foldl (fun acc p => acc.emit (f p.2)) s =
      { s with trace := s.trace ++ m.map (fun p => f p.2) } := by
  induction m generalizing s with
  | nil => simp
  | cons p m ih =>
    rw [List.foldl_cons, ih]
    simp [rlc.emit]

theorem reset_metrics_state (s : rlc) :
    s.reset_metrics =
      { s with trace := s.trace ++ s.rlc_array.map (fun p => Event.reset_metrics p.2) ++
          s.rlc_array_mrb.map (fun p => Event.reset_metrics p.2) } := by
  unfold rlc.reset_metrics rlc.reset_metrics_loop
  rw [emit_loop_state, emit_loop_state]

theorem reestablish_state (s : rlc) :
    s.reestablish =
      { s with trace := s.trace ++ [Event.rdlock] ++
          s.rlc_array.map (fun p => Event.reestablish p.2) ++
          s.rlc_array_mrb.map (fun p => Event.reestablish p.2) ++ [Event.unlock] } := by
  unfold rlc.reestablish rlc.reestablish_loop
  simp only [emit_loop_state]
  simp [rlc.emit]

theorem stop_state (s : rlc) :
    s.stop =
      { s with trace := s.trace ++ [Event.rdlock] ++
          s.rlc_array.map (fun p => Event.stop p.2) ++
          s.rlc_array_mrb.map (fun p => Event.stop p.2) ++ [Event.unlock] } := by
  unfold rlc.stop rlc.stop_loop rlc.entity_stop
  simp only [emit_loop_state]
  simp [rlc.emit]

theorem empty_queue_state (s : rlc) :
    s.empty_queue =
      { s with trace := s.trace ++ [Event.rdlock] ++
          s.rlc_array.map (fun p => Event.empty_queue p.2) ++ [Event.unlock] } := by
  unfold rlc.empty_queue rlc.empty_queue_loop
  simp only [emit_loop_state]
  simp [rlc.emit]

/-- State and snapshot returned by get_metrics. -/
theorem get_metrics_state (E : Env) (s : rlc) (m : rlc_metrics_t) (now : timeval) :
    rlc.get_metrics E s m now =
      ({ s with
          metrics_time0 := get_time_interval s.metrics_time1 now
          metrics_time1 := now
          metrics_time2 := now
          trace := s.trace ++ [Event.rdlock] ++
            s.rlc_array.map (fun p => Event.reset_metrics p.2) ++
            s.rlc_array_mrb.map (fun p => Event.reset_metrics p.2) ++ [Event.unlock] },
       rlc.metrics_loop_mrb E (s.trace ++ [Event.rdlock])
         (get_time_interval s.metrics_time1 now).secs s.rlc_array_mrb
         (rlc.metrics_loop E (s.trace ++ [Event.rdlock])
           (get_time_interval s.metrics_time1 now).secs s.rlc_array m)) := by
  unfold rlc.get_metrics
  simp only [reset_metrics_state]
  simp [rlc.emit]

/-! ## Data-plane calls on one LCID -/

theorem valid_lcid_find (E : Env) (s : rlc) (lcid : Nat) (hv : rlc.valid_lcid E s lcid = true) :
    lcid < E.SRSLTE_N_RADIO_BEARERS ∧ ∃ e, rlc_map_t.find s.rlc_array lcid = some e := by
  unfold rlc.valid_lcid at hv
  by_cases hr : lcid ≥ E.SRSLTE_N_RADIO_BEARERS
  · simp [hr] at hv
  · cases hf : rlc_map_t.find s.rlc_array lcid with
    | none => simp [hr, hf] at hv
    | some e => exact ⟨Nat.not_le.mp hr, e, rfl⟩

theorem valid_lcid_mrb_find (E : Env) (s : rlc) (lcid : Nat)
    (hv : rlc.valid_lcid_mrb E s lcid = true) :
    lcid < E.SRSLTE_N_MCH_LCIDS ∧ ∃ e, rlc_map_t.find s.rlc_array_mrb lcid = some e := by
  unfold rlc.valid_lcid_mrb at hv
  by_cases hr : lcid ≥ E.SRSLTE_N_MCH_LCIDS
  · simp [hr] at hv
  · cases hf : rlc_map_t.find s.rlc_array_mrb lcid with
    | none => simp [hr, hf] at hv
    | some e => exact ⟨Nat.not_le.mp hr, e, rfl⟩

theorem has_data_unknown_state (E : Env) (s : rlc) (lcid : Nat)
    (hv : rlc.valid_lcid E s lcid = false) :
    rlc.has_data E s lcid =
      some ({ s with trace := s.trace ++ [Event.rdlock, Event.unlock] }, false) := by
  have hv1 : rlc.valid_lcid E (s.emit Event.rdlock) lcid = false := hv
  unfold rlc.has_data
  simp only [hv1]
  simp [rlc.emit]

theorem has_data_valid_state (E : Env) (s : rlc) (lcid e : Nat)
    (hv : rlc.valid_lcid E s lcid = true) (he : rlc_map_t.find s.rlc_array lcid = some e) :
    rlc.has_data E s lcid =
      some ({ s with trace := s.trace ++ [Event.rdlock, Event.has_data e, Event.unlock] },
        E.entity_has_data (s.trace ++ [Event.rdlock]) e) := by
  have hv1 : rlc.valid_lcid E (s.emit Event.rdlock) lcid = true := hv
  unfold rlc.has_data
  simp only [hv1, if_true]
  simp [rlc.emit, he]

theorem get_buffer_state_unknown_state (E : Env) (s : rlc) (lcid : Nat)
    (hv : rlc.valid_lcid E s lcid = false) :
    rlc.get_buffer_state E s lcid =
      some ({ s with trace := s.trace ++ [Event.rdlock, Event.unlock] }, 0) := by
  have hv1 : rlc.valid_lcid E (s.emit Event.rdlock) lcid = false := hv
  unfold rlc.get_buffer_state
  simp only [hv1]
  simp [rlc.emit]

theorem get_buffer_state_valid_state (E : Env) (s : rlc) (lcid e : Nat)
    (hv : rlc.valid_lcid E s lcid = true) (he : rlc_map_t.find s.rlc_array lcid = some e) :
    rlc.get_buffer_state E s lcid =
      some ({ s with trace := s.trace ++
          [Event.rdlock, Event.get_buffer_state e, Event.unlock] },
        E.entity_get_buffer_state (s.trace ++ [Event.rdlock]) e) := by
  have hv1 : rlc.valid_lcid E (s.emit Event.rdlock) lcid = true := hv
  unfold rlc.get_buffer_state
  simp only [hv1, if_true]
  simp [rlc.emit, he]

theorem get_total_mch_buffer_state_unknown_state (E : Env) (s : rlc) (lcid : Nat)
    (hv : rlc.valid_lcid_mrb E s lcid = false) :
    rlc.get_total_mch_buffer_state E s lcid =
      some ({ s with trace := s.trace ++ [Event.rdlock, Event.unlock] }, 0) := by
  have hv1 : rlc.valid_lcid_mrb E (s.emit Event.rdlock) lcid = false := hv
  unfold rlc.get_total_mch_buffer_state
  simp only [hv1]
  simp [rlc.emit]

theorem get_total_mch_buffer_state_valid_state (E : Env) (s : rlc) (lcid e : Nat)
    (hv : rlc.valid_lcid_mrb E s lcid = true)
    (he : rlc_map_t.find s.rlc_array_mrb lcid = some e) :
    rlc.get_total_mch_buffer_state E s lcid =
      some ({ s with trace := s.trace ++
          [Event.rdlock, Event.get_buffer_state e, Event.unlock] },
        E.entity_get_buffer_state (s.trace ++ [Event.rdlock]) e) := by
  have hv1 : rlc.valid_lcid_mrb E (s.emit Event.rdlock) lcid = true := hv
  unfold rlc.get_total_mch_buffer_state
  simp only [hv1, if_true]
  simp [rlc.emit, he]

theorem read_pdu_unknown_state (E : Env) (s : rlc) (lcid nof_bytes : Nat)
    (hv : rlc.valid_lcid E s lcid = false) :
    rlc.read_pdu E s lcid nof_bytes =
      some ({ s with trace := s.trace ++ [Event.rdlock, Event.unlock] }, 0) := by
  have hv1 : rlc.valid_lcid E (s.emit Event.rdlock) lcid = false := hv
  unfold rlc.read_pdu
  simp only [hv1]
  simp [rlc.emit]

theorem read_pdu_valid_state (E : Env) (s : rlc) (lcid nof_bytes e : Nat)
    (hv : rlc.valid_lcid E s lcid = true) (he : rlc_map_t.find s.rlc_array lcid = some e) :
    rlc.read_pdu E s lcid nof_bytes =
      some ({ s with trace := s.trace ++
          [Event.rdlock, Event.read_pdu e nof_bytes, Event.unlock] },
        E.entity_read_pdu (s.trace ++ [Event.rdlock]) e nof_bytes) := by
  have hv1 : rlc.valid_lcid E (s.emit Event.rdlock) lcid = true := hv
  unfold rlc.read_pdu
  simp only [hv1, if_true]
  simp [rlc.emit, he]

theorem read_pdu_mch_unknown_state (E : Env) (s : rlc) (lcid nof_bytes : Nat)
    (hv : rlc.valid_lcid_mrb E s lcid = false) :
    rlc.read_pdu_mch E s lcid nof_bytes =
      some ({ s with trace := s.trace ++ [Event.rdlock, Event.unlock] }, 0) := by
  have hv1 : rlc.valid_lcid_mrb E (s.emit Event.rdlock) lcid = false := hv
  unfold rlc.read_pdu_mch
  simp only [hv1]
  simp [rlc.emit]

theorem read_pdu_mch_valid_state (E : Env) (s : rlc) (lcid nof_bytes e : Nat)
    (hv : rlc.valid_lcid_mrb E s lcid = true)
    (he : rlc_map_t.find s.rlc_array_mrb lcid = some e) :
    rlc.read_pdu_mch E s lcid nof_bytes =
      some ({ s with trace := s.trace ++
          [Event.rdlock, Event.read_pdu e nof_bytes, Event.unlock] },
        E.entity_read_pdu (s.trace ++ [Event.rdlock]) e nof_bytes) := by
  have hv1 : rlc.valid_lcid_mrb E (s.emit Event.rdlock) lcid = true := hv
  unfold rlc.read_pdu_mch
  simp only [hv1, if_true]
  simp [rlc.emit, he]

theorem write_pdu_unknown_state (E : Env) (s : rlc) (lcid : Nat) (payload : List Nat)
    (nof_bytes : Nat) (hv : rlc.valid_lcid E s lcid = false) :
    rlc.write_pdu E s lcid payload nof_bytes =
      some { s with trace := s.trace ++ [Event.rdlock, Event.unlock] } := by
  have hv1 : rlc.valid_lcid E (s.emit Event.rdlock) lcid = false := hv
  unfold rlc.write_pdu
  simp only [hv1]
  simp [rlc.emit]

theorem write_pdu_valid_state (E : Env) (s : rlc) (lcid : Nat) (payload : List Nat)
    (nof_bytes e : Nat) (hv : rlc.valid_lcid E s lcid = true)
    (he : rlc_map_t.find s.rlc_array lcid = some e) :
    rlc.write_pdu E s lcid payload nof_bytes =
      some { s with trace := s.trace ++
        [Event.rdlock, Event.write_pdu e payload nof_bytes, Event.unlock] } := by
  have hv1 : rlc.valid_lcid E (s.emit Event.rdlock) lcid = true := hv
  unfold rlc.write_pdu
  simp only [hv1, if_true]
  simp [rlc.emit, he]

theorem write_pdu_mch_unknown_state (E : Env) (s : rlc) (lcid : Nat) (payload : List Nat)
    (nof_bytes : Nat) (hv : rlc.valid_lcid_mrb E s lcid = false) :
    rlc.write_pdu_mch E s lcid payload nof_bytes =
      some { s with trace := s.trace ++ [Event.rdlock, Event.unlock] } := by
  have hv1 : rlc.valid_lcid_mrb E (s.emit Event.rdlock) lcid = false := hv
  unfold rlc.write_pdu_mch
  simp only [hv1]
  simp [rlc.emit]

theorem write_pdu_mch_valid_state (E : Env) (s : rlc) (lcid : Nat) (payload : List Nat)
    (nof_bytes e : Nat) (hv : rlc.valid_lcid_mrb E s lcid = true)
    (he : rlc_map_t.find s.rlc_array_mrb lcid = some e) :
    rlc.write_pdu_mch E s lcid payload nof_bytes =
      some { s with trace := s.trace ++
        [Event.rdlock, Event.write_pdu e payload nof_bytes, Event.unlock] } := by
  have hv1 : rlc.valid_lcid_mrb E (s.emit Event.rdlock) lcid = true := hv
  unfold rlc.write_pdu_mch
  simp only [hv1, if_true]
  simp [rlc.emit, he]

theorem rb_is_um_unknown_state (E : Env) (s : rlc) (lcid : Nat)
    (hv : rlc.valid_lcid E s lcid = false) :
    rlc.rb_is_um E s lcid =
      some ({ s with trace := s.trace ++ [Event.rdlock, Event.unlock] }, false) := by
  have hv1 : rlc.valid_lcid E (s.emit Event.rdlock) lcid = false := hv
  unfold rlc.rb_is_um
  simp only [hv1]
  simp [rlc.emit]

theorem rb_is_um_valid_state (E : Env) (s : rlc) (lcid e : Nat) (o : rlc_common)
    (hv : rlc.valid_lcid E s lcid = true) (he : rlc_map_t.find s.rlc_array lcid = some e)
    (ho : s.heap e = some o) :
    rlc.rb_is_um E s lcid =
      some ({ s with trace := s.trace ++ [Event.rdlock, Event.get_mode e, Event.unlock] },
        decide (o.mode = rlc_mode_t.RLC_MODE_UM)) := by
  have hv1 : rlc.valid_lcid E (s.emit Event.rdlock) lcid = true := hv
  unfold rlc.rb_is_um
  simp only [hv1, if_true]
  simp [rlc.emit, he, ho]

theorem reestablish_lcid_unknown_state (E : Env) (s : rlc) (lcid : Nat)
    (hv : rlc.valid_lcid E s lcid = false) :
    rlc.reestablish_lcid E s lcid =
      some { s with trace := s.trace ++ [Event.rdlock, Event.unlock] } := by
  have hv1 : rlc.valid_lcid E (s.emit Event.rdlock) lcid = false := hv
  unfold rlc.reestablish_lcid
  simp only [hv1]
  simp [rlc.emit]

theorem reestablish_lcid_valid_state (E : Env) (s : rlc) (lcid e : Nat)
    (hv : rlc.valid_lcid E s lcid = true) (he : rlc_map_t.find s.rlc_array lcid = some e) :
    rlc.reestablish_lcid E s lcid =
      some { s with trace := s.trace ++ [Event.rdlock, Event.reestablish e, Event.unlock] } := by
  have hv1 : rlc.valid_lcid E (s.emit Event.rdlock) lcid = true := hv
  unfold rlc.reestablish_lcid
  simp only [hv1, if_true]
  simp [rlc.emit, he]
/-- A failing change_lcid returns the state with the lock and the unlock
added (shared form of the failure case). -/
theorem change_lcid_failure_unchanged_aux (E : Env) (s : rlc) (old_lcid new_lcid : Nat)
    (hfail : rlc_map_t.find s.rlc_array old_lcid = none ∨
      (rlc_map_t.find s.rlc_array new_lcid).isSome = true) :
    rlc.change_lcid E s old_lcid new_lcid =
      some { s with trace := s.trace ++ [Event.wrlock, Event.unlock] } := by
  rcases hfail with h | h
  · simp [rlc.change_lcid, rlc.valid_lcid, rlc.emit, h]
  · cases ho : rlc_map_t.find s.rlc_array old_lcid with
    | none => simp [rlc.change_lcid, rlc.valid_lcid, rlc.emit, ho]
    | some e =>
      by_cases hc : (rlc.valid_lcid E (s.emit Event.wrlock) old_lcid &&
          !rlc.valid_lcid E (s.emit Event.wrlock) new_lcid) = true
      · unfold rlc.change_lcid
        simp only [hc, if_true]
        simp [rlc.emit, ho, insert_present _ _ _ h]
      · unfold rlc.change_lcid
        simp only [hc]
        simp [rlc.emit]


/-! ## What each call does to the tables and the entities -/

theorem called_append (a b : List Event) : called (a ++ b) = called a ++ called b := by
  induction a with
  | nil => rfl
  | cons e a ih => cases e <;> simp [called, ih]

theorem reestablished_append (a b : List Event) :
    reestablished (a ++ b) = reestablished a ++ reestablished b := by
  induction a with
  | nil => rfl
  | cons e a ih => cases e <;> simp [reestablished, ih]

/-- A loop that calls one method, neither a constructor nor delete, on
every entity of a table. -/
theorem map_events (f : Nat → Event) (m : rlc_map_t)
    (h1 : ∀ e evs, called (f e :: evs) = e :: called evs)
    (h2 : ∀ e evs, constructed (f e :: evs) = constructed evs)
    (h3 : ∀ e evs, destroyed (f e :: evs) = destroyed evs) :
    called (m.map (fun p => f p.2)) = m.map Prod.snd ∧
    constructed (m.map (fun p => f p.2)) = [] ∧
    destroyed (m.map (fun p => f p.2)) = [] := by
  induction m with
  | nil => exact ⟨rfl, rfl, rfl⟩
  | cons p m ih =>
    obtain ⟨a, b, c⟩ := ih
    refine ⟨?_, ?_, ?_⟩
    · simp only [List.map_cons, h1, a]
    · simp only [List.map_cons, h2, b]
    · simp only [List.map_cons, h3, c]

theorem called_stop_delete_events (m : rlc_map_t) (e : Nat)
    (h : e ∈ called (stop_delete_events m)) : e ∈ m.map Prod.snd := by
  induction m with
  | nil => simp [stop_delete_events, called] at h
  | cons p m ih =>
    simp only [stop_delete_events, called, List.mem_cons] at h
    simp only [List.map_cons, List.mem_cons]
    rcases h with h | h | h
    · exact Or.inl h
    · exact Or.inl h
    · exact Or.inr (ih h)

theorem stored_of_find (s : rlc) (k e : Nat) (h : rlc_map_t.find s.rlc_array k = some e) :
    e ∈ stored s := by
  have hm := find_some_mem _ _ _ h
  unfold stored
  exact List.mem_map.mpr ⟨(k, e), List.mem_append.mpr (Or.inl hm), rfl⟩

theorem stored_of_find_mrb (s : rlc) (k e : Nat)
    (h : rlc_map_t.find s.rlc_array_mrb k = some e) : e ∈ stored s := by
  have hm := find_some_mem _ _ _ h
  unfold stored
  exact List.mem_map.mpr ⟨(k, e), List.mem_append.mpr (Or.inr hm), rfl⟩

theorem stored_append (s : rlc) :
    stored s = s.rlc_array.map Prod.snd ++ s.rlc_array_mrb.map Prod.snd := by
  simp [stored]

/-- A call that only adds events, all of them method calls on entities
found in a table or calls on other collaborators. -/
theorem quiet_of_events (s : rlc) (evs : List Event)
    (hc : constructed evs = []) (hd : destroyed evs = [])
    (hcall : ∀ e ∈ called evs, e ∈ stored s) :
    StepKind s evs { s with trace := s.trace ++ evs } :=
  StepKind.quiet rfl rfl rfl hc hd hcall

/-- Events and effect of add_bearer. -/
theorem add_bearer_step (E : Env) (s : rlc) (lcid : Nat) (cnfg : srslte_rlc_config_t) :
    (rlc.add_bearer E s lcid cnfg).default_lcid = s.default_lcid ∧
    ∃ evs, (rlc.add_bearer E s lcid cnfg).trace = s.trace ++ evs ∧
      StepKind s evs (rlc.add_bearer E s lcid cnfg) := by
  by_cases hfail : (rlc_map_t.find s.rlc_array lcid).isSome = true ∨
      (∃ raw, cnfg.rlc_mode = rlc_mode_t.invalid raw) ∨
      (cnfg.rlc_mode ≠ rlc_mode_t.RLC_MODE_TM ∧ E.configure cnfg.rlc_mode cnfg = false)
  · by_cases hv : rlc.valid_lcid E (s.emit Event.wrlock) lcid = false
    · cases hm : cnfg.rlc_mode with
      | invalid raw =>
        have h : rlc.add_bearer E s lcid cnfg =
            { s with trace := s.trace ++ [Event.wrlock, Event.unlock] } := by
          unfold rlc.add_bearer
          simp only [hv, if_true, hm]
          simp [rlc.switch_new, rlc.emit]
        rw [h]
        exact ⟨rfl, _, rfl, quiet_of_events s _ rfl rfl (by simp [called])⟩
      | RLC_MODE_TM =>
        have hp : (rlc_map_t.find s.rlc_array lcid).isSome = true := by
          rcases hfail with h | ⟨raw, h⟩ | ⟨h, _⟩
          · exact h
          · simp [hm] at h
          · exact absurd hm h
        have h : rlc.add_bearer E s lcid cnfg =
            { s with
              heap := Function.update s.heap s.next
                (some (rlc_common.mk rlc_mode_t.RLC_MODE_TM (some lcid) none))
              next := s.next + 1
              trace := s.trace ++ [Event.wrlock, Event.new s.next rlc_mode_t.RLC_MODE_TM,
                Event.init s.next lcid, Event.delete s.next, Event.unlock] } := by
          unfold rlc.add_bearer
          simp only [hv, if_true, hm]
          simp [rlc.switch_new, rlc.new_entity, rlc.entity_init, rlc.emit, rlc.entity_delete,
            insert_present _ _ _ hp]
        rw [h]
        exact ⟨rfl, _, rfl, StepKind.discard rfl rfl rfl rfl rfl (by simp [called])⟩
      | RLC_MODE_UM =>
        have h : rlc.add_bearer E s lcid cnfg =
            { s with
              heap := Function.update s.heap s.next
                (some (rlc_common.mk rlc_mode_t.RLC_MODE_UM (some lcid) (some cnfg)))
              next := s.next + 1
              trace := s.trace ++ [Event.wrlock, Event.new s.next rlc_mode_t.RLC_MODE_UM,
                Event.init s.next lcid, Event.configure s.next cnfg, Event.delete s.next,
                Event.unlock] } := by
          cases hc : E.configure rlc_mode_t.RLC_MODE_UM cnfg with
          | false =>
            unfold rlc.add_bearer
            simp only [hv, if_true, hm]
            simp [rlc.switch_new, rlc.new_entity, rlc.entity_init, rlc.emit, rlc.entity_delete,
              rlc.entity_configure, hc]
          | true =>
            have hp : (rlc_map_t.find s.rlc_array lcid).isSome = true := by
              rcases hfail with h | ⟨raw, h⟩ | ⟨_, h⟩
              · exact h
              · simp [hm] at h
              · rw [hm, hc] at h; cases h
            unfold rlc.add_bearer
            simp only [hv, if_true, hm]
            simp [rlc.switch_new, rlc.new_entity, rlc.entity_init, rlc.emit, rlc.entity_delete,
              rlc.entity_configure, hc, insert_present _ _ _ hp]
        rw [h]
        exact ⟨rfl, _, rfl, StepKind.discard rfl rfl rfl rfl rfl (by simp [called])⟩
      | RLC_MODE_AM =>
        have h : rlc.add_bearer E s lcid cnfg =
            { s with
              heap := Function.update s.heap s.next
                (some (rlc_common.mk rlc_mode_t.RLC_MODE_AM (some lcid) (some cnfg)))
              next := s.next + 1
              trace := s.trace ++ [Event.wrlock, Event.new s.next rlc_mode_t.RLC_MODE_AM,
                Event.init s.next lcid, Event.configure s.next cnfg, Event.delete s.next,
                Event.unlock] } := by
          cases hc : E.configure rlc_mode_t.RLC_MODE_AM cnfg with
          | false =>
            unfold rlc.add_bearer
            simp only [hv, if_true, hm]
            simp [rlc.switch_new, rlc.new_entity, rlc.entity_init, rlc.emit, rlc.entity_delete,
              rlc.entity_configure, hc]
          | true =>
            have hp : (rlc_map_t.find s.rlc_array lcid).isSome = true := by
              rcases hfail with h | ⟨raw, h⟩ | ⟨_, h⟩
              · exact h
              · simp [hm] at h
              · rw [hm, hc] at h; cases h
            unfold rlc.add_bearer
            simp only [hv, if_true, hm]
            simp [rlc.switch_new, rlc.new_entity, rlc.entity_init, rlc.emit, rlc.entity_delete,
              rlc.entity_configure, hc, insert_present _ _ _ hp]
        rw [h]
        exact ⟨rfl, _, rfl, StepKind.discard rfl rfl rfl rfl rfl (by simp [called])⟩
    · have h : rlc.add_bearer E s lcid cnfg =
          { s with trace := s.trace ++ [Event.wrlock, Event.unlock] } := by
        unfold rlc.add_bearer
        rw [if_neg hv]
        simp [rlc.emit]
      rw [h]
      exact ⟨rfl, _, rfl, quiet_of_events s _ rfl rfl (by simp [called])⟩
  · have h1 : rlc_map_t.find s.rlc_array lcid = none := by
      cases hf : rlc_map_t.find s.rlc_array lcid with
      | none => rfl
      | some e => exact absurd (Or.inl (by simp [hf])) hfail
    have h2 : cnfg.rlc_mode = rlc_mode_t.RLC_MODE_TM ∨ cnfg.rlc_mode = rlc_mode_t.RLC_MODE_UM ∨
        cnfg.rlc_mode = rlc_mode_t.RLC_MODE_AM := by
      cases hm : cnfg.rlc_mode with
      | invalid raw => exact absurd (Or.inr (Or.inl ⟨raw, hm⟩)) hfail
      | RLC_MODE_TM => simp
      | RLC_MODE_UM => simp
      | RLC_MODE_AM => simp
    have h3 : cnfg.rlc_mode ≠ rlc_mode_t.RLC_MODE_TM → E.configure cnfg.rlc_mode cnfg = true := by
      intro hne
      cases hc : E.configure cnfg.rlc_mode cnfg with
      | true => rfl
      | false => exact absurd (Or.inr (Or.inr ⟨hne, hc⟩)) hfail
    have hv : rlc.valid_lcid E (s.emit Event.wrlock) lcid = false := by
      simp [rlc.valid_lcid, rlc.emit, h1]
    rw [add_bearer_ok_state E s lcid cnfg hv h1 h2 h3]
    refine ⟨rfl, [Event.wrlock, Event.new s.next cnfg.rlc_mode, Event.init s.next lcid] ++
      (if cnfg.rlc_mode = rlc_mode_t.RLC_MODE_TM then [] else [Event.configure s.next cnfg]) ++
      [Event.unlock], by simp only [List.append_assoc], ?_⟩
    refine StepKind.store lcid h1 rfl rfl rfl ?_ ?_ ?_
    · by_cases hm : cnfg.rlc_mode = rlc_mode_t.RLC_MODE_TM <;> simp [hm, constructed]
    · by_cases hm : cnfg.rlc_mode = rlc_mode_t.RLC_MODE_TM <;> simp [hm, destroyed]
    · by_cases hm : cnfg.rlc_mode = rlc_mode_t.RLC_MODE_TM <;> simp [hm, called]

/-- Events and effect of add_bearer_mrb. -/
theorem add_bearer_mrb_step (E : Env) (s : rlc) (lcid : Nat) :
    (rlc.add_bearer_mrb E s lcid).default_lcid = s.default_lcid ∧
    ∃ evs, (rlc.add_bearer_mrb E s lcid).trace = s.trace ++ evs ∧
      StepKind s evs (rlc.add_bearer_mrb E s lcid) := by
  by_cases hv : rlc.valid_lcid_mrb E (s.emit Event.wrlock) lcid = false
  · cases hc : E.configure rlc_mode_t.RLC_MODE_UM E.mch_config with
    | false =>
      have h : rlc.add_bearer_mrb E s lcid =
          { s with
            heap := Function.update s.heap s.next
              (some (rlc_common.mk rlc_mode_t.RLC_MODE_UM (some lcid) (some E.mch_config)))
            next := s.next + 1
            trace := s.trace ++ [Event.wrlock, Event.new s.next rlc_mode_t.RLC_MODE_UM,
              Event.init s.next lcid, Event.configure s.next E.mch_config, Event.delete s.next,
              Event.unlock] } := by
        unfold rlc.add_bearer_mrb
        simp only [hv, if_true]
        simp [rlc.new_entity, rlc.entity_init, rlc.emit, rlc.entity_delete,
          rlc.entity_configure, hc]
      rw [h]
      exact ⟨rfl, _, rfl, StepKind.discard rfl rfl rfl rfl rfl (by simp [called])⟩
    | true =>
      cases hf : rlc_map_t.find s.rlc_array_mrb lcid with
      | none =>
        have h : rlc.add_bearer_mrb E s lcid =
            { s with
              rlc_array_mrb := rlc_map_t.place s.rlc_array_mrb lcid s.next
              heap := Function.update s.heap s.next
                (some (rlc_common.mk rlc_mode_t.RLC_MODE_UM (some lcid) (some E.mch_config)))
              next := s.next + 1
              trace := s.trace ++ [Event.wrlock, Event.new s.next rlc_mode_t.RLC_MODE_UM,
                Event.init s.next lcid, Event.configure s.next E.mch_config,
                Event.unlock] } := by
          unfold rlc.add_bearer_mrb
          simp only [hv, if_true]
          simp [rlc.new_entity, rlc.entity_init, rlc.emit, rlc.entity_delete,
            rlc.entity_configure, hc, insert_absent _ _ _ hf]
        rw [h]
        exact ⟨rfl, _, rfl, StepKind.store_mrb lcid hf rfl rfl rfl rfl rfl (by simp [called])⟩
      | some e0 =>
        have hp : (rlc_map_t.find s.rlc_array_mrb lcid).isSome = true := by simp [hf]
        have h : rlc.add_bearer_mrb E s lcid =
            { s with
              heap := Function.update s.heap s.next
                (some (rlc_common.mk rlc_mode_t.RLC_MODE_UM (some lcid) (some E.mch_config)))
              next := s.next + 1
              trace := s.trace ++ [Event.wrlock, Event.new s.next rlc_mode_t.RLC_MODE_UM,
                Event.init s.next lcid, Event.configure s.next E.mch_config,
                Event.delete s.next, Event.unlock] } := by
          unfold rlc.add_bearer_mrb
          simp only [hv, if_true]
          simp [rlc.new_entity, rlc.entity_init, rlc.emit, rlc.entity_delete,
            rlc.entity_configure, hc, insert_present _ _ _ hp]
        rw [h]
        exact ⟨rfl, _, rfl, StepKind.discard rfl rfl rfl rfl rfl (by simp [called])⟩
  · have h : rlc.add_bearer_mrb E s lcid =
        { s with trace := s.trace ++ [Event.wrlock, Event.unlock] } := by
      unfold rlc.add_bearer_mrb
      rw [if_neg hv]
      simp [rlc.emit]
    rw [h]
    exact ⟨rfl, _, rfl, quiet_of_events s _ rfl rfl (by simp [called])⟩

/-- Events and effect of change_lcid. -/
theorem change_lcid_step (E : Env) (s : rlc) (old_lcid new_lcid : Nat) :
    ∃ s', rlc.change_lcid E s old_lcid new_lcid = some s' ∧
      s'.default_lcid = s.default_lcid ∧
      s'.trace = s.trace ++ [Event.wrlock, Event.unlock] ∧
      StepKind s [Event.wrlock, Event.unlock] s' := by
  have hq : StepKind s [Event.wrlock, Event.unlock]
      { s with trace := s.trace ++ [Event.wrlock, Event.unlock] } :=
    quiet_of_events s _ rfl rfl (by simp [called])
  cases ho : rlc_map_t.find s.rlc_array old_lcid with
  | none =>
    exact ⟨_, change_lcid_failure_unchanged_aux E s old_lcid new_lcid (Or.inl ho), rfl, rfl, hq⟩
  | some e =>
    cases hn : rlc_map_t.find s.rlc_array new_lcid with
    | some e1 =>
      exact ⟨_, change_lcid_failure_unchanged_aux E s old_lcid new_lcid
        (Or.inr (by simp [hn])), rfl, rfl, hq⟩
    | none =>
      by_cases hc : (rlc.valid_lcid E (s.emit Event.wrlock) old_lcid &&
          !rlc.valid_lcid E (s.emit Event.wrlock) new_lcid) = true
      · refine ⟨{ s with
            rlc_array := rlc_map_t.erase (rlc_map_t.place s.rlc_array new_lcid e) old_lcid
            trace := s.trace ++ [Event.wrlock, Event.unlock] }, ?_, rfl, rfl, ?_⟩
        · unfold rlc.change_lcid
          simp only [hc, if_true]
          simp [rlc.emit, ho, insert_absent _ _ _ hn]
        · exact StepKind.rename old_lcid new_lcid e ho hn rfl rfl rfl rfl rfl rfl
      · refine ⟨{ s with trace := s.trace ++ [Event.wrlock, Event.unlock] }, ?_, rfl, rfl, hq⟩
        unfold rlc.change_lcid
        simp only [hc]
        simp [rlc.emit]

/-- A call on one unicast LCID that only invokes the entity found there. -/
theorem quiet_point (s : rlc) (k e : Nat) (evs : List Event)
    (he : rlc_map_t.find s.rlc_array k = some e)
    (hc : constructed evs = []) (hd : destroyed evs = []) (hcall : called evs = [e]) :
    StepKind s evs { s with trace := s.trace ++ evs } := by
  refine quiet_of_events s evs hc hd ?_
  intro x hx
  rw [hcall, List.mem_singleton] at hx
  rw [hx]
  exact stored_of_find s k e he

/-- A call on one multicast LCID that only invokes the entity found
there. -/
theorem quiet_point_mrb (s : rlc) (k e : Nat) (evs : List Event)
    (he : rlc_map_t.find s.rlc_array_mrb k = some e)
    (hc : constructed evs = []) (hd : destroyed evs = []) (hcall : called evs = [e]) :
    StepKind s evs { s with trace := s.trace ++ evs } := by
  refine quiet_of_events s evs hc hd ?_
  intro x hx
  rw [hcall, List.mem_singleton] at hx
  rw [hx]
  exact stored_of_find_mrb s k e he

/-- A call that invokes no entity. -/
theorem quiet_none (s : rlc) (evs : List Event)
    (hc : constructed evs = []) (hd : destroyed evs = []) (hcall : called evs = []) :
    StepKind s evs { s with trace := s.trace ++ evs } := by
  refine quiet_of_events s evs hc hd ?_
  intro x hx
  rw [hcall] at hx
  cases hx

/-- Events and effect of a control-facade call. -/
theorem control_step_kind (E : Env) (s : rlc) (c : ControlOp) (s' : rlc)
    (hop : ControlOp.apply E s c = some s') :
    s'.default_lcid = s.default_lcid ∧ ∃ evs, s'.trace = s.trace ++ evs ∧ StepKind s evs s' := by
  cases c with
  | add_bearer lcid cnfg =>
    simp only [ControlOp.apply, Option.some.injEq] at hop
    subst hop
    exact add_bearer_step E s lcid cnfg
  | add_bearer_mrb lcid =>
    simp only [ControlOp.apply, Option.some.injEq] at hop
    subst hop
    exact add_bearer_mrb_step E s lcid
  | del_bearer lcid =>
    simp only [ControlOp.apply] at hop
    cases hv : rlc.valid_lcid E s lcid with
    | true =>
      obtain ⟨e, he, h⟩ := del_bearer_valid_state E s lcid hv
      rw [h, Option.some.injEq] at hop
      subst hop
      exact ⟨rfl, _, rfl, StepKind.remove lcid e he rfl rfl rfl rfl rfl (by simp [called])⟩
    | false =>
      rw [del_bearer_unknown_state E s lcid hv, Option.some.injEq] at hop
      subst hop
      exact ⟨rfl, _, rfl, quiet_none s _ rfl rfl rfl⟩
  | del_bearer_mrb lcid =>
    simp only [ControlOp.apply] at hop
    cases hv : rlc.valid_lcid_mrb E s lcid with
    | true =>
      obtain ⟨e, he, h⟩ := del_bearer_mrb_valid_state E s lcid hv
      rw [h, Option.some.injEq] at hop
      subst hop
      exact ⟨rfl, _, rfl, StepKind.remove_mrb lcid e he rfl rfl rfl rfl rfl (by simp [called])⟩
    | false =>
      rw [del_bearer_mrb_unknown_state E s lcid hv, Option.some.injEq] at hop
      subst hop
      exact ⟨rfl, _, rfl, quiet_none s _ rfl rfl rfl⟩
  | change_lcid o n =>
    simp only [ControlOp.apply] at hop
    obtain ⟨s1, h1, h2, h3, h4⟩ := change_lcid_step E s o n
    rw [h1, Option.some.injEq] at hop
    subst hop
    exact ⟨h2, _, h3, h4⟩
  | reset =>
    simp only [ControlOp.apply, Option.some.injEq] at hop
    subst hop
    rw [reset_state]
    refine ⟨rfl, [Event.wrlock] ++ stop_delete_events s.rlc_array ++
      stop_delete_events s.rlc_array_mrb ++
      [Event.unlock, Event.wrlock, Event.new s.next rlc_mode_t.RLC_MODE_TM,
       Event.init s.next s.default_lcid, Event.unlock], by simp only [List.append_assoc], ?_⟩
    refine StepKind.clear rfl rfl rfl ?_ ?_ ?_
    · simp [constructed_append, constructed_stop_delete_events, constructed]
    · simp [destroyed_append, destroyed_stop_delete_events, destroyed, stored]
    · intro x hx
      simp only [called_append, List.mem_append] at hx
      rcases hx with ((hx | hx) | hx) | hx
      · simp [called] at hx
      · left
        rw [stored_append]
        exact List.mem_append.mpr (Or.inl (called_stop_delete_events _ _ hx))
      · left
        rw [stored_append]
        exact List.mem_append.mpr (Or.inr (called_stop_delete_events _ _ hx))
      · right
        simpa [called] using hx

/-- Events and effect of the three pass-through functions. -/
theorem pass_through_step (E : Env) (s : rlc) (deliver : byte_buffer_t → Event)
    (payload : List Nat) (nof_bytes : Nat) (s' : rlc)
    (hdel : ∀ b, constructed [deliver b] = [] ∧ destroyed [deliver b] = [] ∧
      called [deliver b] = [])
    (hop : rlc.pass_through E s deliver payload nof_bytes = some s') :
    s'.default_lcid = s.default_lcid ∧ ∃ evs, s'.trace = s.trace ++ evs ∧ StepKind s evs s' := by
  unfold rlc.pass_through at hop
  cases ha : E.pool_allocate s.trace with
  | none =>
    simp only [ha, Option.some.injEq] at hop
    subst hop
    exact ⟨rfl, [Event.pool_allocate none], rfl, quiet_none s _ rfl rfl rfl⟩
  | some buf =>
    simp only [ha] at hop
    cases hf : rlc.fill_buffer E buf payload nof_bytes with
    | none => simp [hf] at hop
    | some b1 =>
      simp only [hf, Option.some.injEq] at hop
      subst hop
      obtain ⟨h1, h2, h3⟩ := hdel b1
      refine ⟨rfl, [Event.pool_allocate (some buf), deliver b1], by simp [rlc.emit], ?_⟩
      have hq := quiet_none s [Event.pool_allocate (some buf), deliver b1]
        (by simpa [constructed] using h1) (by simpa [destroyed] using h2)
        (by simpa [called] using h3)
      simpa [rlc.emit] using hq

/-- Events and effect of every call: the default LCID is kept, the trace
grows, and the call is of one of the kinds of StepKind. -/
theorem apply_step_kind (E : Env) (s : rlc) (op : ManagerOp) (s' : rlc)
    (hop : ManagerOp.apply E s op = some s') :
    s'.default_lcid = s.default_lcid ∧ ∃ evs, s'.trace = s.trace ++ evs ∧ StepKind s evs s' := by
  cases op with
  | control c => exact control_step_kind E s c s' hop
  | write_sdu lcid sdu blocking =>
    simp only [ManagerOp.apply] at hop
    by_cases hsize : sdu.N_bytes > E.RLC_MAX_SDU_SIZE
    · rw [write_sdu_oversize_state E s lcid sdu blocking hsize, Option.some.injEq] at hop
      subst hop
      exact ⟨rfl, _, rfl, quiet_none s _ rfl rfl rfl⟩
    · have hle : sdu.N_bytes ≤ E.RLC_MAX_SDU_SIZE := Nat.not_lt.mp hsize
      cases hv : rlc.valid_lcid E s lcid with
      | true =>
        obtain ⟨e, he, hw⟩ := write_sdu_valid_state E s lcid sdu blocking hle hv
        rw [hw, Option.some.injEq] at hop
        subst hop
        exact ⟨rfl, _, rfl, quiet_point s lcid e _ he rfl rfl rfl⟩
      | false =>
        rw [write_sdu_unknown_state E s lcid sdu blocking hle hv, Option.some.injEq] at hop
        subst hop
        exact ⟨rfl, _, rfl, quiet_none s _ rfl rfl rfl⟩
  | write_sdu_mch lcid sdu =>
    simp only [ManagerOp.apply] at hop
    cases hv : rlc.valid_lcid_mrb E s lcid with
    | true =>
      obtain ⟨e, he, hw⟩ := write_sdu_mch_valid_state E s lcid sdu hv
      rw [hw, Option.some.injEq] at hop
      subst hop
      exact ⟨rfl, _, rfl, quiet_point_mrb s lcid e _ he rfl rfl rfl⟩
    | false =>
      rw [write_sdu_mch_unknown_state E s lcid sdu hv, Option.some.injEq] at hop
      subst hop
      exact ⟨rfl, _, rfl, quiet_none s _ rfl rfl rfl⟩
  | has_bearer lcid =>
    simp only [ManagerOp.apply, Option.some.injEq] at hop
    subst hop
    exact ⟨rfl, [Event.rdlock, Event.unlock], by simp [rlc.has_bearer, rlc.emit],
      by simpa [rlc.has_bearer, rlc.emit] using
        quiet_none s [Event.rdlock, Event.unlock] rfl rfl rfl⟩
  | add_bearer_lcid lcid =>
    simp only [ManagerOp.apply, Option.some.injEq] at hop
    subst hop
    unfold rlc.add_bearer_lcid
    by_cases h2 : lcid > 2
    · rw [if_pos h2]
      exact ⟨rfl, [], by simp, by simpa using quiet_none s [] rfl rfl rfl⟩
    · rw [if_neg h2]
      by_cases h0 : lcid = 0
      · rw [if_pos h0]
        exact add_bearer_step E s lcid _
      · rw [if_neg h0]
        exact add_bearer_step E s lcid _
  | stop =>
    simp only [ManagerOp.apply, Option.some.injEq] at hop
    subst hop
    rw [stop_state]
    obtain ⟨a1, a2, a3⟩ := map_events Event.stop s.rlc_array (fun _ _ => rfl) (fun _ _ => rfl)
      (fun _ _ => rfl)
    obtain ⟨b1, b2, b3⟩ := map_events Event.stop s.rlc_array_mrb (fun _ _ => rfl)
      (fun _ _ => rfl) (fun _ _ => rfl)
    refine ⟨rfl, [Event.rdlock] ++ s.rlc_array.map (fun p => Event.stop p.2) ++
      s.rlc_array_mrb.map (fun p => Event.stop p.2) ++ [Event.unlock],
      by simp only [List.append_assoc], StepKind.quiet rfl rfl rfl ?_ ?_ ?_⟩
    · simp [constructed_append, a2, b2, constructed]
    · simp [destroyed_append, a3, b3, destroyed]
    · intro x hx
      simp only [called_append, a1, b1, List.mem_append] at hx
      rw [stored_append]
      rcases hx with ((hx | hx) | hx) | hx
      · simp [called] at hx
      · exact List.mem_append.mpr (Or.inl hx)
      · exact List.mem_append.mpr (Or.inr hx)
      · simp [called] at hx
  | get_metrics now =>
    simp only [ManagerOp.apply, Option.some.injEq] at hop
    subst hop
    rw [get_metrics_state]
    obtain ⟨a1, a2, a3⟩ := map_events Event.reset_metrics s.rlc_array (fun _ _ => rfl)
      (fun _ _ => rfl) (fun _ _ => rfl)
    obtain ⟨b1, b2, b3⟩ := map_events Event.reset_metrics s.rlc_array_mrb (fun _ _ => rfl)
      (fun _ _ => rfl) (fun _ _ => rfl)
    refine ⟨rfl, [Event.rdlock] ++ s.rlc_array.map (fun p => Event.reset_metrics p.2) ++
      s.rlc_array_mrb.map (fun p => Event.reset_metrics p.2) ++ [Event.unlock],
      by simp only [List.append_assoc], StepKind.quiet rfl rfl rfl ?_ ?_ ?_⟩
    · simp [constructed_append, a2, b2, constructed]
    · simp [destroyed_append, a3, b3, destroyed]
    · intro x hx
      simp only [called_append, a1, b1, List.mem_append] at hx
      rw [stored_append]
      rcases hx with ((hx | hx) | hx) | hx
      · simp [called] at hx
      · exact List.mem_append.mpr (Or.inl hx)
      · exact List.mem_append.mpr (Or.inr hx)
      · simp [called] at hx
  | reestablish =>
    simp only [ManagerOp.apply, Option.some.injEq] at hop
    subst hop
    rw [reestablish_state]
    obtain ⟨a1, a2, a3⟩ := map_events Event.reestablish s.rlc_array (fun _ _ => rfl)
      (fun _ _ => rfl) (fun _ _ => rfl)
    obtain ⟨b1, b2, b3⟩ := map_events Event.reestablish s.rlc_array_mrb (fun _ _ => rfl)
      (fun _ _ => rfl) (fun _ _ => rfl)
    refine ⟨rfl, [Event.rdlock] ++ s.rlc_array.map (fun p => Event.reestablish p.2) ++
      s.rlc_array_mrb.map (fun p => Event.reestablish p.2) ++ [Event.unlock],
      by simp only [List.append_assoc], StepKind.quiet rfl rfl rfl ?_ ?_ ?_⟩
    · simp [constructed_append, a2, b2, constructed]
    · simp [destroyed_append, a3, b3, destroyed]
    · intro x hx
      simp only [called_append, a1, b1, List.mem_append] at hx
      rw [stored_append]
      rcases hx with ((hx | hx) | hx) | hx
      · simp [called] at hx
      · exact List.mem_append.mpr (Or.inl hx)
      · exact List.mem_append.mpr (Or.inr hx)
      · simp [called] at hx
  | reestablish_lcid lcid =>
    simp only [ManagerOp.apply] at hop
    cases hv : rlc.valid_lcid E s lcid with
    | true =>
      obtain ⟨_, e, he⟩ := valid_lcid_find E s lcid hv
      rw [reestablish_lcid_valid_state E s lcid e hv he, Option.some.injEq] at hop
      subst hop
      exact ⟨rfl, _, rfl, quiet_point s lcid e _ he rfl rfl rfl⟩
    | false =>
      rw [reestablish_lcid_unknown_state E s lcid hv, Option.some.injEq] at hop
      subst hop
      exact ⟨rfl, _, rfl, quiet_none s _ rfl rfl rfl⟩
  | empty_queue =>
    simp only [ManagerOp.apply, Option.some.injEq] at hop
    subst hop
    rw [empty_queue_state]
    obtain ⟨a1, a2, a3⟩ := map_events Event.empty_queue s.rlc_array (fun _ _ => rfl)
      (fun _ _ => rfl) (fun _ _ => rfl)
    refine ⟨rfl, [Event.rdlock] ++ s.rlc_array.map (fun p => Event.empty_queue p.2) ++
      [Event.unlock], by simp only [List.append_assoc], StepKind.quiet rfl rfl rfl ?_ ?_ ?_⟩
    · simp [constructed_append, a2, constructed]
    · simp [destroyed_append, a3, destroyed]
    · intro x hx
      simp only [called_append, a1, List.mem_append] at hx
      rw [stored_append]
      rcases hx with (hx | hx) | hx
      · simp [called] at hx
      · exact List.mem_append.mpr (Or.inl hx)
      · simp [called] at hx
  | rb_is_um lcid =>
    simp only [ManagerOp.apply] at hop
    cases hv : rlc.valid_lcid E s lcid with
    | true =>
      obtain ⟨_, e, he⟩ := valid_lcid_find E s lcid hv
      cases ho : s.heap e with
      | none =>
        have hv1 : rlc.valid_lcid E (s.emit Event.rdlock) lcid = true := hv
        unfold rlc.rb_is_um at hop
        simp only [hv1, if_true] at hop
        simp [rlc.emit, he, ho] at hop
      | some o =>
        rw [rb_is_um_valid_state E s lcid e o hv he ho] at hop
        simp only [Option.map_some', Option.some.injEq] at hop
        subst hop
        exact ⟨rfl, _, rfl, quiet_point s lcid e _ he rfl rfl rfl⟩
    | false =>
      rw [rb_is_um_unknown_state E s lcid hv] at hop
      simp only [Option.map_some', Option.some.injEq] at hop
      subst hop
      exact ⟨rfl, _, rfl, quiet_none s _ rfl rfl rfl⟩
  | has_data lcid =>
    simp only [ManagerOp.apply] at hop
    cases hv : rlc.valid_lcid E s lcid with
    | true =>
      obtain ⟨_, e, he⟩ := valid_lcid_find E s lcid hv
      rw [has_data_valid_state E s lcid e hv he] at hop
      simp only [Option.map_some', Option.some.injEq] at hop
      subst hop
      exact ⟨rfl, _, rfl, quiet_point s lcid e _ he rfl rfl rfl⟩
    | false =>
      rw [has_data_unknown_state E s lcid hv] at hop
      simp only [Option.map_some', Option.some.injEq] at hop
      subst hop
      exact ⟨rfl, _, rfl, quiet_none s _ rfl rfl rfl⟩
  | get_buffer_state lcid =>
    simp only [ManagerOp.apply] at hop
    cases hv : rlc.valid_lcid E s lcid with
    | true =>
      obtain ⟨_, e, he⟩ := valid_lcid_find E s lcid hv
      rw [get_buffer_state_valid_state E s lcid e hv he] at hop
      simp only [Option.map_some', Option.some.injEq] at hop
      subst hop
      exact ⟨rfl, _, rfl, quiet_point s lcid e _ he rfl rfl rfl⟩
    | false =>
      rw [get_buffer_state_unknown_state E s lcid hv] at hop
      simp only [Option.map_some', Option.some.injEq] at hop
      subst hop
      exact ⟨rfl, _, rfl, quiet_none s _ rfl rfl rfl⟩
  | get_total_mch_buffer_state lcid =>
    simp only [ManagerOp.apply] at hop
    cases hv : rlc.valid_lcid_mrb E s lcid with
    | true =>
      obtain ⟨_, e, he⟩ := valid_lcid_mrb_find E s lcid hv
      rw [get_total_mch_buffer_state_valid_state E s lcid e hv he] at hop
      simp only [Option.map_some', Option.some.injEq] at hop
      subst hop
      exact ⟨rfl, _, rfl, quiet_point_mrb s lcid e _ he rfl rfl rfl⟩
    | false =>
      rw [get_total_mch_buffer_state_unknown_state E s lcid hv] at hop
      simp only [Option.map_some', Option.some.injEq] at hop
      subst hop
      exact ⟨rfl, _, rfl, quiet_none s _ rfl rfl rfl⟩
  | read_pdu lcid n =>
    simp only [ManagerOp.apply] at hop
    cases hv : rlc.valid_lcid E s lcid with
    | true =>
      obtain ⟨_, e, he⟩ := valid_lcid_find E s lcid hv
      rw [read_pdu_valid_state E s lcid n e hv he] at hop
      simp only [Option.map_some', Option.some.injEq] at hop
      subst hop
      exact ⟨rfl, _, rfl, quiet_point s lcid e _ he rfl rfl rfl⟩
    | false =>
      rw [read_pdu_unknown_state E s lcid n hv] at hop
      simp only [Option.map_some', Option.some.injEq] at hop
      subst hop
      exact ⟨rfl, _, rfl, quiet_none s _ rfl rfl rfl⟩
  | read_pdu_mch lcid n =>
    simp only [ManagerOp.apply] at hop
    cases hv : rlc.valid_lcid_mrb E s lcid with
    | true =>
      obtain ⟨_, e, he⟩ := valid_lcid_mrb_find E s lcid hv
      rw [read_pdu_mch_valid_state E s lcid n e hv he] at hop
      simp only [Option.map_some', Option.some.injEq] at hop
      subst hop
      exact ⟨rfl, _, rfl, quiet_point_mrb s lcid e _ he rfl rfl rfl⟩
    | false =>
      rw [read_pdu_mch_unknown_state E s lcid n hv] at hop
      simp only [Option.map_some', Option.some.injEq] at hop
      subst hop
      exact ⟨rfl, _, rfl, quiet_none s _ rfl rfl rfl⟩
  | write_pdu lcid payload n =>
    simp only [ManagerOp.apply] at hop
    cases hv : rlc.valid_lcid E s lcid with
    | true =>
      obtain ⟨_, e, he⟩ := valid_lcid_find E s lcid hv
      rw [write_pdu_valid_state E s lcid payload n e hv he, Option.some.injEq] at hop
      subst hop
      exact ⟨rfl, _, rfl, quiet_point s lcid e _ he rfl rfl rfl⟩
    | false =>
      rw [write_pdu_unknown_state E s lcid payload n hv, Option.some.injEq] at hop
      subst hop
      exact ⟨rfl, _, rfl, quiet_none s _ rfl rfl rfl⟩
  | write_pdu_mch lcid payload n =>
    simp only [ManagerOp.apply] at hop
    cases hv : rlc.valid_lcid_mrb E s lcid with
    | true =>
      obtain ⟨_, e, he⟩ := valid_lcid_mrb_find E s lcid hv
      rw [write_pdu_mch_valid_state E s lcid payload n e hv he, Option.some.injEq] at hop
      subst hop
      exact ⟨rfl, _, rfl, quiet_point_mrb s lcid e _ he rfl rfl rfl⟩
    | false =>
      rw [write_pdu_mch_unknown_state E s lcid payload n hv, Option.some.injEq] at hop
      subst hop
      exact ⟨rfl, _, rfl, quiet_none s _ rfl rfl rfl⟩
  | write_pdu_bcch_bch payload n =>
    exact pass_through_step E s Event.pdcp_write_pdu_bcch_bch payload n s'
      (fun _ => ⟨rfl, rfl, rfl⟩) hop
  | write_pdu_bcch_dlsch payload n =>
    exact pass_through_step E s Event.pdcp_write_pdu_bcch_dlsch payload n s'
      (fun _ => ⟨rfl, rfl, rfl⟩) hop
  | write_pdu_pcch payload n =>
    exact pass_through_step E s Event.pdcp_write_pdu_pcch payload n s'
      (fun _ => ⟨rfl, rfl, rfl⟩) hop

/-! ## Ownership of the entities -/

theorem place_perm (m : rlc_map_t) (k v : Nat) :
    List.Perm (rlc_map_t.place m k v) ((k, v) :: m) := by
  induction m with
  | nil => exact List.Perm.refl _
  | cons p m ih =>
    obtain ⟨k1, v1⟩ := p
    by_cases hlt : k < k1
    · simp [rlc_map_t.place, hlt]
    · simp only [rlc_map_t.place, hlt, if_false]
      exact (List.Perm.cons _ ih).trans (List.Perm.swap _ _ _)

theorem find_none_not_mem (m : rlc_map_t) (k : Nat) (h : rlc_map_t.find m k = none) :
    k ∉ m.map Prod.fst := by
  induction m with
  | nil => simp
  | cons p m ih =>
    obtain ⟨k1, v1⟩ := p
    by_cases hk : k1 = k
    · simp [rlc_map_t.find, hk] at h
    · simp only [rlc_map_t.find, hk, if_false] at h
      simp only [List.map_cons, List.mem_cons, not_or]
      exact ⟨fun h1 => hk h1.symm, ih h⟩

theorem erase_of_not_mem (m : rlc_map_t) (k : Nat) (h : k ∉ m.map Prod.fst) :
    rlc_map_t.erase m k = m := by
  induction m with
  | nil => rfl
  | cons p m ih =>
    obtain ⟨k1, v1⟩ := p
    simp only [List.map_cons, List.mem_cons, not_or] at h
    have hk : ¬ k1 = k := fun h1 => h.1 h1.symm
    simp [rlc_map_t.erase, hk, ih h.2]

theorem erase_sublist (m : rlc_map_t) (k : Nat) : List.Sublist (rlc_map_t.erase m k) m := by
  induction m with
  | nil => exact List.Sublist.refl _
  | cons p m ih =>
    obtain ⟨k1, v1⟩ := p
    by_cases hk : k1 = k
    · simp only [rlc_map_t.erase, hk, if_true]
      exact List.Sublist.cons _ ih
    · simp only [rlc_map_t.erase, hk, if_false]
      exact List.Sublist.cons₂ _ ih

theorem erase_perm (m : rlc_map_t) (k e : Nat) (hu : keys_unique m)
    (h : rlc_map_t.find m k = some e) :
    List.Perm m ((k, e) :: rlc_map_t.erase m k) := by
  induction m with
  | nil => simp [rlc_map_t.find] at h
  | cons p m ih =>
    obtain ⟨k1, v1⟩ := p
    unfold keys_unique at hu
    simp only [List.map_cons, List.nodup_cons] at hu
    by_cases hk : k1 = k
    · simp only [rlc_map_t.find, hk, if_true, Option.some.injEq] at h
      have hnot : k ∉ m.map Prod.fst := hk ▸ hu.1
      simp [rlc_map_t.erase, hk, erase_of_not_mem m k hnot, h]
    · simp only [rlc_map_t.find, hk, if_false] at h
      simp only [rlc_map_t.erase, hk, if_false]
      exact (List.Perm.cons _ (ih hu.2 h)).trans (List.Perm.swap _ _ _)

theorem keys_unique_place (m : rlc_map_t) (k v : Nat) (hu : keys_unique m)
    (h : rlc_map_t.find m k = none) : keys_unique (rlc_map_t.place m k v) := by
  unfold keys_unique at *
  have hp : List.Perm ((rlc_map_t.place m k v).map Prod.fst) (k :: m.map Prod.fst) :=
    (place_perm m k v).map Prod.fst
  exact hp.nodup_iff.mpr (List.nodup_cons.mpr ⟨find_none_not_mem m k h, hu⟩)

theorem keys_unique_erase (m : rlc_map_t) (k : Nat) (hu : keys_unique m) :
    keys_unique (rlc_map_t.erase m k) := by
  unfold keys_unique at *
  exact List.Nodup.sublist ((erase_sublist m k).map Prod.fst) hu

/-- Values of a table after placing a new pair. -/
theorem count_place (m : rlc_map_t) (k v x : Nat) :
    List.count x ((rlc_map_t.place m k v).map Prod.snd) =
      List.count x [v] + List.count x (m.map Prod.snd) := by
  have hp : List.Perm ((rlc_map_t.place m k v).map Prod.snd) (v :: m.map Prod.snd) :=
    (place_perm m k v).map Prod.snd
  rw [hp.count_eq x]
  simp [List.count_cons, Nat.add_comm]

/-- Values of a table before erasing a key that is present. -/
theorem count_erase (m : rlc_map_t) (k e x : Nat) (hu : keys_unique m)
    (h : rlc_map_t.find m k = some e) :
    List.count x (m.map Prod.snd) =
      List.count x [e] + List.count x ((rlc_map_t.erase m k).map Prod.snd) := by
  have hp : List.Perm (m.map Prod.snd) (e :: (rlc_map_t.erase m k).map Prod.snd) :=
    (erase_perm m k e hu h).map Prod.snd
  rw [hp.count_eq x]
  simp [List.count_cons, Nat.add_comm]

theorem count_stored (s : rlc) (x : Nat) :
    List.count x (stored s) =
      List.count x (s.rlc_array.map Prod.snd) + List.count x (s.rlc_array_mrb.map Prod.snd) := by
  rw [stored_append, List.count_append]

/-- The ownership invariant is kept by a call of any kind. -/
theorem ownership_step (s s' : rlc) (evs : List Event) (ho : ownership s)
    (htr : s'.trace = s.trace ++ evs) (hk : StepKind s evs s') : ownership s' := by
  obtain ⟨hu1, hu2, hnd, hlt, hperm⟩ := ho
  have hcnt : ∀ x, List.count x (s.rlc_array.map Prod.snd) +
      List.count x (s.rlc_array_mrb.map Prod.snd) + List.count x (destroyed s.trace) =
      List.count x (constructed s.trace) := by
    intro x
    have := hperm.count_eq x
    rw [List.count_append, count_stored] at this
    exact this
  have hfresh : s.next ∉ constructed s.trace := fun h => Nat.lt_irrefl _ (hlt _ h)
  have hnd1 : (constructed s.trace ++ [s.next]).Nodup := by
    rw [List.nodup_append]
    refine ⟨hnd, List.nodup_singleton _, ?_⟩
    intro a ha hb
    rw [List.mem_singleton] at hb
    exact hfresh (hb ▸ ha)
  have hlt1 : ∀ e ∈ constructed s.trace ++ [s.next], e < s.next + 1 := by
    intro e he
    rcases List.mem_append.mp he with h | h
    · exact Nat.lt_succ_of_lt (hlt e h)
    · rw [List.mem_singleton] at h
      rw [h]; exact Nat.lt_succ_self _
  unfold ownership
  rw [htr, constructed_append, destroyed_append]
  cases hk with
  | quiet harr hmrb hnext hc hd _ =>
    rw [harr, hmrb, hnext, hc, hd, List.append_nil, List.append_nil]
    refine ⟨hu1, hu2, hnd, hlt, ?_⟩
    have hs : stored s' = stored s := by simp [stored, harr, hmrb]
    rw [hs]; exact hperm
  | discard harr hmrb hnext hc hd _ =>
    rw [harr, hmrb, hnext, hc, hd]
    refine ⟨hu1, hu2, hnd1, hlt1, ?_⟩
    rw [List.perm_iff_count]
    intro x
    have h1 := hcnt x
    have hs : stored s' = stored s := by simp [stored, harr, hmrb]
    rw [hs]
    simp only [List.count_append, count_stored]
    omega
  | store k hfree harr hmrb hnext hc hd _ =>
    rw [harr, hmrb, hnext, hc, hd, List.append_nil]
    refine ⟨keys_unique_place _ _ _ hu1 hfree, hu2, hnd1, hlt1, ?_⟩
    rw [List.perm_iff_count]
    intro x
    have h1 := hcnt x
    have h2 := count_place s.rlc_array k s.next x
    simp only [List.count_append, count_stored, harr, hmrb]
    omega
  | store_mrb k hfree harr hmrb hnext hc hd _ =>
    rw [harr, hmrb, hnext, hc, hd, List.append_nil]
    refine ⟨hu1, keys_unique_place _ _ _ hu2 hfree, hnd1, hlt1, ?_⟩
    rw [List.perm_iff_count]
    intro x
    have h1 := hcnt x
    have h2 := count_place s.rlc_array_mrb k s.next x
    simp only [List.count_append, count_stored, harr, hmrb]
    omega
  | remove k e hfind harr hmrb hnext hc hd _ =>
    rw [harr, hmrb, hnext, hc, hd, List.append_nil]
    refine ⟨keys_unique_erase _ _ hu1, hu2, hnd, hlt, ?_⟩
    rw [List.perm_iff_count]
    intro x
    have h1 := hcnt x
    have h2 := count_erase s.rlc_array k e x hu1 hfind
    simp only [List.count_append, count_stored, harr, hmrb]
    omega
  | remove_mrb k e hfind harr hmrb hnext hc hd _ =>
    rw [harr, hmrb, hnext, hc, hd, List.append_nil]
    refine ⟨hu1, keys_unique_erase _ _ hu2, hnd, hlt, ?_⟩
    rw [List.perm_iff_count]
    intro x
    have h1 := hcnt x
    have h2 := count_erase s.rlc_array_mrb k e x hu2 hfind
    simp only [List.count_append, count_stored, harr, hmrb]
    omega
  | rename o n e hfind hfree harr hmrb hnext hc hd _ =>
    rw [harr, hmrb, hnext, hc, hd, List.append_nil, List.append_nil]
    have hne : o ≠ n := by
      intro h; rw [h, hfree] at hfind; cases hfind
    have hu3 := keys_unique_place s.rlc_array n e hu1 hfree
    have hf3 : rlc_map_t.find (rlc_map_t.place s.rlc_array n e) o = some e := by
      rw [find_place_other _ _ _ _ hne]; exact hfind
    refine ⟨keys_unique_erase _ _ hu3, hu2, hnd, hlt, ?_⟩
    rw [List.perm_iff_count]
    intro x
    have h1 := hcnt x
    have h2 := count_place s.rlc_array n e x
    have h3 := count_erase (rlc_map_t.place s.rlc_array n e) o e x hu3 hf3
    simp only [List.count_append, count_stored, harr, hmrb]
    omega
  | clear harr hmrb hnext hc hd _ =>
    rw [harr, hmrb, hnext, hc, hd]
    refine ⟨by simp [keys_unique], by simp [keys_unique], hnd1, hlt1, ?_⟩
    rw [List.perm_iff_count]
    intro x
    have h1 := hcnt x
    have hs : stored s' = [s.next] := by simp [stored, harr, hmrb]
    rw [hs]
    simp only [List.count_append, count_stored]
    omega

/-! ## Invariants of the reachable states -/

/-- In every reachable state the default LCID is the one given to init and
every stored pointer lies below the allocator's next address. -/
theorem reachable_invariant (E : Env) (lcid_ : Nat) (s : rlc) (hr : Reachable E lcid_ s) :
    s.default_lcid = lcid_ ∧ ptr_bounded s := by
  refine reachable_induction E lcid_ (fun s => s.default_lcid = lcid_ ∧ ptr_bounded s) ?_ ?_ s hr
  · intro now
    rw [init_state]
    refine ⟨rfl, ?_⟩
    intro p hp
    simp only [rlc.ctor, List.append_nil, List.mem_singleton] at hp
    rw [hp]
    exact Nat.lt_succ_self _
  · intro a op b ha hop
    obtain ⟨hd, evs, _, hk⟩ := apply_step_kind E a op b hop
    obtain ⟨ha1, ha2⟩ := ha
    have hb1 : ∀ p, p ∈ a.rlc_array → p.2 < a.next :=
      fun p hp => ha2 p (List.mem_append.mpr (Or.inl hp))
    have hb2 : ∀ p, p ∈ a.rlc_array_mrb → p.2 < a.next :=
      fun p hp => ha2 p (List.mem_append.mpr (Or.inr hp))
    refine ⟨hd.trans ha1, ?_⟩
    intro p hp
    cases hk with
    | quiet harr hmrb hnext _ _ _ =>
      rw [harr, hmrb] at hp; rw [hnext]; exact ha2 p hp
    | discard harr hmrb hnext _ _ _ =>
      rw [harr, hmrb] at hp; rw [hnext]; exact Nat.lt_succ_of_lt (ha2 p hp)
    | store k _ harr hmrb hnext _ _ _ =>
      rw [harr, hmrb] at hp; rw [hnext]
      rcases List.mem_append.mp hp with hp | hp
      · rcases mem_place _ _ _ _ hp with h1 | h1
        · rw [h1]; exact Nat.lt_succ_self _
        · exact Nat.lt_succ_of_lt (hb1 p h1)
      · exact Nat.lt_succ_of_lt (hb2 p hp)
    | store_mrb k _ harr hmrb hnext _ _ _ =>
      rw [harr, hmrb] at hp; rw [hnext]
      rcases List.mem_append.mp hp with hp | hp
      · exact Nat.lt_succ_of_lt (hb1 p hp)
      · rcases mem_place _ _ _ _ hp with h1 | h1
        · rw [h1]; exact Nat.lt_succ_self _
        · exact Nat.lt_succ_of_lt (hb2 p h1)
    | remove k e _ harr hmrb hnext _ _ _ =>
      rw [harr, hmrb] at hp; rw [hnext]
      rcases List.mem_append.mp hp with hp | hp
      · exact hb1 p (mem_erase _ _ _ hp)
      · exact hb2 p hp
    | remove_mrb k e _ harr hmrb hnext _ _ _ =>
      rw [harr, hmrb] at hp; rw [hnext]
      rcases List.mem_append.mp hp with hp | hp
      · exact hb1 p hp
      · exact hb2 p (mem_erase _ _ _ hp)
    | rename o n e hfind _ harr hmrb hnext _ _ _ =>
      rw [harr, hmrb] at hp; rw [hnext]
      rcases List.mem_append.mp hp with hp | hp
      · rcases mem_place _ _ _ _ (mem_erase _ _ _ hp) with h1 | h1
        · rw [h1]; exact hb1 (o, e) (find_some_mem _ _ _ hfind)
        · exact hb1 p h1
      · exact hb2 p hp
    | clear harr hmrb hnext _ _ _ =>
      rw [harr, hmrb] at hp; rw [hnext]
      simp only [List.append_nil, List.mem_singleton] at hp
      rw [hp]; exact Nat.lt_succ_self _

/-- The ownership invariant holds in every reachable state. -/
theorem reachable_ownership (E : Env) (lcid_ : Nat) (s : rlc) (hr : Reachable E lcid_ s) :
    ownership s := by
  refine reachable_induction E lcid_ ownership ?_ ?_ s hr
  · intro now
    rw [init_state]
    refine ⟨?_, ?_, ?_, ?_, ?_⟩
    · simp [keys_unique]
    · simp [keys_unique, rlc.ctor]
    · simp [constructed]
    · simp [constructed]
    · simp [stored, rlc.ctor, destroyed, constructed]
  · intro a op b ha hop
    obtain ⟨_, evs, htr, hk⟩ := apply_step_kind E a op b hop
    exact ownership_step a b evs ha htr hk

/-- C6: in every state reachable after init, reset leaves the unicast
table with exactly one entry, at the default LCID given to init (LCID 0
when init was given 0), pointing to an entity constructed by this call, of
class Transparent Mode, initialised with that LCID and not configured; the
multicast table is empty; every entity that was in either table has been
stopped and then deleted, in table order; the new entity is none of the old
ones; and the two tables, seen through the heap, equal those right after
init. -/
theorem reset_returns_to_init (E : Env) (lcid_ : Nat) (s : rlc) (hr : Reachable E lcid_ s) :
    (rlc.reset E s).rlc_array = [(lcid_, s.next)] ∧
    (rlc.reset E s).rlc_array_mrb = [] ∧
    (rlc.reset E s).heap s.next =
      some { mode := rlc_mode_t.RLC_MODE_TM, lcid := some lcid_, cfg := none } ∧
    (∀ p ∈ s.rlc_array ++ s.rlc_array_mrb, p.2 ≠ s.next) ∧
    (rlc.reset E s).trace =
      s.trace ++ [Event.wrlock] ++ stop_delete_events s.rlc_array ++
        stop_delete_events s.rlc_array_mrb ++
        [Event.unlock, Event.wrlock, Event.new s.next rlc_mode_t.RLC_MODE_TM,
         Event.init s.next lcid_, Event.unlock] ∧
    stopped (events_since s.trace.length (rlc.reset E s)) =
      (s.rlc_array ++ s.rlc_array_mrb).map Prod.snd ∧
    destroyed (events_since s.trace.length (rlc.reset E s)) =
      (s.rlc_array ++ s.rlc_array_mrb).map Prod.snd ∧
    constructed (events_since s.trace.length (rlc.reset E s)) = [s.next] ∧
    (∀ now,
      table_view (rlc.reset E s) (rlc.reset E s).rlc_array =
        table_view (rlc.init E rlc.ctor lcid_ now) (rlc.init E rlc.ctor lcid_ now).rlc_array ∧
      (rlc.reset E s).rlc_array_mrb = (rlc.init E rlc.ctor lcid_ now).rlc_array_mrb) := by
  obtain ⟨hd, hb⟩ := reachable_invariant E lcid_ s hr
  have hev : events_since s.trace.length (rlc.reset E s) =
      [Event.wrlock] ++ stop_delete_events s.rlc_array ++
        stop_delete_events s.rlc_array_mrb ++
        [Event.unlock, Event.wrlock, Event.new s.next rlc_mode_t.RLC_MODE_TM,
         Event.init s.next lcid_, Event.unlock] := by
    apply events_since_append
    rw [reset_state, hd]
    simp only [List.append_assoc]
  rw [hev]
  refine ⟨?_, ?_, ?_, ?_, ?_, ?_, ?_, ?_, ?_⟩
  · rw [reset_state, hd]
  · rw [reset_state]
  · rw [reset_state, hd]; simp
  · intro p hp; exact Nat.ne_of_lt (hb p hp)
  · rw [reset_state, hd]
  · simp [stopped_append, stopped_stop_delete_events, stopped]
  · simp [destroyed_append, destroyed_stop_delete_events, destroyed]
  · simp [constructed_append, constructed_stop_delete_events, constructed]
  · intro now
    rw [reset_state, init_state, hd]
    simp [table_view, rlc.ctor]

/-- Witness of C6: reset in a state, reached from init with default LCID 0,
that holds unicast LCIDs 0 and 1 and multicast LCID 1. -/
theorem reset_returns_to_init_witness :
    Reachable sampleEnv 0 s_busy ∧
    s_busy.rlc_array = [(0, 0), (1, 1)] ∧ s_busy.rlc_array_mrb = [(1, 2)] ∧
    (rlc.reset sampleEnv s_busy).rlc_array = [(0, 3)] ∧
    (rlc.reset sampleEnv s_busy).rlc_array_mrb = [] ∧
    (rlc.reset sampleEnv s_busy).heap 3 =
      some { mode := rlc_mode_t.RLC_MODE_TM, lcid := some 0, cfg := none } :=
  have hr : Reachable sampleEnv 0 s_busy :=
    ⟨⟨0, 0⟩, [ManagerOp.control (ControlOp.add_bearer 1 sample_am_config),
      ManagerOp.control (ControlOp.add_bearer_mrb 1)], rfl⟩
  ⟨hr, by decide, by decide,
   (reset_returns_to_init sampleEnv 0 s_busy hr).1,
   (reset_returns_to_init sampleEnv 0 s_busy hr).2.1,
   (reset_returns_to_init sampleEnv 0 s_busy hr).2.2.1⟩

/-- The range test does not stop an insertion: for any constants and any
state whose unicast table has no key N_BEARERS, add_bearer(N_BEARERS, cnfg)
with a Transparent configuration stores the new entity under that key,
and has_bearer stays false for it. -/
theorem add_bearer_beyond_range (E : Env) (s : rlc) (cnfg : srslte_rlc_config_t)
    (hmode : cnfg.rlc_mode = rlc_mode_t.RLC_MODE_TM)
    (habsent : rlc_map_t.find s.rlc_array E.SRSLTE_N_RADIO_BEARERS = none) :
    rlc_map_t.find (rlc.add_bearer E s E.SRSLTE_N_RADIO_BEARERS cnfg).rlc_array
      E.SRSLTE_N_RADIO_BEARERS = some s.next ∧
    (rlc.has_bearer E (rlc.add_bearer E s E.SRSLTE_N_RADIO_BEARERS cnfg)
      E.SRSLTE_N_RADIO_BEARERS).2 = false := by
  have hv : rlc.valid_lcid E (s.emit Event.wrlock) E.SRSLTE_N_RADIO_BEARERS = false := by
    simp [rlc.valid_lcid]
  rw [add_bearer_ok_state E s _ cnfg hv habsent (Or.inl hmode) (fun h => absurd hmode h)]
  exact ⟨find_place_self _ _ _ habsent, by simp [rlc.has_bearer, rlc.valid_lcid]⟩

/-- C7 fails on the code: after init with default LCID 0, the call
add_bearer(11, Transparent config), 11 being the first value outside
[0, N_BEARERS) of sampleEnv, stores an entity under key 11.  The state is
reached by control-facade calls only, the unicast table holds key 11, has_bearer(11) is false, and
del_bearer(11) leaves the entry where it is. -/
theorem stored_key_beyond_range :
    ControlOp.run sampleEnv (rlc.init sampleEnv rlc.ctor 0 ⟨0, 0⟩)
      [ControlOp.add_bearer 11 srslte_rlc_config_t.default_ctor] = some s_beyond ∧
    s_beyond.rlc_array = [(0, 0), (11, 1)] ∧
    rlc_map_t.find s_beyond.rlc_array 11 = some 1 ∧
    ¬ (11 < sampleEnv.SRSLTE_N_RADIO_BEARERS) ∧
    (rlc.has_bearer sampleEnv s_beyond 11).2 = false ∧
    (rlc.del_bearer sampleEnv s_beyond 11).map (fun s => s.rlc_array) =
      some [(0, 0), (11, 1)] :=
  ⟨rfl, by decide, by decide, by decide, by decide, by decide⟩

/-! ## Data-plane calls on an unknown LCID -/

/-- C11: when no unicast bearer is present at lcid (has_bearer false, which
includes every lcid at or beyond N_BEARERS), has_data returns false,
get_buffer_state 0, read_pdu 0, rb_is_um false, and write_pdu returns; each
of them only takes and releases the read lock, so no entity is invoked and
nothing else in the manager changes.  The same holds for read_pdu_mch,
write_pdu_mch and get_total_mch_buffer_state when valid_lcid_mrb is false.
For every lcid, present or not, none of the seven calls that look up a
table with std::map::at raises, and rb_is_um can only fail to return when
the stored pointer refers to no object. -/
theorem unknown_lcid_inert (E : Env) (s : rlc) (lcid nof_bytes : Nat) (payload : List Nat) :
    ((rlc.has_bearer E s lcid).2 = false →
      rlc.has_data E s lcid =
        some ({ s with trace := s.trace ++ [Event.rdlock, Event.unlock] }, false) ∧
      rlc.get_buffer_state E s lcid =
        some ({ s with trace := s.trace ++ [Event.rdlock, Event.unlock] }, 0) ∧
      rlc.read_pdu E s lcid nof_bytes =
        some ({ s with trace := s.trace ++ [Event.rdlock, Event.unlock] }, 0) ∧
      rlc.rb_is_um E s lcid =
        some ({ s with trace := s.trace ++ [Event.rdlock, Event.unlock] }, false) ∧
      rlc.write_pdu E s lcid payload nof_bytes =
        some { s with trace := s.trace ++ [Event.rdlock, Event.unlock] }) ∧
    (rlc.valid_lcid_mrb E s lcid = false →
      rlc.read_pdu_mch E s lcid nof_bytes =
        some ({ s with trace := s.trace ++ [Event.rdlock, Event.unlock] }, 0) ∧
      rlc.write_pdu_mch E s lcid payload nof_bytes =
        some { s with trace := s.trace ++ [Event.rdlock, Event.unlock] } ∧
      rlc.get_total_mch_buffer_state E s lcid =
        some ({ s with trace := s.trace ++ [Event.rdlock, Event.unlock] }, 0)) ∧
    called [Event.rdlock, Event.unlock] = [] ∧
    ((rlc.has_data E s lcid).isSome = true ∧
      (rlc.get_buffer_state E s lcid).isSome = true ∧
      (rlc.read_pdu E s lcid nof_bytes).isSome = true ∧
      (rlc.write_pdu E s lcid payload nof_bytes).isSome = true ∧
      (rlc.read_pdu_mch E s lcid nof_bytes).isSome = true ∧
      (rlc.write_pdu_mch E s lcid payload nof_bytes).isSome = true ∧
      (rlc.get_total_mch_buffer_state E s lcid).isSome = true) ∧
    (rlc.rb_is_um E s lcid = none →
      ∃ e, rlc_map_t.find s.rlc_array lcid = some e ∧ s.heap e = none) := by
  refine ⟨?_, ?_, rfl, ?_, ?_⟩
  · intro h
    have hv : rlc.valid_lcid E s lcid = false := h
    exact ⟨has_data_unknown_state E s lcid hv, get_buffer_state_unknown_state E s lcid hv,
      read_pdu_unknown_state E s lcid nof_bytes hv, rb_is_um_unknown_state E s lcid hv,
      write_pdu_unknown_state E s lcid payload nof_bytes hv⟩
  · intro hv
    exact ⟨read_pdu_mch_unknown_state E s lcid nof_bytes hv,
      write_pdu_mch_unknown_state E s lcid payload nof_bytes hv,
      get_total_mch_buffer_state_unknown_state E s lcid hv⟩
  · have hu : (rlc.has_data E s lcid).isSome = true ∧
        (rlc.get_buffer_state E s lcid).isSome = true ∧
        (rlc.read_pdu E s lcid nof_bytes).isSome = true ∧
        (rlc.write_pdu E s lcid payload nof_bytes).isSome = true := by
      cases hv : rlc.valid_lcid E s lcid with
      | false =>
        rw [has_data_unknown_state E s lcid hv, get_buffer_state_unknown_state E s lcid hv,
          read_pdu_unknown_state E s lcid nof_bytes hv,
          write_pdu_unknown_state E s lcid payload nof_bytes hv]
        exact ⟨rfl, rfl, rfl, rfl⟩
      | true =>
        obtain ⟨_, e, he⟩ := valid_lcid_find E s lcid hv
        rw [has_data_valid_state E s lcid e hv he, get_buffer_state_valid_state E s lcid e hv he,
          read_pdu_valid_state E s lcid nof_bytes e hv he,
          write_pdu_valid_state E s lcid payload nof_bytes e hv he]
        exact ⟨rfl, rfl, rfl, rfl⟩
    have hm : (rlc.read_pdu_mch E s lcid nof_bytes).isSome = true ∧
        (rlc.write_pdu_mch E s lcid payload nof_bytes).isSome = true ∧
        (rlc.get_total_mch_buffer_state E s lcid).isSome = true := by
      cases hv : rlc.valid_lcid_mrb E s lcid with
      | false =>
        rw [read_pdu_mch_unknown_state E s lcid nof_bytes hv,
          write_pdu_mch_unknown_state E s lcid payload nof_bytes hv,
          get_total_mch_buffer_state_unknown_state E s lcid hv]
        exact ⟨rfl, rfl, rfl⟩
      | true =>
        obtain ⟨_, e, he⟩ := valid_lcid_mrb_find E s lcid hv
        rw [read_pdu_mch_valid_state E s lcid nof_bytes e hv he,
          write_pdu_mch_valid_state E s lcid payload nof_bytes e hv he,
          get_total_mch_buffer_state_valid_state E s lcid e hv he]
        exact ⟨rfl, rfl, rfl⟩
    exact ⟨hu.1, hu.2.1, hu.2.2.1, hu.2.2.2, hm.1, hm.2.1, hm.2.2⟩
  · intro hnone
    cases hv : rlc.valid_lcid E s lcid with
    | false => rw [rb_is_um_unknown_state E s lcid hv] at hnone; cases hnone
    | true =>
      obtain ⟨_, e, he⟩ := valid_lcid_find E s lcid hv
      cases ho : s.heap e with
      | none => exact ⟨e, he, ho⟩
      | some o => rw [rb_is_um_valid_state E s lcid e o hv he ho] at hnone; cases hnone

/-- Witness of C11: the absent unicast LCID 7, the out-of-range LCID 40 and
the absent multicast LCID 7, with entities that would answer every query
with non-zero values. -/
theorem unknown_lcid_inert_witness :
    (rlc.has_bearer busyEnv s_busy 7).2 = false ∧
    (rlc.has_bearer busyEnv s_busy 40).2 = false ∧
    rlc.valid_lcid_mrb busyEnv s_busy 7 = false ∧
    rlc.has_data busyEnv s_busy 7 =
      some ({ s_busy with trace := s_busy.trace ++ [Event.rdlock, Event.unlock] }, false) ∧
    rlc.get_buffer_state busyEnv s_busy 40 =
      some ({ s_busy with trace := s_busy.trace ++ [Event.rdlock, Event.unlock] }, 0) ∧
    rlc.read_pdu_mch busyEnv s_busy 7 20 =
      some ({ s_busy with trace := s_busy.trace ++ [Event.rdlock, Event.unlock] }, 0) ∧
    (rlc.rb_is_um busyEnv s_dangling 1 = none ∧
      ∃ e, rlc_map_t.find s_dangling.rlc_array 1 = some e ∧ s_dangling.heap e = none) :=
  ⟨by decide, by decide, by decide,
   ((unknown_lcid_inert busyEnv s_busy 7 20 []).1 (by decide)).1,
   ((unknown_lcid_inert busyEnv s_busy 40 20 []).1 (by decide)).2.1,
   ((unknown_lcid_inert busyEnv s_busy 7 20 []).2.1 (by decide)).1,
   rfl, (unknown_lcid_inert busyEnv s_dangling 1 20 []).2.2.2.2 rfl⟩

/-! ## Reestablishment -/

/-- C15: reestablishment never changes bearer membership.  reestablish()
calls reestablish once per slot, unicast table first, and leaves every
field of the manager but the trace as it was; in a reachable state the
stored pointers are pairwise distinct, so every stored entity gets exactly
one call.  reestablish(lcid) calls it once, on the entity stored at lcid,
when the bearer is present (has_bearer true), and on no entity otherwise;
in both cases tables and heap are unchanged. -/
theorem reestablish_frame (E : Env) (s : rlc) (lcid : Nat) :
    (s.reestablish =
      { s with trace := s.trace ++ [Event.rdlock] ++
          s.rlc_array.map (fun p => Event.reestablish p.2) ++
          s.rlc_array_mrb.map (fun p => Event.reestablish p.2) ++ [Event.unlock] } ∧
      reestablished (events_since s.trace.length s.reestablish) = stored s) ∧
    (∀ lcid_, Reachable E lcid_ s → ∀ e ∈ stored s,
      List.count e (reestablished (events_since s.trace.length s.reestablish)) = 1) ∧
    ((rlc.has_bearer E s lcid).2 = true →
      ∃ e, rlc_map_t.find s.rlc_array lcid = some e ∧
        rlc.reestablish_lcid E s lcid =
          some { s with trace := s.trace ++
            [Event.rdlock, Event.reestablish e, Event.unlock] } ∧
        reestablished [Event.rdlock, Event.reestablish e, Event.unlock] = [e]) ∧
    ((rlc.has_bearer E s lcid).2 = false →
      rlc.reestablish_lcid E s lcid =
        some { s with trace := s.trace ++ [Event.rdlock, Event.unlock] } ∧
      reestablished [Event.rdlock, Event.unlock] = []) := by
  have hev : reestablished (events_since s.trace.length s.reestablish) = stored s := by
    have h : events_since s.trace.length s.reestablish =
        [Event.rdlock] ++ s.rlc_array.map (fun p => Event.reestablish p.2) ++
          s.rlc_array_mrb.map (fun p => Event.reestablish p.2) ++ [Event.unlock] := by
      apply events_since_append
      rw [reestablish_state]
      simp only [List.append_assoc]
    rw [h]
    have hm : ∀ m : rlc_map_t,
        reestablished (m.map (fun p => Event.reestablish p.2)) = m.map Prod.snd := by
      intro m
      induction m with
      | nil => rfl
      | cons p m ih => simp [reestablished, ih]
    simp [reestablished_append, hm, reestablished, stored]
  refine ⟨⟨reestablish_state s, hev⟩, ?_, ?_, ?_⟩
  · intro lcid_ hr e he
    rw [hev]
    obtain ⟨_, _, hnd, _, hperm⟩ := reachable_ownership E lcid_ s hr
    have hnd2 : (stored s ++ destroyed s.trace).Nodup := hperm.nodup_iff.mpr hnd
    exact List.count_eq_one_of_mem (List.nodup_append.mp hnd2).1 he
  · intro h
    have hv : rlc.valid_lcid E s lcid = true := h
    obtain ⟨_, e, he⟩ := valid_lcid_find E s lcid hv
    exact ⟨e, he, reestablish_lcid_valid_state E s lcid e hv he, rfl⟩
  · intro h
    have hv : rlc.valid_lcid E s lcid = false := h
    exact ⟨reestablish_lcid_unknown_state E s lcid hv, rfl⟩

/-- Witness of C15: a reachable state with unicast LCIDs 0 and 1 and
multicast LCID 1; reestablish(1) reaches the entity at address 1 only, and
reestablish(7) reaches none. -/
theorem reestablish_frame_witness :
    Reachable sampleEnv 0 s_busy ∧
    stored s_busy = [0, 1, 2] ∧
    reestablished (events_since s_busy.trace.length s_busy.reestablish) = [0, 1, 2] ∧
    List.count 2 (reestablished (events_since s_busy.trace.length s_busy.reestablish)) = 1 ∧
    ((rlc.has_bearer sampleEnv s_busy 1).2 = true ∧
      ∃ e, rlc_map_t.find s_busy.rlc_array 1 = some e ∧
        rlc.reestablish_lcid sampleEnv s_busy 1 =
          some { s_busy with trace := s_busy.trace ++
            [Event.rdlock, Event.reestablish e, Event.unlock] }) ∧
    ((rlc.has_bearer sampleEnv s_busy 7).2 = false ∧
      rlc.reestablish_lcid sampleEnv s_busy 7 =
        some { s_busy with trace := s_busy.trace ++ [Event.rdlock, Event.unlock] }) := by
  have hr : Reachable sampleEnv 0 s_busy :=
    ⟨⟨0, 0⟩, [ManagerOp.control (ControlOp.add_bearer 1 sample_am_config),
      ManagerOp.control (ControlOp.add_bearer_mrb 1)], rfl⟩
  have hst : stored s_busy = [0, 1, 2] := by decide
  refine ⟨hr, hst, ?_, ?_, ⟨by decide, ?_⟩, ⟨by decide, ?_⟩⟩
  · rw [(reestablish_frame sampleEnv s_busy 1).1.2, hst]
  · exact (reestablish_frame sampleEnv s_busy 1).2.1 0 hr 2 (by rw [hst]; decide)
  · obtain ⟨e, h1, h2, _⟩ := (reestablish_frame sampleEnv s_busy 1).2.2.1 (by decide)
    exact ⟨e, h1, h2⟩
  · exact ((reestablish_frame sampleEnv s_busy 7).2.2.2 (by decide)).1

/-! ## add_bearer without a configuration -/

/-- C16: the overload add_bearer(lcid).  For lcid 0 it is add_bearer with
the default (Transparent Mode) configuration; for lcid 1 and 2 it is
add_bearer with the Acknowledged Mode configuration whose values are
t_poll_retx 45, poll_pdu and poll_byte infinite, max_retx_thres 4,
t_reordering 35 and t_status_prohibit 0; for every lcid above 2 the
manager is returned exactly as it was, so both tables are unchanged and
nothing is constructed. -/
theorem add_bearer_lcid_spec (E : Env) (s : rlc) (lcid : Nat) :
    (lcid = 0 →
      rlc.add_bearer_lcid E s lcid = rlc.add_bearer E s 0 srslte_rlc_config_t.default_ctor ∧
      srslte_rlc_config_t.default_ctor.rlc_mode = rlc_mode_t.RLC_MODE_TM) ∧
    (lcid = 1 ∨ lcid = 2 →
      ∃ c : srslte_rlc_config_t,
        rlc.add_bearer_lcid E s lcid = rlc.add_bearer E s lcid c ∧
        c.rlc_mode = rlc_mode_t.RLC_MODE_AM ∧
        c.am.t_poll_retx = 45 ∧ c.am.poll_pdu = none ∧ c.am.poll_byte = none ∧
        c.am.max_retx_thres = 4 ∧ c.am.t_reordering = 35 ∧ c.am.t_status_prohibit = 0) ∧
    (lcid > 2 → rlc.add_bearer_lcid E s lcid = s) := by
  refine ⟨?_, ?_, ?_⟩
  · intro h
    subst h
    exact ⟨by simp [rlc.add_bearer_lcid], rfl⟩
  · intro h
    refine ⟨srslte_rlc_config_t.of_rlc_cfg_am
      { ul_t_poll_retx := 45, ul_poll_pdu := none, ul_poll_byte := none,
        ul_max_retx_thres := 4, dl_t_reordering := 35, dl_t_status_prohibit := 0 },
      ?_, rfl, rfl, rfl, rfl, rfl, rfl, rfl⟩
    rcases h with h | h <;> subst h <;> simp [rlc.add_bearer_lcid]
  · intro h
    simp [rlc.add_bearer_lcid, h]

/-- Witness of C16: lcid 0, lcid 2 and lcid 3 right after init. -/
theorem add_bearer_lcid_spec_witness :
    rlc.add_bearer_lcid sampleEnv s_init 0 =
      rlc.add_bearer sampleEnv s_init 0 srslte_rlc_config_t.default_ctor ∧
    (∃ c : srslte_rlc_config_t,
      rlc.add_bearer_lcid sampleEnv s_init 2 = rlc.add_bearer sampleEnv s_init 2 c ∧
      c.rlc_mode = rlc_mode_t.RLC_MODE_AM ∧ c.am.t_poll_retx = 45) ∧
    rlc.add_bearer_lcid sampleEnv s_init 3 = s_init := by
  refine ⟨((add_bearer_lcid_spec sampleEnv s_init 0).1 rfl).1, ?_,
    (add_bearer_lcid_spec sampleEnv s_init 3).2.2 (by decide)⟩
  obtain ⟨c, h1, h2, h3, _⟩ := (add_bearer_lcid_spec sampleEnv s_init 2).2.1 (Or.inr rfl)
  exact ⟨c, h1, h2, h3⟩

/-! ## add_bearer_mrb -/

/-- State reached by add_bearer_mrb when the LCID is not valid in the
multicast namespace, the key is free and the entity accepts the
multicast profile. -/
theorem add_bearer_mrb_ok_state (E : Env) (s : rlc) (lcid : Nat)
    (hv : rlc.valid_lcid_mrb E s lcid = false)
    (hf : rlc_map_t.find s.rlc_array_mrb lcid = none)
    (hc : E.configure rlc_mode_t.RLC_MODE_UM E.mch_config = true) :
    rlc.add_bearer_mrb E s lcid =
      { s with
        rlc_array_mrb := rlc_map_t.place s.rlc_array_mrb lcid s.next
        heap := Function.update s.heap s.next
          (some (rlc_common.mk rlc_mode_t.RLC_MODE_UM (some lcid) (some E.mch_config)))
        next := s.next + 1
        trace := s.trace ++ [Event.wrlock, Event.new s.next rlc_mode_t.RLC_MODE_UM,
          Event.init s.next lcid, Event.configure s.next E.mch_config, Event.unlock] } := by
  have hv1 : rlc.valid_lcid_mrb E (s.emit Event.wrlock) lcid = false := hv
  unfold rlc.add_bearer_mrb
  simp only [hv1, if_true]
  simp [rlc.new_entity, rlc.entity_init, rlc.emit, rlc.entity_delete,
    rlc.entity_configure, hc, insert_absent _ _ _ hf]

/-- State reached by add_bearer_mrb when the key is already in the
multicast table or the entity refuses the multicast profile: nothing but
the lock and unlock, or an entity constructed and deleted again. -/
theorem add_bearer_mrb_failure_state (E : Env) (s : rlc) (lcid : Nat)
    (hfail : (rlc_map_t.find s.rlc_array_mrb lcid).isSome = true ∨
      E.configure rlc_mode_t.RLC_MODE_UM E.mch_config = false) :
    rlc.add_bearer_mrb E s lcid = { s with trace := s.trace ++ [Event.wrlock, Event.unlock] } ∨
    rlc.add_bearer_mrb E s lcid =
      { s with
        heap := Function.update s.heap s.next
          (some (rlc_common.mk rlc_mode_t.RLC_MODE_UM (some lcid) (some E.mch_config)))
        next := s.next + 1
        trace := s.trace ++ [Event.wrlock, Event.new s.next rlc_mode_t.RLC_MODE_UM,
          Event.init s.next lcid, Event.configure s.next E.mch_config, Event.delete s.next,
          Event.unlock] } := by
  by_cases hv : rlc.valid_lcid_mrb E (s.emit Event.wrlock) lcid = false
  · right
    cases hc : E.configure rlc_mode_t.RLC_MODE_UM E.mch_config with
    | false =>
      unfold rlc.add_bearer_mrb
      simp only [hv, if_true]
      simp [rlc.new_entity, rlc.entity_init, rlc.emit, rlc.entity_delete,
        rlc.entity_configure, hc]
    | true =>
      have hp : (rlc_map_t.find s.rlc_array_mrb lcid).isSome = true := by
        rcases hfail with h | h
        · exact h
        · rw [hc] at h; cases h
      unfold rlc.add_bearer_mrb
      simp only [hv, if_true]
      simp [rlc.new_entity, rlc.entity_init, rlc.emit, rlc.entity_delete,
        rlc.entity_configure, hc, insert_present _ _ _ hp]
  · left
    unfold rlc.add_bearer_mrb
    rw [if_neg hv]
    simp [rlc.emit]

/-- C17: add_bearer_mrb works on the multicast table only.  For an LCID in
[0, N_MCH_LCIDS) that is absent from the multicast table, when the entity
accepts the multicast profile, the multicast table afterwards holds at the
LCID the entity constructed by this call, of class Unacknowledged Mode,
initialised with the LCID and configured with the profile, and every other
multicast entry is unchanged.  When the LCID is already in the multicast
table or the profile is refused, the multicast table is unchanged and the
addresses constructed are exactly the addresses deleted.  In every case
the unicast table is unchanged, so has_bearer answers as before. -/
theorem add_bearer_mrb_spec (E : Env) (s : rlc) (lcid : Nat) :
    (lcid < E.SRSLTE_N_MCH_LCIDS → rlc_map_t.find s.rlc_array_mrb lcid = none →
      E.configure rlc_mode_t.RLC_MODE_UM E.mch_config = true →
      rlc.valid_lcid_mrb E (rlc.add_bearer_mrb E s lcid) lcid = true ∧
      rlc_map_t.find (rlc.add_bearer_mrb E s lcid).rlc_array_mrb lcid = some s.next ∧
      (rlc.add_bearer_mrb E s lcid).heap s.next =
        some { mode := rlc_mode_t.RLC_MODE_UM, lcid := some lcid, cfg := some E.mch_config } ∧
      (rlc.add_bearer_mrb E s lcid).trace =
        s.trace ++ [Event.wrlock, Event.new s.next rlc_mode_t.RLC_MODE_UM,
          Event.init s.next lcid, Event.configure s.next E.mch_config, Event.unlock] ∧
      (∀ k, k ≠ lcid →
        rlc_map_t.find (rlc.add_bearer_mrb E s lcid).rlc_array_mrb k =
          rlc_map_t.find s.rlc_array_mrb k)) ∧
    ((rlc_map_t.find s.rlc_array_mrb lcid).isSome = true ∨
        E.configure rlc_mode_t.RLC_MODE_UM E.mch_config = false →
      (rlc.add_bearer_mrb E s lcid).rlc_array_mrb = s.rlc_array_mrb ∧
      ∃ evs, (rlc.add_bearer_mrb E s lcid).trace = s.trace ++ evs ∧
        destroyed evs = constructed evs ∧
        (constructed evs = [] ∨ constructed evs = [s.next])) ∧
    ((rlc.add_bearer_mrb E s lcid).rlc_array = s.rlc_array ∧
      ∀ k, (rlc.has_bearer E (rlc.add_bearer_mrb E s lcid) k).2 = (rlc.has_bearer E s k).2) := by
  refine ⟨?_, ?_, ?_⟩
  · intro hrange habsent hc
    have hv : rlc.valid_lcid_mrb E s lcid = false := by
      simp [rlc.valid_lcid_mrb, habsent]
    rw [add_bearer_mrb_ok_state E s lcid hv habsent hc]
    refine ⟨?_, find_place_self _ _ _ habsent, by simp, rfl, ?_⟩
    · simp [rlc.valid_lcid_mrb, find_place_self _ _ _ habsent, Nat.not_le.mpr hrange]
    · intro k hk; exact find_place_other _ _ _ _ hk
  · intro hfail
    rcases add_bearer_mrb_failure_state E s lcid hfail with h | h
    · rw [h]
      exact ⟨rfl, [Event.wrlock, Event.unlock], rfl, rfl, Or.inl rfl⟩
    · rw [h]
      exact ⟨rfl, _, rfl, rfl, Or.inr rfl⟩
  · have harr : (rlc.add_bearer_mrb E s lcid).rlc_array = s.rlc_array := by
      rcases add_bearer_mrb_shape E s lcid with h | ⟨o, ev2, h⟩ | ⟨o, ev2, h⟩ <;> rw [h]
    refine ⟨harr, ?_⟩
    intro k
    simp [rlc.has_bearer, rlc.valid_lcid, rlc.emit, harr]

/-- Witness of C17: after init and an Acknowledged bearer at unicast LCID 1,
a multicast bearer is added at LCID 1 as well; in the state that already
holds it, a second add changes nothing. -/
theorem add_bearer_mrb_spec_witness :
    (1 < sampleEnv.SRSLTE_N_MCH_LCIDS ∧
      rlc_map_t.find (rlc.add_bearer sampleEnv s_init 1 sample_am_config).rlc_array_mrb 1 = none ∧
      sampleEnv.configure rlc_mode_t.RLC_MODE_UM sampleEnv.mch_config = true) ∧
    rlc.valid_lcid_mrb sampleEnv s_busy 1 = true ∧
    (rlc.has_bearer sampleEnv s_busy 1).2 = true ∧
    ((rlc_map_t.find s_busy.rlc_array_mrb 1).isSome = true ∧
      (rlc.add_bearer_mrb sampleEnv s_busy 1).rlc_array_mrb = s_busy.rlc_array_mrb) :=
  ⟨⟨by decide, by decide, rfl⟩,
   ((add_bearer_mrb_spec sampleEnv (rlc.add_bearer sampleEnv s_init 1 sample_am_config) 1).1
      (by decide) (by decide) rfl).1,
   by decide, by decide,
   ((add_bearer_mrb_spec sampleEnv s_busy 1).2.1 (Or.inl (by decide))).1⟩

/-! ## Broadcast and paging pass-through -/

theorem fill_buffer_spec (E : Env) (buf : byte_buffer_t) (payload : List Nat) (nof_bytes : Nat)
    (hlen : nof_bytes ≤ payload.length) (hcap : nof_bytes ≤ E.msg_capacity) :
    ∃ b, rlc.fill_buffer E buf payload nof_bytes = some b ∧ b.N_bytes = nof_bytes ∧
      b.msg.take nof_bytes = payload.take nof_bytes := by
  refine ⟨byte_buffer_t.mk nof_bytes (payload.take nof_bytes ++ buf.msg.drop nof_bytes),
    by simp [rlc.fill_buffer, hlen, hcap], rfl, ?_⟩
  have hl : (payload.take nof_bytes).length = nof_bytes := by
    simp [List.length_take, hlen]
  simp [List.take_append_eq_append_take, hl]

/-- Counterexample to C18 as stated for every nof_bytes: with buffers that
hold 11736 bytes from msg on and a pool that hands out a buffer, a message
of 11737 bytes makes memcpy write past the storage of the buffer; none of
the three functions has a defined result, so none of them delivers a
buffer holding the payload. -/
theorem pass_through_overrun_counterexample :
    sampleEnv.pool_allocate s_init.trace = some ⟨0, []⟩ ∧
    sampleEnv.msg_capacity = 11736 ∧
    (List.replicate 11737 0).length = 11737 ∧
    rlc.write_pdu_bcch_bch sampleEnv s_init (List.replicate 11737 0) 11737 = none ∧
    rlc.write_pdu_bcch_dlsch sampleEnv s_init (List.replicate 11737 0) 11737 = none ∧
    rlc.write_pdu_pcch sampleEnv s_init (List.replicate 11737 0) 11737 = none := by
  have hp : sampleEnv.pool_allocate s_init.trace = some ⟨0, []⟩ := rfl
  have hc : sampleEnv.msg_capacity = 11736 := rfl
  have hf : rlc.fill_buffer sampleEnv ⟨0, []⟩ (List.replicate 11737 0) 11737 = none := by
    unfold rlc.fill_buffer
    rw [if_neg]
    intro h
    have h2 := h.2
    rw [hc] at h2
    omega
  refine ⟨hp, hc, List.length_replicate _ _, ?_, ?_, ?_⟩
  · simp only [rlc.write_pdu_bcch_bch, rlc.pass_through, hp, hf]
  · simp only [rlc.write_pdu_bcch_dlsch, rlc.pass_through, hp, hf]
  · simp only [rlc.write_pdu_pcch, rlc.pass_through, hp, hf]

/-- C18, amended: the three pass-through functions.  When the pool hands
out a buffer, the payload holds at least nof_bytes bytes and nof_bytes is
at most the number of bytes a buffer holds from msg on, the function
records that allocation and calls the matching pdcp method exactly once,
with that buffer filled so that N_bytes is nof_bytes and its first
nof_bytes bytes are those of the payload.  When the pool is exhausted,
whatever payload and nof_bytes are, only the allocation attempt is
recorded and nothing is delivered.  In both cases the manager is otherwise
exactly as before and no lock is taken. -/
theorem pass_through_spec (E : Env) (s : rlc) (payload : List Nat) (nof_bytes : Nat) :
    (∀ buf, E.pool_allocate s.trace = some buf →
      nof_bytes ≤ payload.length → nof_bytes ≤ E.msg_capacity →
      ∃ b, b.N_bytes = nof_bytes ∧ b.msg.take nof_bytes = payload.take nof_bytes ∧
        rlc.write_pdu_bcch_bch E s payload nof_bytes =
          some { s with trace := s.trace ++
            [Event.pool_allocate (some buf), Event.pdcp_write_pdu_bcch_bch b] } ∧
        rlc.write_pdu_bcch_dlsch E s payload nof_bytes =
          some { s with trace := s.trace ++
            [Event.pool_allocate (some buf), Event.pdcp_write_pdu_bcch_dlsch b] } ∧
        rlc.write_pdu_pcch E s payload nof_bytes =
          some { s with trace := s.trace ++
            [Event.pool_allocate (some buf), Event.pdcp_write_pdu_pcch b] } ∧
        pdcp_delivered [Event.pool_allocate (some buf), Event.pdcp_write_pdu_bcch_bch b] = [b] ∧
        pdcp_delivered [Event.pool_allocate (some buf), Event.pdcp_write_pdu_bcch_dlsch b] = [b] ∧
        pdcp_delivered [Event.pool_allocate (some buf), Event.pdcp_write_pdu_pcch b] = [b]) ∧
    (E.pool_allocate s.trace = none →
      rlc.write_pdu_bcch_bch E s payload nof_bytes =
        some { s with trace := s.trace ++ [Event.pool_allocate none] } ∧
      rlc.write_pdu_bcch_dlsch E s payload nof_bytes =
        some { s with trace := s.trace ++ [Event.pool_allocate none] } ∧
      rlc.write_pdu_pcch E s payload nof_bytes =
        some { s with trace := s.trace ++ [Event.pool_allocate none] } ∧
      pdcp_delivered [Event.pool_allocate none] = []) := by
  refine ⟨?_, ?_⟩
  · intro buf hb hlen hcap
    obtain ⟨b, hf, h1, h2⟩ := fill_buffer_spec E buf payload nof_bytes hlen hcap
    refine ⟨b, h1, h2, ?_, ?_, ?_, rfl, rfl, rfl⟩
    · simp [rlc.write_pdu_bcch_bch, rlc.pass_through, hb, hf, rlc.emit]
    · simp [rlc.write_pdu_bcch_dlsch, rlc.pass_through, hb, hf, rlc.emit]
    · simp [rlc.write_pdu_pcch, rlc.pass_through, hb, hf, rlc.emit]
  · intro hb
    refine ⟨?_, ?_, ?_, rfl⟩
    · simp [rlc.write_pdu_bcch_bch, rlc.pass_through, hb, rlc.emit]
    · simp [rlc.write_pdu_bcch_dlsch, rlc.pass_through, hb, rlc.emit]
    · simp [rlc.write_pdu_pcch, rlc.pass_through, hb, rlc.emit]

/-- Witness of C18: a three-byte message read from a four-byte payload
into a buffer that holds 11736 bytes, with a pool that hands out a buffer
and with an exhausted pool. -/
theorem pass_through_spec_witness :
    (3 ≤ [10, 20, 30, 40].length ∧ 3 ≤ sampleEnv.msg_capacity ∧
      sampleEnv.pool_allocate s_init.trace = some ⟨0, []⟩ ∧
      ∃ b : byte_buffer_t, b.N_bytes = 3 ∧ b.msg.take 3 = [10, 20, 30] ∧
        rlc.write_pdu_pcch sampleEnv s_init [10, 20, 30, 40] 3 =
          some { s_init with trace := s_init.trace ++
            [Event.pool_allocate (some ⟨0, []⟩), Event.pdcp_write_pdu_pcch b] }) ∧
    (busyEnv.pool_allocate s_init.trace = none ∧
      rlc.write_pdu_bcch_bch busyEnv s_init [10, 20, 30, 40] 3 =
        some { s_init with trace := s_init.trace ++ [Event.pool_allocate none] }) := by
  refine ⟨⟨by decide, by decide, rfl, ?_⟩, ⟨rfl, ?_⟩⟩
  · obtain ⟨b, h1, h2, _, _, h5, _⟩ :=
      (pass_through_spec sampleEnv s_init [10, 20, 30, 40] 3).1 ⟨0, []⟩ rfl (by decide)
        (by decide)
    exact ⟨b, h1, h2, h5⟩
  · exact ((pass_through_spec busyEnv s_init [10, 20, 30, 40] 3).2 rfl).1

/-! ## get_metrics -/

theorem find_none_of_not_mem (m : rlc_map_t) (k : Nat) (h : k ∉ m.map Prod.fst) :
    rlc_map_t.find m k = none := by
  induction m with
  | nil => rfl
  | cons p m ih =>
    obtain ⟨k1, v1⟩ := p
    simp only [List.map_cons, List.mem_cons, not_or] at h
    have hk : ¬ k1 = k := fun h1 => h.1 h1.symm
    simp [rlc_map_t.find, hk, ih h.2]

/-- Entries written by the unicast loop when keys are unique. -/
theorem metrics_loop_entries (E : Env) (tr : List Event) (secs : ℚ) (m : rlc_map_t)
    (acc : rlc_metrics_t) (k : Nat) (hu : keys_unique m) :
    (rlc.metrics_loop E tr secs m acc).dl_tput_mbps k =
      ((rlc_map_t.find m k).map (fun e => tput_mbps (E.entity_num_rx_bytes tr e) secs)).getD
        (acc.dl_tput_mbps k) ∧
    (rlc.metrics_loop E tr secs m acc).ul_tput_mbps k =
      ((rlc_map_t.find m k).map (fun e => tput_mbps (E.entity_num_tx_bytes tr e) secs)).getD
        (acc.ul_tput_mbps k) := by
  induction m generalizing acc with
  | nil => simp [rlc.metrics_loop, rlc_map_t.find]
  | cons p m ih =>
    obtain ⟨k1, v1⟩ := p
    unfold keys_unique at hu
    simp only [List.map_cons, List.nodup_cons] at hu
    have ih1 := ih (rlc_metrics_t.mk
      (Function.update acc.dl_tput_mbps k1 (tput_mbps (E.entity_num_rx_bytes tr v1) secs))
      (Function.update acc.ul_tput_mbps k1 (tput_mbps (E.entity_num_tx_bytes tr v1) secs))) hu.2
    unfold rlc.metrics_loop at ih1 ⊢
    rw [List.foldl_cons]
    rw [ih1.1, ih1.2]
    by_cases hk : k1 = k
    · subst hk
      have hnone : rlc_map_t.find m k1 = none := find_none_of_not_mem m k1 hu.1
      simp [rlc_map_t.find, hnone]
    · have hk2 : ¬ k = k1 := fun h => hk h.symm
      simp [rlc_map_t.find, hk, Function.update, hk2]

/-- Entries written by the multicast loop when keys are unique. -/
theorem metrics_loop_mrb_entries (E : Env) (tr : List Event) (secs : ℚ) (m : rlc_map_t)
    (acc : rlc_metrics_t) (k : Nat) (hu : keys_unique m) :
    (rlc.metrics_loop_mrb E tr secs m acc).dl_tput_mbps k =
      ((rlc_map_t.find m k).map (fun e => tput_mbps (E.entity_num_rx_bytes tr e) secs)).getD
        (acc.dl_tput_mbps k) ∧
    (rlc.metrics_loop_mrb E tr secs m acc).ul_tput_mbps k = acc.ul_tput_mbps k := by
  induction m generalizing acc with
  | nil => simp [rlc.metrics_loop_mrb, rlc_map_t.find]
  | cons p m ih =>
    obtain ⟨k1, v1⟩ := p
    unfold keys_unique at hu
    simp only [List.map_cons, List.nodup_cons] at hu
    have ih1 := ih (rlc_metrics_t.mk
      (Function.update acc.dl_tput_mbps k1 (tput_mbps (E.entity_num_rx_bytes tr v1) secs))
      acc.ul_tput_mbps) hu.2
    unfold rlc.metrics_loop_mrb at ih1 ⊢
    rw [List.foldl_cons]
    rw [ih1.1, ih1.2]
    by_cases hk : k1 = k
    · subst hk
      have hnone : rlc_map_t.find m k1 = none := find_none_of_not_mem m k1 hu.1
      simp [rlc_map_t.find, hnone]
    · have hk2 : ¬ k = k1 := fun h => hk h.symm
      simp [rlc_map_t.find, hk, Function.update, hk2]

/-- The snapshot of get_metrics when keys are unique: an entry of
dl_tput_mbps holds the multicast value when the index is a multicast
LCID, else the unicast value when it is a unicast LCID, else what the
caller passed in. -/
theorem get_metrics_snapshot (E : Env) (s : rlc) (m : rlc_metrics_t) (now : timeval) (k : Nat)
    (hu1 : keys_unique s.rlc_array) (hu2 : keys_unique s.rlc_array_mrb) :
    (rlc.get_metrics E s m now).2.dl_tput_mbps k =
      ((rlc_map_t.find s.rlc_array_mrb k).map (fun e =>
          tput_mbps (E.entity_num_rx_bytes (s.trace ++ [Event.rdlock]) e)
            (get_time_interval s.metrics_time1 now).secs)).getD
        (((rlc_map_t.find s.rlc_array k).map (fun e =>
          tput_mbps (E.entity_num_rx_bytes (s.trace ++ [Event.rdlock]) e)
            (get_time_interval s.metrics_time1 now).secs)).getD (m.dl_tput_mbps k)) ∧
    (rlc.get_metrics E s m now).2.ul_tput_mbps k =
      ((rlc_map_t.find s.rlc_array k).map (fun e =>
          tput_mbps (E.entity_num_tx_bytes (s.trace ++ [Event.rdlock]) e)
            (get_time_interval s.metrics_time1 now).secs)).getD (m.ul_tput_mbps k) := by
  rw [get_metrics_state]
  simp only []
  rw [(metrics_loop_mrb_entries E _ _ _ _ k hu2).1, (metrics_loop_mrb_entries E _ _ _ _ k hu2).2,
    (metrics_loop_entries E _ _ _ _ k hu1).1, (metrics_loop_entries E _ _ _ _ k hu1).2]
  exact ⟨rfl, rfl⟩

theorem s_busy_keys_unique :
    keys_unique s_busy.rlc_array ∧ keys_unique s_busy.rlc_array_mrb := by
  unfold keys_unique
  exact ⟨by decide, by decide⟩

/-- C12 fails on the code: with unicast LCID 1 (entity at address 1, 1000
bytes received) and multicast LCID 1 (entity at address 2, 500 bytes
received) both live and one second elapsed, dl_tput_mbps[1] of the snapshot
is the multicast value 500*8/1e6/1 and not the unicast bearer's own
1000*8/1e6/1: the multicast loop writes the same array at the same
index. -/
theorem snapshot_overwritten_by_multicast :
    rlc_map_t.find s_busy.rlc_array 1 = some 1 ∧
    rlc_map_t.find s_busy.rlc_array_mrb 1 = some 2 ∧
    (get_time_interval s_busy.metrics_time1 ⟨1, 0⟩).secs = 1 ∧
    fixedEnv.entity_num_rx_bytes (s_busy.trace ++ [Event.rdlock]) 1 = 1000 ∧
    fixedEnv.entity_num_rx_bytes (s_busy.trace ++ [Event.rdlock]) 2 = 500 ∧
    (rlc.get_metrics fixedEnv s_busy rlc_metrics_t.zero ⟨1, 0⟩).2.dl_tput_mbps 1 =
      tput_mbps 500 1 ∧
    tput_mbps 500 1 = double_t.finite (1 / 250) ∧
    tput_mbps 1000 1 = double_t.finite (1 / 125) ∧
    tput_mbps 500 1 ≠ tput_mbps 1000 1 := by
  have hsecs : (get_time_interval s_busy.metrics_time1 ⟨1, 0⟩).secs = 1 := by
    have h1 : s_busy.metrics_time1 = ⟨0, 0⟩ := by decide
    rw [h1]
    norm_num [get_time_interval, timeval.secs]
  have h500 : tput_mbps 500 1 = double_t.finite (1 / 250) := by
    norm_num [tput_mbps, double_t.div]
  have h1000 : tput_mbps 1000 1 = double_t.finite (1 / 125) := by
    norm_num [tput_mbps, double_t.div]
  refine ⟨by decide, by decide, hsecs, rfl, rfl, ?_, h500, h1000, ?_⟩
  · rw [(get_metrics_snapshot fixedEnv s_busy rlc_metrics_t.zero ⟨1, 0⟩ 1 s_busy_keys_unique.1
      s_busy_keys_unique.2).1, hsecs]
    have hf : rlc_map_t.find s_busy.rlc_array_mrb 1 = some 2 := by decide
    rw [hf]
    rfl
  · rw [h500, h1000]
    intro h
    injection h with h
    norm_num at h

theorem ownership_nodup (s : rlc) (h : ownership s) :
    (stored s ++ destroyed s.trace).Nodup :=
  (List.Perm.nodup_iff h.2.2.2.2).mpr h.2.2.1

/-- Calls of one step go to entities that have not been destroyed. -/
theorem step_calls_live (s s' : rlc) (evs : List Event) (ho : ownership s)
    (hk : StepKind s evs s') : ∀ e ∈ called evs, e ∉ destroyed s.trace := by
  have hnd := List.nodup_append.mp (ownership_nodup s ho)
  have hdis : ∀ e ∈ stored s, e ∉ destroyed s.trace := fun e he hd => hnd.2.2 he hd
  have hfresh : s.next ∉ destroyed s.trace := by
    intro hd
    have hc : s.next ∈ constructed s.trace :=
      (List.Perm.mem_iff ho.2.2.2.2).mp (List.mem_append.mpr (Or.inr hd))
    exact Nat.lt_irrefl _ (ho.2.2.2.1 _ hc)
  intro e he
  cases hk with
  | quiet harr hmrb hnext hc hd hcall => exact hdis e (hcall e he)
  | discard harr hmrb hnext hc hd hcall => rw [hcall e he]; exact hfresh
  | store k hfree harr hmrb hnext hc hd hcall => rw [hcall e he]; exact hfresh
  | store_mrb k hfree harr hmrb hnext hc hd hcall => rw [hcall e he]; exact hfresh
  | remove k x hfind harr hmrb hnext hc hd hcall =>
    rw [hcall e he]
    exact hdis x (stored_of_find s k x hfind)
  | remove_mrb k x hfind harr hmrb hnext hc hd hcall =>
    rw [hcall e he]
    exact hdis x (stored_of_find_mrb s k x hfind)
  | rename o n x hfind hfree harr hmrb hnext hc hd hcall =>
    rw [hcall] at he
    cases he
  | clear harr hmrb hnext hc hd hcall =>
    rcases hcall e he with h | h
    · exact hdis e h
    · rw [h]; exact hfresh

/-- A sequence of calls keeps the ownership invariant and only extends the
trace. -/
theorem run_ownership (E : Env) (ops : List ManagerOp) :
    ∀ (a b : rlc), ownership a → ManagerOp.run E a ops = some b →
      ownership b ∧ ∃ evs, b.trace = a.trace ++ evs := by
  induction ops with
  | nil =>
    intro a b ha h
    simp only [ManagerOp.run, Option.some.injEq] at h
    subst h
    exact ⟨ha, [], by simp⟩
  | cons op ops ih =>
    intro a b ha h
    simp only [ManagerOp.run] at h
    cases hop : ManagerOp.apply E a op with
    | none => simp [hop] at h
    | some a1 =>
      simp only [hop] at h
      obtain ⟨_, evs, htr, hk⟩ := apply_step_kind E a op a1 hop
      obtain ⟨hb, evs2, htr2⟩ := ih a1 b (ownership_step a a1 evs ha htr hk) h
      exact ⟨hb, evs ++ evs2, by rw [htr2, htr, List.append_assoc]⟩

/-- C19: in every state reachable from init by manager operations, the
pointers stored in the two tables taken together are pairwise distinct, no
stored pointer has been deleted, every constructed entity is either stored
in exactly one slot and not deleted or stored nowhere and deleted exactly
once, only constructed entities are stored or deleted, and after any
further sequence of calls no call of a further operation goes to an entity
that had been deleted in that state. -/
theorem exclusive_ownership (E : Env) (lcid_ : Nat) (s : rlc) (hr : Reachable E lcid_ s) :
    (stored s).Nodup ∧
    (∀ e ∈ stored s, e ∉ destroyed s.trace) ∧
    (∀ e ∈ constructed s.trace,
      ((stored s).count e = 1 ∧ (destroyed s.trace).count e = 0) ∨
      ((stored s).count e = 0 ∧ (destroyed s.trace).count e = 1)) ∧
    (∀ e, e ∈ stored s ∨ e ∈ destroyed s.trace → e ∈ constructed s.trace) ∧
    (∀ (ops : List ManagerOp) (s2 : rlc) (op : ManagerOp) (s3 : rlc),
      ManagerOp.run E s ops = some s2 → ManagerOp.apply E s2 op = some s3 →
      ∀ e ∈ destroyed s.trace, e ∉ called (events_since s2.trace.length s3)) := by
  have ho := reachable_ownership E lcid_ s hr
  have hnd := List.nodup_append.mp (ownership_nodup s ho)
  refine ⟨hnd.1, fun e he hd => hnd.2.2 he hd, ?_, ?_, ?_⟩
  · intro e he
    have h1 : List.count e (constructed s.trace) = 1 := List.count_eq_one_of_mem ho.2.2.1 he
    have h2 := List.Perm.count_eq ho.2.2.2.2 e
    rw [List.count_append, h1] at h2
    omega
  · intro e he
    exact (List.Perm.mem_iff ho.2.2.2.2).mp (List.mem_append.mpr he)
  · intro ops s2 op s3 hrun hop e he hcall
    obtain ⟨ho2, evs, htr⟩ := run_ownership E ops s s2 ho hrun
    obtain ⟨_, evs3, htr3, hk⟩ := apply_step_kind E s2 op s3 hop
    rw [events_since_append s2 s3 evs3 htr3] at hcall
    have hd2 : e ∈ destroyed s2.trace := by
      rw [htr, destroyed_append]
      exact List.mem_append.mpr (Or.inl he)
    exact step_calls_live s2 s3 evs3 ho2 hk e hcall hd2

/-- Witness of C19: after del_bearer(1) in the state with unicast LCIDs 0
and 1 and multicast LCID 1, the entity at address 1 is deleted, addresses
0 and 2 are stored, and a later write_pdu(1) calls no entity. -/
theorem exclusive_ownership_witness :
    Reachable sampleEnv 0 s_deleted ∧
    stored s_deleted = [0, 2] ∧ destroyed s_deleted.trace = [1] ∧
    constructed s_deleted.trace = [0, 1, 2] ∧
    ManagerOp.apply sampleEnv s_deleted (ManagerOp.write_pdu 1 [7] 1) =
      some { s_deleted with trace := s_deleted.trace ++ [Event.rdlock, Event.unlock] } ∧
    1 ∉ called (events_since s_deleted.trace.length
      { s_deleted with trace := s_deleted.trace ++ [Event.rdlock, Event.unlock] }) :=
  have hr : Reachable sampleEnv 0 s_deleted :=
    ⟨⟨0, 0⟩, [ManagerOp.control (ControlOp.add_bearer 1 sample_am_config),
      ManagerOp.control (ControlOp.add_bearer_mrb 1),
      ManagerOp.control (ControlOp.del_bearer 1)], rfl⟩
  ⟨hr, by decide, by decide, by decide, rfl,
   (exclusive_ownership sampleEnv 0 s_deleted hr).2.2.2.2 [] s_deleted
     (ManagerOp.write_pdu 1 [7] 1) _ rfl rfl 1 (by decide)⟩

/-! ## Lock discipline -/

theorem lock_run_append (l : LockState) (a b : List Event) :
    lock_run l (a ++ b) = (lock_run l a).bind (fun l1 => lock_run l1 b) := by
  induction a generalizing l with
  | nil => rfl
  | cons e a ih =>
    simp only [List.cons_append, lock_run]
    cases lock_event l e with
    | none => rfl
    | some l1 => exact ih l1

/-- A loop that calls one method, not a lock call, on every entity of a
table leaves the lock alone. -/
theorem lock_run_map (f : Nat → Event) (hf : ∀ l e, lock_event l (f e) = some l)
    (m : rlc_map_t) (l : LockState) : lock_run l (m.map (fun p => f p.2)) = some l := by
  induction m with
  | nil => rfl
  | cons p m ih => simp [lock_run, hf, ih]

theorem lock_run_stop_delete_events (m : rlc_map_t) (l : LockState) :
    lock_run l (stop_delete_events m) = some l := by
  induction m with
  | nil => rfl
  | cons p m ih => simp [stop_delete_events, lock_run, lock_event, ih]

/-- A statement that makes the calls evs and keeps both tables. -/
theorem monitor_step_events (l : LockState) (a b : rlc) (evs : List Event)
    (h1 : b.rlc_array = a.rlc_array) (h2 : b.rlc_array_mrb = a.rlc_array_mrb)
    (ht : b.trace = a.trace ++ evs) : monitor_step l a b = lock_run l evs := by
  unfold monitor_step
  simp [h1, h2, ht]

/-- A statement that makes no call, under the write lock. -/
theorem monitor_step_write (a b : rlc) (ht : b.trace = a.trace) :
    monitor_step LockState.write a b = some LockState.write := by
  unfold monitor_step
  simp [ht, lock_run]

theorem monitor_cons_events (l l1 : LockState) (a b : rlc) (rest : List rlc) (evs : List Event)
    (h1 : b.rlc_array = a.rlc_array) (h2 : b.rlc_array_mrb = a.rlc_array_mrb)
    (ht : b.trace = a.trace ++ evs) (hl : lock_run l evs = some l1) :
    monitor l a (b :: rest) = monitor l1 b rest := by
  simp only [monitor, monitor_step_events l a b evs h1 h2 ht, hl]

theorem monitor_cons_write (a b : rlc) (rest : List rlc) (ht : b.trace = a.trace) :
    monitor LockState.write a (b :: rest) = monitor LockState.write b rest := by
  simp only [monitor, monitor_step_write a b ht]

theorem monitor_append (l : LockState) (a : rlc) (p q : List rlc) :
    monitor l a (p ++ q) = (monitor l a p).bind (fun l1 => monitor l1 (last_state a p) q) := by
  induction p generalizing l a with
  | nil => rfl
  | cons b p ih =>
    simp only [List.cons_append, monitor, last_state]
    cases monitor_step l a b with
    | none => rfl
    | some l1 => exact ih l1 b

theorem last_state_append (a : rlc) (p q : List rlc) :
    last_state a (p ++ q) = last_state (last_state a p) q := by
  induction p generalizing a with
  | nil => rfl
  | cons b p ih => exact ih b

/-- What the monitor accepts on a path, it accepts on the calls recorded
between the first and the last state. -/
theorem monitor_trace (path : List rlc) :
    ∀ (l l1 : LockState) (a : rlc), monitor l a path = some l1 →
      ∃ evs, (last_state a path).trace = a.trace ++ evs ∧ lock_run l evs = some l1 := by
  induction path with
  | nil =>
    intro l l1 a h
    simp only [monitor, Option.some.injEq] at h
    exact ⟨[], by simp [last_state], by simp [lock_run, h]⟩
  | cons b path ih =>
    intro l l1 a h
    simp only [monitor] at h
    cases hs : monitor_step l a b with
    | none => simp [hs] at h
    | some l2 =>
      simp only [hs] at h
      obtain ⟨evs, htr, hl⟩ := ih l2 l1 b h
      unfold monitor_step at hs
      by_cases hp : b.trace.take a.trace.length = a.trace
      · have hb : b.trace = a.trace ++ b.trace.drop a.trace.length := by
          conv_lhs => rw [← List.take_append_drop a.trace.length b.trace, hp]
        simp only [hp, ne_eq, not_true_eq_false, if_false] at hs
        by_cases ht : a.rlc_array = b.rlc_array ∧ a.rlc_array_mrb = b.rlc_array_mrb
        · simp only [ht, and_self, if_true] at hs
          refine ⟨b.trace.drop a.trace.length ++ evs, ?_, ?_⟩
          · simp only [last_state]
            rw [htr, ← List.append_assoc, ← hb]
          · rw [lock_run_append, hs]
            exact hl
        · rw [if_neg ht] at hs
          by_cases hw : l = LockState.write ∧ b.trace = a.trace
          · rw [if_pos hw, Option.some.injEq] at hs
            refine ⟨evs, ?_, ?_⟩
            · simp only [last_state]
              rw [htr, hw.2]
            · rw [hs]
              exact hl
          · rw [if_neg hw] at hs
            cases hs
      · simp [hp] at hs

theorem monitor_quiet (l : LockState) (a b : rlc) (rest : List rlc) (evs : List Event)
    (h1 : b.rlc_array = a.rlc_array) (h2 : b.rlc_array_mrb = a.rlc_array_mrb)
    (ht : b.trace = a.trace ++ evs) :
    monitor l a (b :: rest) = (lock_run l evs).bind (fun l1 => monitor l1 b rest) := by
  simp only [monitor, monitor_step_events l a b evs h1 h2 ht]
  cases lock_run l evs <;> rfl

theorem monitor_nil (l : LockState) (a : rlc) : monitor l a [] = some l := rfl

theorem monitor_emit (l : LockState) (s : rlc) (ev : Event) (rest : List rlc) :
    monitor l s (s.emit ev :: rest) =
      (lock_event l ev).bind (fun l1 => monitor l1 (s.emit ev) rest) := by
  rw [monitor_quiet l s (s.emit ev) rest [ev] rfl rfl rfl]
  simp only [lock_run]
  cases lock_event l ev <;> rfl

theorem monitor_same (l : LockState) (s : rlc) (rest : List rlc) :
    monitor l s (s :: rest) = monitor l s rest := by
  rw [monitor_quiet l s s rest [] rfl rfl (by simp)]
  rfl

theorem monitor_new_entity (l : LockState) (s : rlc) (mode : rlc_mode_t) (rest : List rlc) :
    monitor l s ((s.new_entity mode).1 :: rest) = monitor l (s.new_entity mode).1 rest := by
  rw [monitor_quiet l s (s.new_entity mode).1 rest [Event.new s.next mode] rfl rfl rfl]
  rfl

theorem monitor_entity_init (l : LockState) (s : rlc) (e lcid : Nat) (rest : List rlc) :
    monitor l s (s.entity_init e lcid :: rest) = monitor l (s.entity_init e lcid) rest := by
  rw [monitor_quiet l s (s.entity_init e lcid) rest [Event.init e lcid] rfl rfl rfl]
  rfl

theorem monitor_entity_configure (l : LockState) (E : Env) (s : rlc) (e : Nat)
    (cnfg : srslte_rlc_config_t) (rest : List rlc) :
    monitor l s ((rlc.entity_configure E s e cnfg).1 :: rest) =
      monitor l (rlc.entity_configure E s e cnfg).1 rest := by
  rw [monitor_quiet l s (rlc.entity_configure E s e cnfg).1 rest [Event.configure e cnfg] rfl rfl rfl]
  rfl

theorem monitor_entity_stop (l : LockState) (s : rlc) (e : Nat) (rest : List rlc) :
    monitor l s (s.entity_stop e :: rest) = monitor l (s.entity_stop e) rest := by
  rw [monitor_quiet l s (s.entity_stop e) rest [Event.stop e] rfl rfl rfl]
  rfl

theorem monitor_entity_delete (l : LockState) (s : rlc) (e : Nat) (rest : List rlc) :
    monitor l s (s.entity_delete e :: rest) = monitor l (s.entity_delete e) rest := by
  rw [monitor_quiet l s (s.entity_delete e) rest [Event.delete e] rfl rfl rfl]
  rfl

theorem monitor_set_rlc_array (s : rlc) (m : rlc_map_t) (rest : List rlc) :
    monitor LockState.write s ({ s with rlc_array := m } :: rest) =
      monitor LockState.write { s with rlc_array := m } rest := by
  simp only [monitor, monitor_step_write s { s with rlc_array := m } rfl]

theorem monitor_set_rlc_array_mrb (s : rlc) (m : rlc_map_t) (rest : List rlc) :
    monitor LockState.write s ({ s with rlc_array_mrb := m } :: rest) =
      monitor LockState.write { s with rlc_array_mrb := m } rest := by
  simp only [monitor, monitor_step_write s { s with rlc_array_mrb := m } rfl]

theorem monitor_stop_delete_loop (l : LockState) (s : rlc) (m : rlc_map_t) (rest : List rlc) :
    monitor l s (rlc.stop_delete_loop m s :: rest) =
      monitor l (rlc.stop_delete_loop m s) rest := by
  rw [monitor_quiet l s (rlc.stop_delete_loop m s) rest (stop_delete_events m) (by rw [stop_delete_loop_state])
    (by rw [stop_delete_loop_state]) (by rw [stop_delete_loop_state]),
    lock_run_stop_delete_events]
  rfl

theorem monitor_two (s : rlc) (ev : Event) (l : LockState)
    (h1 : lock_event LockState.unlocked ev = some l)
    (h2 : lock_event l Event.unlock = some LockState.unlocked) :
    monitor LockState.unlocked s [s.emit ev, (s.emit ev).emit Event.unlock] =
      some LockState.unlocked := by
  rw [monitor_emit, h1, Option.some_bind, monitor_emit, h2]
  rfl

/-- The path of add_bearer ends in the state add_bearer returns, and the
monitor accepts it. -/
theorem add_bearer_path_ok (E : Env) (s : rlc) (lcid : Nat) (cnfg : srslte_rlc_config_t) :
    last_state s (rlc.add_bearer_path E s lcid cnfg) = rlc.add_bearer E s lcid cnfg ∧
    monitor LockState.unlocked s (rlc.add_bearer_path E s lcid cnfg) =
      some LockState.unlocked := by
  unfold rlc.add_bearer_path rlc.add_bearer
  by_cases hv : rlc.valid_lcid E (s.emit Event.wrlock) lcid = false
  · simp only [hv, if_true]
    cases hm : cnfg.rlc_mode with
    | invalid raw =>
      simp only [rlc.switch_new]
      exact ⟨rfl, monitor_two s Event.wrlock LockState.write rfl rfl⟩
    | RLC_MODE_TM =>
      simp only [rlc.switch_new, ne_eq, not_true_eq_false, if_false]
      split_ifs <;>
      · refine ⟨rfl, ?_⟩
        simp [monitor_emit, monitor_new_entity, monitor_entity_init, monitor_entity_delete,
          monitor_same, monitor_set_rlc_array, lock_event, monitor_nil]
    | RLC_MODE_AM =>
      simp only [rlc.switch_new, ne_eq, reduceCtorEq, not_false_eq_true, if_true]
      split_ifs <;>
      · refine ⟨rfl, ?_⟩
        simp [monitor_emit, monitor_new_entity, monitor_entity_init, monitor_entity_delete,
          monitor_entity_configure, monitor_set_rlc_array, lock_event, monitor_nil]
    | RLC_MODE_UM =>
      simp only [rlc.switch_new, ne_eq, reduceCtorEq, not_false_eq_true, if_true]
      split_ifs <;>
      · refine ⟨rfl, ?_⟩
        simp [monitor_emit, monitor_new_entity, monitor_entity_init, monitor_entity_delete,
          monitor_entity_configure, monitor_set_rlc_array, lock_event, monitor_nil]
  · simp only [hv, if_false]
    exact ⟨rfl, monitor_two s Event.wrlock LockState.write rfl rfl⟩

theorem monitor_silent (l : LockState) (a b : rlc) (rest : List rlc)
    (h1 : b.rlc_array = a.rlc_array) (h2 : b.rlc_array_mrb = a.rlc_array_mrb)
    (ht : b.trace = a.trace) : monitor l a (b :: rest) = monitor l b rest := by
  rw [monitor_quiet l a b rest [] h1 h2 (by simp [ht])]
  rfl

/-- The path of add_bearer_mrb ends in the state add_bearer_mrb returns,
and the monitor accepts it. -/
theorem add_bearer_mrb_path_ok (E : Env) (s : rlc) (lcid : Nat) :
    last_state s (rlc.add_bearer_mrb_path E s lcid) = rlc.add_bearer_mrb E s lcid ∧
    monitor LockState.unlocked s (rlc.add_bearer_mrb_path E s lcid) =
      some LockState.unlocked := by
  unfold rlc.add_bearer_mrb_path rlc.add_bearer_mrb
  by_cases hv : rlc.valid_lcid_mrb E (s.emit Event.wrlock) lcid = false
  · simp only [hv, if_true]
    split_ifs <;>
    · refine ⟨rfl, ?_⟩
      simp [monitor_emit, monitor_new_entity, monitor_entity_init, monitor_entity_delete,
        monitor_entity_configure, monitor_set_rlc_array_mrb, lock_event, monitor_nil]
  · simp only [hv, if_false]
    exact ⟨rfl, monitor_two s Event.wrlock LockState.write rfl rfl⟩

/-- The path of del_bearer ends in the state del_bearer returns, and the
monitor accepts it. -/
theorem del_bearer_path_ok (E : Env) (s : rlc) (lcid : Nat) (s' : rlc)
    (hop : rlc.del_bearer E s lcid = some s') :
    last_state s (rlc.del_bearer_path E s lcid) = s' ∧
    monitor LockState.unlocked s (rlc.del_bearer_path E s lcid) = some LockState.unlocked := by
  unfold rlc.del_bearer at hop
  unfold rlc.del_bearer_path
  by_cases hv : rlc.valid_lcid E (s.emit Event.wrlock) lcid = true
  · simp only [hv, if_true] at hop ⊢
    cases hf : rlc_map_t.find (s.emit Event.wrlock).rlc_array lcid with
    | none => simp [hf] at hop
    | some e =>
      simp only [hf, Option.some.injEq] at hop
      subst hop
      refine ⟨rfl, ?_⟩
      simp [monitor_emit, monitor_entity_stop, monitor_entity_delete, monitor_set_rlc_array,
        lock_event, monitor_nil]
  · simp only [hv, Bool.false_eq_true, if_false, Option.some.injEq] at hop ⊢
    subst hop
    exact ⟨rfl, monitor_two s Event.wrlock LockState.write rfl rfl⟩

/-- The path of del_bearer_mrb ends in the state del_bearer_mrb returns,
and the monitor accepts it. -/
theorem del_bearer_mrb_path_ok (E : Env) (s : rlc) (lcid : Nat) (s' : rlc)
    (hop : rlc.del_bearer_mrb E s lcid = some s') :
    last_state s (rlc.del_bearer_mrb_path E s lcid) = s' ∧
    monitor LockState.unlocked s (rlc.del_bearer_mrb_path E s lcid) =
      some LockState.unlocked := by
  unfold rlc.del_bearer_mrb at hop
  unfold rlc.del_bearer_mrb_path
  by_cases hv : rlc.valid_lcid_mrb E (s.emit Event.wrlock) lcid = true
  · simp only [hv, if_true] at hop ⊢
    cases hf : rlc_map_t.find (s.emit Event.wrlock).rlc_array_mrb lcid with
    | none => simp [hf] at hop
    | some e =>
      simp only [hf, Option.some.injEq] at hop
      subst hop
      refine ⟨rfl, ?_⟩
      simp [monitor_emit, monitor_entity_stop, monitor_entity_delete,
        monitor_set_rlc_array_mrb, lock_event, monitor_nil]
  · simp only [hv, Bool.false_eq_true, if_false, Option.some.injEq] at hop ⊢
    subst hop
    exact ⟨rfl, monitor_two s Event.wrlock LockState.write rfl rfl⟩

/-- The path of change_lcid ends in the state change_lcid returns, and the
monitor accepts it. -/
theorem change_lcid_path_ok (E : Env) (s : rlc) (o n : Nat) (s' : rlc)
    (hop : rlc.change_lcid E s o n = some s') :
    last_state s (rlc.change_lcid_path E s o n) = s' ∧
    monitor LockState.unlocked s (rlc.change_lcid_path E s o n) = some LockState.unlocked := by
  unfold rlc.change_lcid at hop
  unfold rlc.change_lcid_path
  by_cases hv : (rlc.valid_lcid E (s.emit Event.wrlock) o &&
      !rlc.valid_lcid E (s.emit Event.wrlock) n) = true
  · simp only [hv, if_true] at hop ⊢
    cases hf : rlc_map_t.find (s.emit Event.wrlock).rlc_array o with
    | none => simp [hf] at hop
    | some e =>
      simp only [hf] at hop ⊢
      by_cases hi : (rlc_map_t.insert (s.emit Event.wrlock).rlc_array n e).2 = false
      · simp only [hi, if_true, Option.some.injEq] at hop ⊢
        subst hop
        exact ⟨rfl, monitor_two s Event.wrlock LockState.write rfl rfl⟩
      · simp only [if_neg hi, Option.some.injEq] at hop ⊢
        subst hop
        refine ⟨rfl, ?_⟩
        simp [monitor_emit, monitor_set_rlc_array, lock_event, monitor_nil]
  · simp only [hv, Bool.false_eq_true, if_false, Option.some.injEq] at hop ⊢
    subst hop
    exact ⟨rfl, monitor_two s Event.wrlock LockState.write rfl rfl⟩

/-- The path of reset ends in the state reset returns, and the monitor
accepts it. -/
theorem reset_path_ok (E : Env) (s : rlc) :
    last_state s (rlc.reset_path E s) = rlc.reset E s ∧
    monitor LockState.unlocked s (rlc.reset_path E s) = some LockState.unlocked := by
  unfold rlc.reset_path rlc.reset
  simp only []
  rw [last_state_append, monitor_append]
  refine ⟨(add_bearer_path_ok E _ _ _).1, ?_⟩
  simp only [monitor_emit, monitor_stop_delete_loop, monitor_set_rlc_array,
    monitor_set_rlc_array_mrb, lock_event, monitor_nil, if_true, Option.some_bind,
    reduceCtorEq, if_false]
  exact (add_bearer_path_ok E _ _ _).2

/-- The path of add_bearer(uint32_t) ends in the state it returns, and the
monitor accepts it. -/
theorem add_bearer_lcid_path_ok (E : Env) (s : rlc) (lcid : Nat) :
    last_state s (rlc.add_bearer_lcid_path E s lcid) = rlc.add_bearer_lcid E s lcid ∧
    monitor LockState.unlocked s (rlc.add_bearer_lcid_path E s lcid) =
      some LockState.unlocked := by
  unfold rlc.add_bearer_lcid_path rlc.add_bearer_lcid
  by_cases h2 : lcid > 2
  · simp only [h2, if_true]
    exact ⟨rfl, rfl⟩
  · simp only [h2, if_false]
    by_cases h0 : lcid = 0
    · simp only [h0, if_true]
      exact add_bearer_path_ok E s 0 _
    · simp only [h0, if_false]
      exact add_bearer_path_ok E s lcid _

/-- The path of a control-facade call ends in the state the call returns,
and the monitor accepts it. -/
theorem control_path_ok (E : Env) (s : rlc) (c : ControlOp) (s' : rlc)
    (hop : ControlOp.apply E s c = some s') :
    last_state s (ControlOp.path E s c) = s' ∧
    monitor LockState.unlocked s (ControlOp.path E s c) = some LockState.unlocked := by
  cases c with
  | add_bearer lcid cnfg =>
    simp only [ControlOp.apply, Option.some.injEq] at hop
    subst hop
    exact add_bearer_path_ok E s lcid cnfg
  | add_bearer_mrb lcid =>
    simp only [ControlOp.apply, Option.some.injEq] at hop
    subst hop
    exact add_bearer_mrb_path_ok E s lcid
  | del_bearer lcid => exact del_bearer_path_ok E s lcid s' hop
  | del_bearer_mrb lcid => exact del_bearer_mrb_path_ok E s lcid s' hop
  | change_lcid o n => exact change_lcid_path_ok E s o n s' hop
  | reset =>
    simp only [ControlOp.apply, Option.some.injEq] at hop
    subst hop
    exact reset_path_ok E s

/-- The pass-through functions take no lock and keep both tables. -/
theorem pass_through_quiet (E : Env) (s : rlc) (deliver : byte_buffer_t → Event)
    (payload : List Nat) (nof_bytes : Nat) (s' : rlc)
    (hdel : ∀ l b, lock_event l (deliver b) = some l)
    (hop : rlc.pass_through E s deliver payload nof_bytes = some s') :
    s'.rlc_array = s.rlc_array ∧ s'.rlc_array_mrb = s.rlc_array_mrb ∧
    ∃ evs, s'.trace = s.trace ++ evs ∧
      lock_run LockState.unlocked evs = some LockState.unlocked := by
  unfold rlc.pass_through at hop
  cases ha : E.pool_allocate s.trace with
  | none =>
    simp only [ha, Option.some.injEq] at hop
    subst hop
    exact ⟨rfl, rfl, [Event.pool_allocate none], rfl, rfl⟩
  | some buf =>
    simp only [ha] at hop
    cases hf : rlc.fill_buffer E buf payload nof_bytes with
    | none => simp [hf] at hop
    | some b1 =>
      simp only [hf, Option.some.injEq] at hop
      subst hop
      refine ⟨rfl, rfl, [Event.pool_allocate (some buf), deliver b1], by simp [rlc.emit], ?_⟩
      have h1 : lock_event LockState.unlocked (Event.pool_allocate (some buf)) =
          some LockState.unlocked := rfl
      simp only [lock_run, h1, hdel]

/-- Every call other than the control facade and add_bearer(uint32_t)
keeps both tables, and the calls it makes take and release the lock in
order. -/
theorem apply_quiet (E : Env) (s : rlc) (op : ManagerOp) (s' : rlc)
    (hop : ManagerOp.apply E s op = some s')
    (hc : ∀ c, op ≠ ManagerOp.control c) (hl : ∀ k, op ≠ ManagerOp.add_bearer_lcid k) :
    s'.rlc_array = s.rlc_array ∧ s'.rlc_array_mrb = s.rlc_array_mrb ∧
    ∃ evs, s'.trace = s.trace ++ evs ∧
      lock_run LockState.unlocked evs = some LockState.unlocked := by
  cases op with
  | control c => exact absurd rfl (hc c)
  | write_sdu lcid sdu blocking =>
    simp only [ManagerOp.apply] at hop
    by_cases hsize : sdu.N_bytes > E.RLC_MAX_SDU_SIZE
    · rw [write_sdu_oversize_state E s lcid sdu blocking hsize, Option.some.injEq] at hop
      subst hop
      exact ⟨rfl, rfl, _, rfl, rfl⟩
    · have hle : sdu.N_bytes ≤ E.RLC_MAX_SDU_SIZE := Nat.not_lt.mp hsize
      cases hv : rlc.valid_lcid E s lcid with
      | true =>
        obtain ⟨e, he, hw⟩ := write_sdu_valid_state E s lcid sdu blocking hle hv
        rw [hw, Option.some.injEq] at hop
        subst hop
        exact ⟨rfl, rfl, _, rfl, rfl⟩
      | false =>
        rw [write_sdu_unknown_state E s lcid sdu blocking hle hv, Option.some.injEq] at hop
        subst hop
        exact ⟨rfl, rfl, _, rfl, rfl⟩
  | write_sdu_mch lcid sdu =>
    simp only [ManagerOp.apply] at hop
    cases hv : rlc.valid_lcid_mrb E s lcid with
    | true =>
      obtain ⟨e, he, hw⟩ := write_sdu_mch_valid_state E s lcid sdu hv
      rw [hw, Option.some.injEq] at hop
      subst hop
      exact ⟨rfl, rfl, _, rfl, rfl⟩
    | false =>
      rw [write_sdu_mch_unknown_state E s lcid sdu hv, Option.some.injEq] at hop
      subst hop
      exact ⟨rfl, rfl, _, rfl, rfl⟩
  | has_bearer lcid =>
    simp only [ManagerOp.apply, Option.some.injEq] at hop
    subst hop
    exact ⟨rfl, rfl, [Event.rdlock, Event.unlock], by simp [rlc.has_bearer, rlc.emit], rfl⟩
  | add_bearer_lcid lcid => exact absurd rfl (hl lcid)
  | stop =>
    simp only [ManagerOp.apply, Option.some.injEq] at hop
    subst hop
    rw [stop_state]
    refine ⟨rfl, rfl, [Event.rdlock] ++ s.rlc_array.map (fun p => Event.stop p.2) ++
      s.rlc_array_mrb.map (fun p => Event.stop p.2) ++ [Event.unlock],
      by simp only [List.append_assoc], ?_⟩
    simp [lock_run_append, lock_run_map Event.stop (fun _ _ => rfl), lock_run, lock_event]
  | get_metrics now =>
    simp only [ManagerOp.apply, Option.some.injEq] at hop
    subst hop
    rw [get_metrics_state]
    refine ⟨rfl, rfl, [Event.rdlock] ++ s.rlc_array.map (fun p => Event.reset_metrics p.2) ++
      s.rlc_array_mrb.map (fun p => Event.reset_metrics p.2) ++ [Event.unlock],
      by simp only [List.append_assoc], ?_⟩
    simp [lock_run_append, lock_run_map Event.reset_metrics (fun _ _ => rfl), lock_run, lock_event]
  | reestablish =>
    simp only [ManagerOp.apply, Option.some.injEq] at hop
    subst hop
    rw [reestablish_state]
    refine ⟨rfl, rfl, [Event.rdlock] ++ s.rlc_array.map (fun p => Event.reestablish p.2) ++
      s.rlc_array_mrb.map (fun p => Event.reestablish p.2) ++ [Event.unlock],
      by simp only [List.append_assoc], ?_⟩
    simp [lock_run_append, lock_run_map Event.reestablish (fun _ _ => rfl), lock_run, lock_event]
  | reestablish_lcid lcid =>
    simp only [ManagerOp.apply] at hop
    cases hv : rlc.valid_lcid E s lcid with
    | true =>
      obtain ⟨_, e, he⟩ := valid_lcid_find E s lcid hv
      rw [reestablish_lcid_valid_state E s lcid e hv he, Option.some.injEq] at hop
      subst hop
      exact ⟨rfl, rfl, _, rfl, rfl⟩
    | false =>
      rw [reestablish_lcid_unknown_state E s lcid hv, Option.some.injEq] at hop
      subst hop
      exact ⟨rfl, rfl, _, rfl, rfl⟩
  | empty_queue =>
    simp only [ManagerOp.apply, Option.some.injEq] at hop
    subst hop
    rw [empty_queue_state]
    refine ⟨rfl, rfl, [Event.rdlock] ++ s.rlc_array.map (fun p => Event.empty_queue p.2) ++
      [Event.unlock],
      by simp only [List.append_assoc], ?_⟩
    simp [lock_run_append, lock_run_map Event.empty_queue (fun _ _ => rfl), lock_run, lock_event]
  | rb_is_um lcid =>
    simp only [ManagerOp.apply] at hop
    cases hv : rlc.valid_lcid E s lcid with
    | true =>
      obtain ⟨_, e, he⟩ := valid_lcid_find E s lcid hv
      cases ho : s.heap e with
      | none =>
        have hv1 : rlc.valid_lcid E (s.emit Event.rdlock) lcid = true := hv
        unfold rlc.rb_is_um at hop
        simp only [hv1, if_true] at hop
        simp [rlc.emit, he, ho] at hop
      | some o =>
        rw [rb_is_um_valid_state E s lcid e o hv he ho] at hop
        simp only [Option.map_some', Option.some.injEq] at hop
        subst hop
        exact ⟨rfl, rfl, _, rfl, rfl⟩
    | false =>
      rw [rb_is_um_unknown_state E s lcid hv] at hop
      simp only [Option.map_some', Option.some.injEq] at hop
      subst hop
      exact ⟨rfl, rfl, _, rfl, rfl⟩
  | has_data lcid =>
    simp only [ManagerOp.apply] at hop
    cases hv : rlc.valid_lcid E s lcid with
    | true =>
      obtain ⟨_, e, he⟩ := valid_lcid_find E s lcid hv
      rw [has_data_valid_state E s lcid e hv he] at hop
      simp only [Option.map_some', Option.some.injEq] at hop
      subst hop
      exact ⟨rfl, rfl, _, rfl, rfl⟩
    | false =>
      rw [has_data_unknown_state E s lcid hv] at hop
      simp only [Option.map_some', Option.some.injEq] at hop
      subst hop
      exact ⟨rfl, rfl, _, rfl, rfl⟩
  | get_buffer_state lcid =>
    simp only [ManagerOp.apply] at hop
    cases hv : rlc.valid_lcid E s lcid with
    | true =>
      obtain ⟨_, e, he⟩ := valid_lcid_find E s lcid hv
      rw [get_buffer_state_valid_state E s lcid e hv he] at hop
      simp only [Option.map_some', Option.some.injEq] at hop
      subst hop
      exact ⟨rfl, rfl, _, rfl, rfl⟩
    | false =>
      rw [get_buffer_state_unknown_state E s lcid hv] at hop
      simp only [Option.map_some', Option.some.injEq] at hop
      subst hop
      exact ⟨rfl, rfl, _, rfl, rfl⟩
  | get_total_mch_buffer_state lcid =>
    simp only [ManagerOp.apply] at hop
    cases hv : rlc.valid_lcid_mrb E s lcid with
    | true =>
      obtain ⟨_, e, he⟩ := valid_lcid_mrb_find E s lcid hv
      rw [get_total_mch_buffer_state_valid_state E s lcid e hv he] at hop
      simp only [Option.map_some', Option.some.injEq] at hop
      subst hop
      exact ⟨rfl, rfl, _, rfl, rfl⟩
    | false =>
      rw [get_total_mch_buffer_state_unknown_state E s lcid hv] at hop
      simp only [Option.map_some', Option.some.injEq] at hop
      subst hop
      exact ⟨rfl, rfl, _, rfl, rfl⟩
  | read_pdu lcid n =>
    simp only [ManagerOp.apply] at hop
    cases hv : rlc.valid_lcid E s lcid with
    | true =>
      obtain ⟨_, e, he⟩ := valid_lcid_find E s lcid hv
      rw [read_pdu_valid_state E s lcid n e hv he] at hop
      simp only [Option.map_some', Option.some.injEq] at hop
      subst hop
      exact ⟨rfl, rfl, _, rfl, rfl⟩
    | false =>
      rw [read_pdu_unknown_state E s lcid n hv] at hop
      simp only [Option.map_some', Option.some.injEq] at hop
      subst hop
      exact ⟨rfl, rfl, _, rfl, rfl⟩
  | read_pdu_mch lcid n =>
    simp only [ManagerOp.apply] at hop
    cases hv : rlc.valid_lcid_mrb E s lcid with
    | true =>
      obtain ⟨_, e, he⟩ := valid_lcid_mrb_find E s lcid hv
      rw [read_pdu_mch_valid_state E s lcid n e hv he] at hop
      simp only [Option.map_some', Option.some.injEq] at hop
      subst hop
      exact ⟨rfl, rfl, _, rfl, rfl⟩
    | false =>
      rw [read_pdu_mch_unknown_state E s lcid n hv] at hop
      simp only [Option.map_some', Option.some.injEq] at hop
      subst hop
      exact ⟨rfl, rfl, _, rfl, rfl⟩
  | write_pdu lcid payload n =>
    simp only [ManagerOp.apply] at hop
    cases hv : rlc.valid_lcid E s lcid with
    | true =>
      obtain ⟨_, e, he⟩ := valid_lcid_find E s lcid hv
      rw [write_pdu_valid_state E s lcid payload n e hv he, Option.some.injEq] at hop
      subst hop
      exact ⟨rfl, rfl, _, rfl, rfl⟩
    | false =>
      rw [write_pdu_unknown_state E s lcid payload n hv, Option.some.injEq] at hop
      subst hop
      exact ⟨rfl, rfl, _, rfl, rfl⟩
  | write_pdu_mch lcid payload n =>
    simp only [ManagerOp.apply] at hop
    cases hv : rlc.valid_lcid_mrb E s lcid with
    | true =>
      obtain ⟨_, e, he⟩ := valid_lcid_mrb_find E s lcid hv
      rw [write_pdu_mch_valid_state E s lcid payload n e hv he, Option.some.injEq] at hop
      subst hop
      exact ⟨rfl, rfl, _, rfl, rfl⟩
    | false =>
      rw [write_pdu_mch_unknown_state E s lcid payload n hv, Option.some.injEq] at hop
      subst hop
      exact ⟨rfl, rfl, _, rfl, rfl⟩
  | write_pdu_bcch_bch payload n =>
    exact pass_through_quiet E s Event.pdcp_write_pdu_bcch_bch payload n s' (fun _ _ => rfl) hop
  | write_pdu_bcch_dlsch payload n =>
    exact pass_through_quiet E s Event.pdcp_write_pdu_bcch_dlsch payload n s' (fun _ _ => rfl) hop
  | write_pdu_pcch payload n =>
    exact pass_through_quiet E s Event.pdcp_write_pdu_pcch payload n s' (fun _ _ => rfl) hop

theorem monitor_reset_metrics (l : LockState) (s : rlc) (rest : List rlc) :
    monitor l s (s.reset_metrics :: rest) = monitor l s.reset_metrics rest := by
  rw [monitor_quiet l s s.reset_metrics rest
    (s.rlc_array.map (fun p => Event.reset_metrics p.2) ++
      s.rlc_array_mrb.map (fun p => Event.reset_metrics p.2))
    (by rw [reset_metrics_state]) (by rw [reset_metrics_state])
    (by rw [reset_metrics_state, List.append_assoc]),
    lock_run_append, lock_run_map Event.reset_metrics (fun _ _ => rfl), Option.some_bind,
    lock_run_map Event.reset_metrics (fun _ _ => rfl)]
  rfl

theorem delete_loop_state (m : rlc_map_t) (s : rlc) :
    rlc.delete_loop m s = { s with trace := s.trace ++ m.map (fun p => Event.delete p.2) } :=
  emit_loop_state Event.delete m s

theorem monitor_delete_loop (l : LockState) (s : rlc) (m : rlc_map_t) (rest : List rlc) :
    monitor l s (rlc.delete_loop m s :: rest) = monitor l (rlc.delete_loop m s) rest := by
  rw [monitor_quiet l s (rlc.delete_loop m s) rest (m.map (fun p => Event.delete p.2))
    (by rw [delete_loop_state]) (by rw [delete_loop_state]) (by rw [delete_loop_state]),
    lock_run_map Event.delete (fun _ _ => rfl)]
  rfl

/-- The path of init ends in the state init returns, and the monitor
accepts it. -/
theorem init_path_ok (E : Env) (s : rlc) (lcid_ : Nat) (now : timeval) :
    last_state s (rlc.init_path E s lcid_ now) = rlc.init E s lcid_ now ∧
    monitor LockState.unlocked s (rlc.init_path E s lcid_ now) = some LockState.unlocked := by
  unfold rlc.init_path rlc.init
  simp only []
  rw [last_state_append, monitor_append]
  refine ⟨(add_bearer_path_ok E _ _ _).1, ?_⟩
  rw [monitor_silent LockState.unlocked s { s with default_lcid := lcid_ } _ rfl rfl rfl,
    monitor_silent LockState.unlocked { s with default_lcid := lcid_ }
      { s with default_lcid := lcid_, metrics_time1 := now } _ rfl rfl rfl,
    monitor_reset_metrics, monitor_nil, Option.some_bind]
  exact (add_bearer_path_ok E _ _ _).2

/-- The monitor accepts the path of the destructor, which ends with both
tables empty. -/
theorem dtor_path_ok (s : rlc) :
    (last_state s (rlc.dtor_path s)).rlc_array = [] ∧
    (last_state s (rlc.dtor_path s)).rlc_array_mrb = [] ∧
    monitor LockState.unlocked s (rlc.dtor_path s) = some LockState.unlocked := by
  refine ⟨?_, ?_, ?_⟩
  · simp [rlc.dtor_path, delete_loop_state, last_state, rlc.emit]
  · simp [rlc.dtor_path, delete_loop_state, last_state, rlc.emit]
  · unfold rlc.dtor_path
    simp [monitor_emit, monitor_delete_loop, monitor_set_rlc_array, monitor_set_rlc_array_mrb,
      lock_event, monitor_nil]

/-- The path of a call ends in the state the call returns, and the monitor
accepts it. -/
theorem apply_path_ok (E : Env) (s : rlc) (op : ManagerOp) (s' : rlc)
    (hop : ManagerOp.apply E s op = some s') :
    last_state s (ManagerOp.path E s op) = s' ∧
    monitor LockState.unlocked s (ManagerOp.path E s op) = some LockState.unlocked := by
  have single : ∀ op1 : ManagerOp, ManagerOp.apply E s op1 = some s' →
      (∀ c, op1 ≠ ManagerOp.control c) → (∀ k, op1 ≠ ManagerOp.add_bearer_lcid k) →
      last_state s [s'] = s' ∧
      monitor LockState.unlocked s [s'] = some LockState.unlocked := by
    intro op1 h1 hc hl
    obtain ⟨ha, hm, evs, ht, hr⟩ := apply_quiet E s op1 s' h1 hc hl
    refine ⟨rfl, ?_⟩
    rw [monitor_quiet LockState.unlocked s s' [] evs ha hm ht, hr]
    rfl
  cases op with
  | control c => exact control_path_ok E s c s' hop
  | add_bearer_lcid lcid =>
    simp only [ManagerOp.apply, Option.some.injEq] at hop
    subst hop
    exact add_bearer_lcid_path_ok E s lcid
  | write_sdu lcid sdu blocking =>
    simp only [ManagerOp.path, hop, single_path]
    exact single _ hop (fun c h => by cases h) (fun k h => by cases h)
  | write_sdu_mch lcid sdu =>
    simp only [ManagerOp.path, hop, single_path]
    exact single _ hop (fun c h => by cases h) (fun k h => by cases h)
  | has_bearer lcid =>
    simp only [ManagerOp.path, hop, single_path]
    exact single _ hop (fun c h => by cases h) (fun k h => by cases h)
  | stop =>
    simp only [ManagerOp.path, hop, single_path]
    exact single _ hop (fun c h => by cases h) (fun k h => by cases h)
  | get_metrics now =>
    simp only [ManagerOp.path, hop, single_path]
    exact single _ hop (fun c h => by cases h) (fun k h => by cases h)
  | reestablish =>
    simp only [ManagerOp.path, hop, single_path]
    exact single _ hop (fun c h => by cases h) (fun k h => by cases h)
  | reestablish_lcid lcid =>
    simp only [ManagerOp.path, hop, single_path]
    exact single _ hop (fun c h => by cases h) (fun k h => by cases h)
  | empty_queue =>
    simp only [ManagerOp.path, hop, single_path]
    exact single _ hop (fun c h => by cases h) (fun k h => by cases h)
  | rb_is_um lcid =>
    simp only [ManagerOp.path, hop, single_path]
    exact single _ hop (fun c h => by cases h) (fun k h => by cases h)
  | has_data lcid =>
    simp only [ManagerOp.path, hop, single_path]
    exact single _ hop (fun c h => by cases h) (fun k h => by cases h)
  | get_buffer_state lcid =>
    simp only [ManagerOp.path, hop, single_path]
    exact single _ hop (fun c h => by cases h) (fun k h => by cases h)
  | get_total_mch_buffer_state lcid =>
    simp only [ManagerOp.path, hop, single_path]
    exact single _ hop (fun c h => by cases h) (fun k h => by cases h)
  | read_pdu lcid n =>
    simp only [ManagerOp.path, hop, single_path]
    exact single _ hop (fun c h => by cases h) (fun k h => by cases h)
  | read_pdu_mch lcid n =>
    simp only [ManagerOp.path, hop, single_path]
    exact single _ hop (fun c h => by cases h) (fun k h => by cases h)
  | write_pdu lcid payload n =>
    simp only [ManagerOp.path, hop, single_path]
    exact single _ hop (fun c h => by cases h) (fun k h => by cases h)
  | write_pdu_mch lcid payload n =>
    simp only [ManagerOp.path, hop, single_path]
    exact single _ hop (fun c h => by cases h) (fun k h => by cases h)
  | write_pdu_bcch_bch payload n =>
    simp only [ManagerOp.path, hop, single_path]
    exact single _ hop (fun c h => by cases h) (fun k h => by cases h)
  | write_pdu_bcch_dlsch payload n =>
    simp only [ManagerOp.path, hop, single_path]
    exact single _ hop (fun c h => by cases h) (fun k h => by cases h)
  | write_pdu_pcch payload n =>
    simp only [ManagerOp.path, hop, single_path]
    exact single _ hop (fun c h => by cases h) (fun k h => by cases h)

/-- C20: with the reader/writer lock followed as explicit state, every
call on the manager that returns passes through the states of its path,
which ends in the state the call returns, and the monitor accepts the path
from the lock not held to the lock not held: the lock is never acquired
while held, never released while not held, every statement that changes
the membership of a table is executed while the lock is held in write
mode, and a function that is taken as one step changes no table.  The
calls recorded by the call itself take and release the lock in order.
The same holds for init and for the destructor. -/
theorem lock_discipline (E : Env) (s : rlc) (op : ManagerOp) (s' : rlc)
    (hop : ManagerOp.apply E s op = some s') :
    last_state s (ManagerOp.path E s op) = s' ∧
    monitor LockState.unlocked s (ManagerOp.path E s op) = some LockState.unlocked ∧
    lock_run LockState.unlocked (events_since s.trace.length s') = some LockState.unlocked ∧
    (∀ lcid_ now,
      last_state s (rlc.init_path E s lcid_ now) = rlc.init E s lcid_ now ∧
      monitor LockState.unlocked s (rlc.init_path E s lcid_ now) = some LockState.unlocked ∧
      lock_run LockState.unlocked (events_since s.trace.length (rlc.init E s lcid_ now)) =
        some LockState.unlocked) ∧
    monitor LockState.unlocked s (rlc.dtor_path s) = some LockState.unlocked := by
  obtain ⟨h1, h2⟩ := apply_path_ok E s op s' hop
  refine ⟨h1, h2, ?_, ?_, (dtor_path_ok s).2.2⟩
  · obtain ⟨evs, ht, hl⟩ := monitor_trace _ _ _ s h2
    rw [h1] at ht
    rw [events_since_append s s' evs ht]
    exact hl
  · intro lcid_ now
    obtain ⟨i1, i2⟩ := init_path_ok E s lcid_ now
    refine ⟨i1, i2, ?_⟩
    obtain ⟨evs, ht, hl⟩ := monitor_trace _ _ _ s i2
    rw [i1] at ht
    rw [events_since_append s _ evs ht]
    exact hl

/-- Witness of C20: reset in the state with unicast LCIDs 0 and 1 and
multicast LCID 1 passes twelve states; the monitor accepts them, and it
rejects a read lock followed by a write lock, an unlock with no lock held,
and a table write under the read lock. -/
theorem lock_discipline_witness :
    ManagerOp.apply sampleEnv s_busy (ManagerOp.control ControlOp.reset) =
      some (rlc.reset sampleEnv s_busy) ∧
    (ManagerOp.path sampleEnv s_busy (ManagerOp.control ControlOp.reset)).length = 12 ∧
    last_state s_busy (ManagerOp.path sampleEnv s_busy (ManagerOp.control ControlOp.reset)) =
      rlc.reset sampleEnv s_busy ∧
    monitor LockState.unlocked s_busy
      (ManagerOp.path sampleEnv s_busy (ManagerOp.control ControlOp.reset)) =
      some LockState.unlocked ∧
    lock_run LockState.unlocked (events_since s_busy.trace.length (rlc.reset sampleEnv s_busy)) =
      some LockState.unlocked ∧
    lock_run LockState.unlocked [Event.rdlock, Event.wrlock] = none ∧
    lock_run LockState.unlocked [Event.unlock] = none ∧
    monitor LockState.unlocked s_busy
      [s_busy.emit Event.rdlock, { s_busy.emit Event.rdlock with rlc_array := [] }] = none :=
  ⟨rfl, by decide,
   (lock_discipline sampleEnv s_busy (ManagerOp.control ControlOp.reset) _ rfl).1,
   (lock_discipline sampleEnv s_busy (ManagerOp.control ControlOp.reset) _ rfl).2.1,
   (lock_discipline sampleEnv s_busy (ManagerOp.control ControlOp.reset) _ rfl).2.2.1,
   by decide, by decide, by decide⟩

end srslte
